import Mathlib

/-!
# haproxyctl — verification of the manifest reconciliation / apply engine

Shallow embedding of the parts of the `haproxyctl` repository that the
reconciliation claims are about:

* the duration codec `internal.ParseDurationToMillis` / `internal.FormatMillisAsDuration`
  (which delegate to Go's `time.ParseDuration` / `time.Duration.String`, embedded
  here faithfully, with 64-bit wrap-around modelled explicitly);
* the child-diff engines `applyServerDiff` (backends/edit.go) and `applyBindDiff`
  (frontends/edit.go), with Go map iteration order abstracted as a quantified
  enumeration of the key set;
* the typed manifest model (`backendConfig`, `frontendConfig`, `ServerConfig`,
  `BindConfig`), validation, wire-payload conversion, and the raw-object readers
  `populateBackendConfigFromMap` / `mapServerFromAPI` / `mapBindFromAPI`;
* the apply entry points `ApplyBackendFromYAML` / `ApplyFrontendFromYAML`,
  modelled as pure functions from a manifest and an API oracle to a result
  together with the full trace of network calls issued.

Modelling conventions:

* Go `int`/`int64` values are `Int` (or `Nat` where provably non-negative), with
  two's-complement wrap-around applied explicitly (`wrap64`) exactly where the Go
  code can overflow.
* Go maps are association lists built with an insert that overwrites the value of
  an existing key in place (`goInsert`); map iteration order is unspecified in Go,
  so every result that depends on it is quantified over all enumerations of the
  key set.
* `reflect.DeepEqual` on the typed config structs is structural equality of the
  embedded structures.  Go map values inside the structs are kept as association
  lists in their construction order; no claim below depends on the order of keys
  inside such a field.
* Go `strings.TrimSpace` trims Unicode white space; only the ASCII white-space
  characters are modelled (no theorem below involves non-ASCII white space).
* In Go's `time.ParseDuration` the fractional part contributes
  `uint64(float64(f) * (float64(unit)/scale))`; this is modelled as the exact
  `f * unit / scale`.  The two coincide whenever `scale` divides `unit` and the
  product stays below 2^53, which covers every string reachable in the theorems
  below (fractions produced by `time.Duration.String` have at most three digits
  and a `s` unit).
-/

namespace Haproxyctl

/-- Substring test, the model of Go `strings.Contains`. -/
def strContains (s sub : String) : Bool :=
  s.data.tails.any fun t => sub.data.isPrefixOf t

/-- ASCII white-space characters trimmed by Go `strings.TrimSpace`. -/
def isGoSpace (c : Char) : Bool :=
  c = ' ' ∨ c = '\t' ∨ c = '\n' ∨ c = '\x0b' ∨ c = '\x0c' ∨ c = '\r'

/-- Model of Go `strings.TrimSpace` (ASCII white space only; see file header). -/
def goTrimSpace (s : String) : String :=
  String.mk (((s.data.dropWhile isGoSpace).reverse.dropWhile isGoSpace).reverse)

/-- Value of a big-endian decimal digit string, starting from `acc`. -/
def decValFrom (acc : Nat) (ds : List Char) : Nat :=
  ds.foldl (fun a c => a * 10 + (c.toNat - 48)) acc

/-- Value of a big-endian decimal digit string. -/
def decVal (ds : List Char) : Nat := decValFrom 0 ds

/-- Interpret an integer modulo 2^64 as a signed two's-complement 64-bit value. -/
def wrap64 (z : Int) : Int :=
  let r := z % (2 ^ 64 : Int)
  if r < 2 ^ 63 then r else r - 2 ^ 64

namespace GoTime

/-- Worker for Go `time.fmtInt`: big-endian decimal digits of `n`, empty for 0.
The fuel argument only bounds the recursion; any fuel at least `n + 1` is enough. -/
def fmtIntAux : Nat → Nat → List Char
  | 0, _ => []
  | fuel + 1, n => if n = 0 then [] else fmtIntAux fuel (n / 10) ++ [Nat.digitChar (n % 10)]

/-- Go `time.fmtInt`: big-endian decimal digits of `n`, at least one digit. -/
def fmtIntChars (n : Nat) : List Char :=
  if n = 0 then ['0'] else fmtIntAux (n + 1) n

/-- Worker for Go `time.fmtFrac`: processes `prec` digits of `v` starting from the
least significant, latching `print` at the first non-zero digit and prepending the
kept digits to `acc`. -/
def fmtFracAux : Nat → Nat → Bool → List Char → Nat × Bool × List Char
  | v, 0, print, acc => (v, print, acc)
  | v, p + 1, print, acc =>
    let digit := v % 10
    let print := print || decide (digit ≠ 0)
    let acc := if print then Nat.digitChar digit :: acc else acc
    fmtFracAux (v / 10) p print acc

/-- Go `time.fmtFrac`: the fraction tail of `v` over `prec` digits with trailing
zeros omitted and a leading dot when non-empty, plus the remaining `v`. -/
def fmtFrac (v prec : Nat) : Nat × List Char :=
  let r := fmtFracAux v prec false []
  (r.1, if r.2.1 then '.' :: r.2.2 else r.2.2)

/-- Go `time.Duration.String` on a 64-bit duration value in nanoseconds. -/
def goDurationString (d : Int) : String :=
  let u := d.natAbs
  let body :=
    if u < 1000000000 then
      if u = 0 then "0s"
      else if u < 1000 then String.mk (fmtIntChars u) ++ "ns"
      else if u < 1000000 then
        let r := fmtFrac u 3
        String.mk (fmtIntChars r.1 ++ r.2) ++ "µs"
      else
        let r := fmtFrac u 6
        String.mk (fmtIntChars r.1 ++ r.2) ++ "ms"
    else
      let r := fmtFrac u 9
      let sec := r.1
      let s0 := String.mk (fmtIntChars (sec % 60) ++ r.2) ++ "s"
      let mins := sec / 60
      if mins = 0 then s0
      else
        let s1 := String.mk (fmtIntChars (mins % 60)) ++ "m" ++ s0
        let hrs := mins / 60
        if hrs = 0 then s1 else String.mk (fmtIntChars hrs) ++ "h" ++ s1
  if d < 0 then "-" ++ body else body

/-- Go `time.leadingInt`: consume leading decimal digits, failing on overflow
past 2^63 exactly as the Go code does. -/
def leadingIntGo : Nat → List Char → Option (Nat × List Char)
  | x, [] => some (x, [])
  | x, c :: cs =>
    if c.isDigit then
      if x > 2 ^ 63 / 10 then none
      else
        let x' := x * 10 + (c.toNat - 48)
        if x' > 2 ^ 63 then none else leadingIntGo x' cs
    else some (x, c :: cs)

/-- Go `time.leadingFraction`: digits after the decimal point; overflowing digits
are consumed but no longer change the value or the scale. -/
def leadingFractionGo : Nat → Nat → Bool → List Char → Nat × Nat × List Char
  | x, scale, _, [] => (x, scale, [])
  | x, scale, ov, c :: cs =>
    if ¬ c.isDigit then (x, scale, c :: cs)
    else if ov then leadingFractionGo x scale ov cs
    else if x > (2 ^ 63 - 1) / 10 then leadingFractionGo x scale true cs
    else
      let y := x * 10 + (c.toNat - 48)
      if y > 2 ^ 63 then leadingFractionGo x scale true cs
      else leadingFractionGo y (scale * 10) false cs

/-- Go `time.unitMap`: nanoseconds per unit token. -/
def unitNanos : String → Option Nat
  | "ns" => some 1
  | "us" => some 1000
  | "µs" => some 1000
  | "μs" => some 1000
  | "ms" => some 1000000
  | "s" => some 1000000000
  | "m" => some 60000000000
  | "h" => some 3600000000000
  | _ => none

/-- Length of the unit token: Go scans forward until a digit or a dot. -/
def unitLen (s : List Char) : Nat :=
  (s.takeWhile fun c => ¬ (c = '.' ∨ c.isDigit)).length

/-- The component loop of Go `time.ParseDuration`.  Each iteration consumes one
`<number>[.<fraction>]<unit>` component and adds its nanosecond value to `d`,
with the same overflow checks as the Go code.  `fuel` bounds the number of
iterations; the top level supplies more fuel than components. -/
def parseLoop : Nat → List Char → Nat → Option Nat
  | 0, _, _ => none
  | _ + 1, [], d => some d
  | fuel + 1, c :: rest, d =>
    if ¬ (c = '.' ∨ c.isDigit) then none
    else
      match leadingIntGo 0 (c :: rest) with
      | none => none
      | some (v, s1) =>
        let pre := decide (s1.length ≠ (c :: rest).length)
        let fr :=
          match s1 with
          | c1 :: s1' =>
            if c1 = '.' then
              let r := leadingFractionGo 0 1 false s1'
              (r.1, r.2.1, r.2.2, decide (r.2.2.length ≠ s1'.length))
            else ((0 : Nat), (1 : Nat), s1, false)
          | [] => ((0 : Nat), (1 : Nat), s1, false)
        let f := fr.1
        let scale := fr.2.1
        let s2 := fr.2.2.1
        let post := fr.2.2.2
        if ¬ pre ∧ ¬ post then none
        else
          let i := unitLen s2
          if i = 0 then none
          else
            match unitNanos (String.mk (s2.take i)) with
            | none => none
            | some unit =>
              if v > 2 ^ 63 / unit then none
              else
                let v := v * unit
                let v := if f > 0 then v + f * unit / scale else v
                if f > 0 ∧ v > 2 ^ 63 then none
                else
                  let d' := d + v
                  if d' > 2 ^ 63 then none else parseLoop fuel (s2.drop i) d'

/-- The leading-sign scan shared by Go `time.ParseDuration` and `strconv.Atoi`:
an optional single `-` or `+` is consumed, and the flag records a `-`. -/
def stripSign : List Char → Bool × List Char
  | [] => (false, [])
  | c :: r =>
    if c = '-' then (true, r)
    else if c = '+' then (false, r)
    else (false, c :: r)

/-- Go `time.ParseDuration`, as a total function returning `none` on the error
cases.  The result is the signed 64-bit nanosecond count. -/
def goParseDuration (str : String) : Option Int :=
  let sg := stripSign str.data
  let neg := sg.1
  let s := sg.2
  if s = ['0'] then some 0
  else if s = [] then none
  else
    match parseLoop (s.length + 1) s 0 with
    | none => none
    | some d =>
      if neg then some (-(d : Int))
      else if d > 2 ^ 63 - 1 then none
      else some (d : Int)

/-- Go `strconv.Atoi` on a 64-bit platform: optional sign, one or more decimal
digits, value within the `int64` range; anything else is an error. -/
def goAtoi (str : String) : Option Int :=
  let sg := stripSign str.data
  let neg := sg.1
  let ds := sg.2
  if ds = [] ∨ ¬ ds.all Char.isDigit then none
  else
    let n := decVal ds
    if neg then if n ≤ 2 ^ 63 then some (-(n : Int)) else none
    else if n ≤ 2 ^ 63 - 1 then some (n : Int) else none

/-- Specification device for the round-trip proof: the trimmed fraction digits
that `fmtFrac` keeps at second precision for a millisecond remainder `r < 1000`
(the digits of `r/1000` with trailing zeros omitted). -/
def fracChars3 (r : Nat) : List Char :=
  if r % 10 ≠ 0 then
    [Nat.digitChar (r / 100), Nat.digitChar (r / 10 % 10), Nat.digitChar (r % 10)]
  else if r / 10 % 10 ≠ 0 then [Nat.digitChar (r / 100), Nat.digitChar (r / 10 % 10)]
  else if r / 100 ≠ 0 then [Nat.digitChar (r / 100)]
  else []

/-- Specification device for the round-trip proof: the character-level form of
`FormatMillisAsDuration` on a positive in-range millisecond count. -/
def msChars (m : Nat) : List Char :=
  if m < 1000 then fmtIntChars m ++ ['m', 's']
  else
    let sec := m / 1000
    let r := m % 1000
    let frac : List Char := if r = 0 then [] else '.' :: fracChars3 r
    let sPart := fmtIntChars (sec % 60) ++ frac ++ ['s']
    let mins := sec / 60
    if mins = 0 then sPart
    else
      let mPart := fmtIntChars (mins % 60) ++ 'm' :: sPart
      let hrs := mins / 60
      if hrs = 0 then mPart else fmtIntChars hrs ++ 'h' :: mPart

end GoTime

namespace Internal

open GoTime

/-- `internal.FormatMillisAsDuration`: zero renders as the empty string, any
other millisecond count as Go's standard duration string of
`time.Duration(ms) * time.Millisecond` (with 64-bit wrap-around). -/
def FormatMillisAsDuration (ms : Int) : String :=
  if ms = 0 then "" else goDurationString (wrap64 (ms * 1000000))

/-- `internal.ParseDurationToMillis`: trim, empty means zero, a bare integer is
already milliseconds, otherwise parse as a Go duration and truncate to
milliseconds. -/
def ParseDurationToMillis (s : String) : Except String Int :=
  let t := goTrimSpace s
  if t = "" then .ok 0
  else
    match goAtoi t with
    | some n => .ok n
    | none =>
      match goParseDuration t with
      | none => .error ("invalid duration " ++ t)
      | some d => .ok (Int.tdiv d 1000000)

end Internal

/-! ## Child resource model: servers and binds -/

/-- `servers.ServerConfig`: the full server object of the Data Plane API view. -/
structure ServerConfig where
  apiVersion : String := ""
  kind : String := ""
  name : String := ""
  address : String := ""
  port : Int := 0
  weight : Int := 0
  ssl : Bool := false
  backend : String := ""
  parent : String := ""
deriving DecidableEq, Repr

/-- `frontends.BindConfig`: a frontend bind; `name` is the wire identity the
Data Plane API assigned, never part of the manifest. -/
structure BindConfig where
  address : String := ""
  port : Int := 0
  ssl : Bool := false
  name : String := ""
deriving DecidableEq, Repr

/-- `backends.serverConfigEqual`: the fields significant to the Data Plane API. -/
def serverConfigEqual (a b : ServerConfig) : Bool :=
  a.name = b.name ∧ a.address = b.address ∧ a.port = b.port ∧
  a.weight = b.weight ∧ a.ssl = b.ssl

/-- `frontends.bindConfigEqual`: address, port, ssl; the wire name is ignored. -/
def bindConfigEqual (a b : BindConfig) : Bool :=
  a.address = b.address ∧ a.port = b.port ∧ a.ssl = b.ssl

/-- Identity key of a bind: `fmt.Sprintf("%s:%d", b.Address, b.Port)`. -/
def bindKey (b : BindConfig) : String := b.address ++ ":" ++ toString b.port

/-! ## Go map model

A Go map with string keys is modelled as an association list whose keys are
unique: assignment overwrites the value of an existing key in place, otherwise
appends.  Iteration order over a Go map is unspecified, so every theorem whose
conclusion depends on it quantifies over all enumerations of the key list. -/

/-- Go map assignment `m[k] = v`. -/
def goInsert (m : List (String × α)) (k : String) (v : α) : List (String × α) :=
  if m.any fun p => p.1 = k then m.map fun p => if p.1 = k then (k, v) else p
  else m ++ [(k, v)]

/-- Build a Go map from a list of key/value pairs, in order (later wins). -/
def buildMap (l : List (String × α)) : List (String × α) :=
  l.foldl (fun m p => goInsert m p.1 p.2) []

/-- Go map indexing `m[k]`: the value at key `k` (first entry; keys of a built
map are unique). -/
def lookupKey : List (String × α) → String → Option α
  | [], _ => none
  | p :: ps, k => if p.1 = k then some p.2 else lookupKey ps k

/-- Keys of an association list. -/
def keysOf (m : List (String × α)) : List String := m.map Prod.fst

/-- Keep only the last occurrence of each key (the spec's tie-break rule). -/
def dedupKeepLast (key : α → String) : List α → List α
  | [] => []
  | x :: xs => if xs.any fun y => key y = key x then dedupKeepLast key xs
               else x :: dedupKeepLast key xs

/-! ## Diff classification (`applyServerDiff` / `applyBindDiff`)

The two reconcilers build `beforeBy*` / `afterBy*` maps and classify every key
into delete / create / update / unchanged.  The classifications below are read
off the source predicates; the call traces are modelled separately once the
API-call model is in place. -/

/-- The backend-defaulting applied to each "after" server inside
`applyServerDiff` before insertion into `afterByName`. -/
def afterWithBackend (backendName : String) (after : List ServerConfig) :
    List ServerConfig :=
  after.map fun s => if s.backend = "" then { s with backend := backendName } else s

/-- `beforeByName` of `applyServerDiff`. -/
def serverBeforeMap (before : List ServerConfig) : List (String × ServerConfig) :=
  buildMap (before.map fun s => (s.name, s))

/-- `afterByName` of `applyServerDiff` (with the backend default applied). -/
def serverAfterMap (backendName : String) (after : List ServerConfig) :
    List (String × ServerConfig) :=
  buildMap ((afterWithBackend backendName after).map fun s => (s.name, s))

/-- Servers deleted by `applyServerDiff`: present before, missing after. -/
def serverToDelete (backendName : String) (before after : List ServerConfig) :
    List (String × ServerConfig) :=
  (serverBeforeMap before).filter fun p =>
    (lookupKey (serverAfterMap backendName after) p.1).isNone

/-- Servers created by `applyServerDiff`: present after, missing before. -/
def serverToCreate (backendName : String) (before after : List ServerConfig) :
    List (String × ServerConfig) :=
  (serverAfterMap backendName after).filter fun p =>
    (lookupKey (serverBeforeMap before) p.1).isNone

/-- Servers updated by `applyServerDiff`: matched by name but field-unequal. -/
def serverToUpdate (backendName : String) (before after : List ServerConfig) :
    List (String × ServerConfig) :=
  (serverAfterMap backendName after).filter fun p =>
    match lookupKey (serverBeforeMap before) p.1 with
    | some old => ¬ serverConfigEqual old p.2
    | none => false

/-- Servers left untouched by `applyServerDiff`: matched and field-equal. -/
def serverUnchanged (backendName : String) (before after : List ServerConfig) :
    List (String × ServerConfig) :=
  (serverAfterMap backendName after).filter fun p =>
    match lookupKey (serverBeforeMap before) p.1 with
    | some old => serverConfigEqual old p.2
    | none => false

/-- `beforeByKey` of `applyBindDiff`. -/
def bindBeforeMap (before : List BindConfig) : List (String × BindConfig) :=
  buildMap (before.map fun b => (bindKey b, b))

/-- `afterByKey` of `applyBindDiff`. -/
def bindAfterMap (after : List BindConfig) : List (String × BindConfig) :=
  buildMap (after.map fun b => (bindKey b, b))

/-- Binds deleted by `applyBindDiff`: present before, missing after. -/
def bindToDelete (before after : List BindConfig) : List (String × BindConfig) :=
  (bindBeforeMap before).filter fun p => (lookupKey (bindAfterMap after) p.1).isNone

/-- Binds created by `applyBindDiff`: present after, missing before. -/
def bindToCreate (before after : List BindConfig) : List (String × BindConfig) :=
  (bindAfterMap after).filter fun p => (lookupKey (bindBeforeMap before) p.1).isNone

/-- Binds updated by `applyBindDiff`: matched by address:port but unequal after
the wire-name carry-over. -/
def bindToUpdate (before after : List BindConfig) : List (String × BindConfig) :=
  (bindAfterMap after).filter fun p =>
    match lookupKey (bindBeforeMap before) p.1 with
    | some old => ¬ bindConfigEqual old { p.2 with name := old.name }
    | none => false

/-- Binds left untouched by `applyBindDiff`: matched and equal after the
wire-name carry-over. -/
def bindUnchanged (before after : List BindConfig) : List (String × BindConfig) :=
  (bindAfterMap after).filter fun p =>
    match lookupKey (bindBeforeMap before) p.1 with
    | some old => bindConfigEqual old { p.2 with name := old.name }
    | none => false

/-! ## Wire values

Decoded JSON values from the Data Plane API (`map[string]interface{}` in Go).
Two levels suffice for every field the embedded code reads: scalars, flat
objects, and arrays of scalars.  API numbers are modelled as integers (Go
decodes them as `float64`; `getIntField` truncates, and no claim involves a
non-integral wire number). -/

/-- A scalar JSON value. -/
inductive JAtom where
  | str (s : String)
  | int (n : Int)
  | bool (b : Bool)
  | null
deriving DecidableEq, Repr

/-- A JSON value as read from a wire object field. -/
inductive JVal where
  | atom (a : JAtom)
  | obj (fields : List (String × JAtom))
  | arr (items : List JAtom)
deriving DecidableEq, Repr

/-- A wire object: the decoded body of one API resource. -/
abbrev WireObj := List (String × JVal)

/-- Rendering of a scalar by Go `fmt.Sprintf("%v", ...)`. -/
def jatomFmt : JAtom → String
  | .str s => s
  | .int n => toString n
  | .bool b => if b then "true" else "false"
  | .null => "<nil>"

/-- `toStringMap` (backends/edit.go and frontends/types.go): converts a
`map[string]interface{}` to `map[string]string`, formatting non-strings
with `%v`. -/
def toStringMap (m : List (String × JAtom)) : List (String × String) :=
  m.map fun p => (p.1, match p.2 with | .str s => s | a => jatomFmt a)

/-- `getIntField`: extracts an integer field from a generic map (Go also
accepts `int`/`int64`/`float64`, all collapsed to `.int` here). -/
def getIntField (obj : WireObj) (key : String) : Option Int :=
  match lookupKey obj key with
  | some (.atom (.int n)) => some n
  | _ => none

/-- String field access `obj[key].(string)`. -/
def getStrField (obj : WireObj) (key : String) : Option String :=
  match lookupKey obj key with
  | some (.atom (.str s)) => some s
  | _ => none

/-- Object field access `obj[key].(map[string]interface{})`. -/
def getObjField (obj : WireObj) (key : String) : Option (List (String × JAtom)) :=
  match lookupKey obj key with
  | some (.obj m) => some m
  | _ => none

/-! ## Backend manifest model (`cmd/backends/types.go`) -/

/-- `backends.backendConfig`.  Go `nil` maps and slices are `none`; a present
(possibly empty) map is `some`.  `reflect.DeepEqual` distinguishes the two, as
does structural equality here. -/
structure backendConfig where
  name : String := ""
  mode : String := ""
  balance : Option (List (String × String)) := none
  httpchkParams : Option (List (String × String)) := none
  cookie : Option (List (String × String)) := none
  log : Option (List (List (String × JAtom))) := none
  defaultServer : Option (List (String × JAtom)) := none
  forwardfor : Option (List (String × String)) := none
  httpRequestRules : Option (List (List (String × JAtom))) := none
  httpResponseRules : Option (List (List (String × JAtom))) := none
  tcpRequestRules : Option (List (List (String × JAtom))) := none
  errorFiles : Option (List (List (String × JAtom))) := none
  timeoutClient : String := ""
  timeoutHTTPKeepAlive : String := ""
  timeoutHTTPRequest : String := ""
  timeoutQueue : String := ""
  timeoutServer : String := ""
  timeoutServerFin : String := ""
  tcpka : Bool := false
  redispatch : Bool := false
  source : Option (List (String × String)) := none
deriving DecidableEq, Repr

/-- `backends.redispatchPayload`. -/
structure redispatchPayload where
  enabled : String := ""
  interval : Int := 0
deriving DecidableEq, Repr

/-- `backends.backendPayload`: the wire-format backend, embedding the base
config while replacing the duration strings with integer milliseconds and
mapping tcpka/redispatch to their v3 enum/object shapes.  In the marshalled
JSON the integer fields shadow the embedded strings of the same tag. -/
structure backendPayload where
  config : backendConfig
  timeoutClient : Int := 0
  timeoutHTTPKeepAlive : Int := 0
  timeoutHTTPRequest : Int := 0
  timeoutQueue : Int := 0
  timeoutServer : Int := 0
  timeoutServerFin : Int := 0
  tcpka : String := ""
  redispatch : Option redispatchPayload := none
deriving DecidableEq, Repr

/-- `backends.backendWithServers`: the user-facing manifest object. -/
structure backendWithServers where
  apiVersion : String := ""
  kind : String := ""
  config : backendConfig := {}
  servers : List ServerConfig := []
deriving DecidableEq, Repr

/-- `(*backendWithServers).Validate`. -/
def backendValidate (b : backendWithServers) : Except String Unit :=
  if b.config.name = "" then .error "backend name is required"
  else if b.kind ≠ "Backend" then .error "kind must be Backend"
  else if b.apiVersion = "" then .error "apiVersion is required"
  else if b.config.mode ≠ "http" ∧ b.config.mode ≠ "tcp" then
    .error ("invalid mode: " ++ b.config.mode)
  else if b.servers.any fun s => s.name = "" ∨ s.address = "" ∨ s.port = 0 then
    .error "each server must have name, address, and port"
  else .ok ()

/-- `(*backendWithServers).toPayload`.  The Go code exits the process
(`log.Fatalf`) on an unparsable duration; that is the `.error` case here. -/
def backendToPayload (b : backendWithServers) : Except String backendPayload := do
  let pos : Int → Int := fun ms => if ms > 0 then ms else 0
  let tc ← Internal.ParseDurationToMillis b.config.timeoutClient
  let tka ← Internal.ParseDurationToMillis b.config.timeoutHTTPKeepAlive
  let thr ← Internal.ParseDurationToMillis b.config.timeoutHTTPRequest
  let tq ← Internal.ParseDurationToMillis b.config.timeoutQueue
  let ts ← Internal.ParseDurationToMillis b.config.timeoutServer
  let tsf ← Internal.ParseDurationToMillis b.config.timeoutServerFin
  return { config := b.config
           timeoutClient := pos tc
           timeoutHTTPKeepAlive := pos tka
           timeoutHTTPRequest := pos thr
           timeoutQueue := pos tq
           timeoutServer := pos ts
           timeoutServerFin := pos tsf
           tcpka := if b.config.tcpka then "enabled" else ""
           redispatch := if b.config.redispatch then
               some { enabled := "enabled", interval := 0 } else none }

/-- `populateBackendConfigFromMap` (backends/edit.go): maps a generic API
backend object onto the typed `backendConfig`, rendering the integer timeouts
back into duration strings. -/
def populateBackendConfigFromMap (cfg0 : backendConfig) (obj : WireObj) :
    backendConfig :=
  let cfg := cfg0
  let cfg := match getStrField obj "name" with
    | some v => { cfg with name := v } | none => cfg
  let cfg := match getStrField obj "mode" with
    | some v => { cfg with mode := v } | none => cfg
  let cfg := match getObjField obj "balance" with
    | some m => { cfg with balance := some (toStringMap m) } | none => cfg
  let cfg := match getObjField obj "default_server" with
    | some m => { cfg with defaultServer := some m } | none => cfg
  let cfg := match getObjField obj "forwardfor" with
    | some m => { cfg with forwardfor := some (toStringMap m) } | none => cfg
  let cfg := match getIntField obj "timeout_client" with
    | some ms => { cfg with timeoutClient := Internal.FormatMillisAsDuration ms }
    | none => cfg
  let cfg := match getIntField obj "timeout_http_keep_alive" with
    | some ms => { cfg with timeoutHTTPKeepAlive := Internal.FormatMillisAsDuration ms }
    | none => cfg
  let cfg := match getIntField obj "timeout_http_request" with
    | some ms => { cfg with timeoutHTTPRequest := Internal.FormatMillisAsDuration ms }
    | none => cfg
  let cfg := match getIntField obj "timeout_queue" with
    | some ms => { cfg with timeoutQueue := Internal.FormatMillisAsDuration ms }
    | none => cfg
  let cfg := match getIntField obj "timeout_server" with
    | some ms => { cfg with timeoutServer := Internal.FormatMillisAsDuration ms }
    | none => cfg
  let cfg := match getIntField obj "timeout_server_fin" with
    | some ms => { cfg with timeoutServerFin := Internal.FormatMillisAsDuration ms }
    | none => cfg
  let cfg := match getStrField obj "tcpka" with
    | some v => if v = "enabled" then { cfg with tcpka := true } else cfg
    | none => cfg
  let cfg := match getObjField obj "redispatch" with
    | some rm =>
      match lookupKey rm "enabled" with
      | some (.str v) => if v = "enabled" then { cfg with redispatch := true } else cfg
      | _ => cfg
    | none => cfg
  let cfg := match getObjField obj "source" with
    | some m => { cfg with source := some (toStringMap m) } | none => cfg
  cfg

/-- `mapServerFromAPI` (backends/edit.go): converts a generic server object
into a `ServerConfig`, treating the `ssl` enum as a boolean and stamping the
backend name. -/
def mapServerFromAPI (backendName : String) (obj : WireObj) : ServerConfig :=
  let sc : ServerConfig := {}
  let sc := match getStrField obj "name" with
    | some v => { sc with name := v } | none => sc
  let sc := match getStrField obj "address" with
    | some v => { sc with address := v } | none => sc
  let sc := match getIntField obj "port" with
    | some p => { sc with port := p } | none => sc
  let sc := match getIntField obj "weight" with
    | some w => { sc with weight := w } | none => sc
  let sc := match getStrField obj "ssl" with
    | some v => if v = "enabled" then { sc with ssl := true } else sc
    | none => sc
  { sc with backend := backendName }

/-- `serversEqualByName` (backends/apply.go): same semantics as
`applyServerDiff` — identity by name, equality via `serverConfigEqual`. -/
def serversEqualByName (a b : List ServerConfig) : Bool :=
  if a.length ≠ b.length then false
  else
    let aByName := buildMap (a.map fun s => (s.name, s))
    b.all fun s =>
      match lookupKey aByName s.name with
      | none => false
      | some existing => serverConfigEqual existing s

/-! ## Frontend manifest model (frontends/types.go, newer revision with the
wire-name-carrying `BindConfig`) -/

/-- `frontends.frontendConfig`. -/
structure frontendConfig where
  name : String := ""
  mode : String := ""
  defaultBackend : String := ""
  forwardfor : Option (List (String × String)) := none
  timeoutClient : String := ""
  timeoutHTTPRequest : String := ""
  timeoutHTTPKeepAlive : String := ""
  timeoutQueue : String := ""
  timeoutServer : String := ""
deriving DecidableEq, Repr

/-- `frontends.frontendPayload`: wire-format frontend with integer timeouts. -/
structure frontendPayload where
  config : frontendConfig
  timeoutClient : Int := 0
  timeoutHTTPRequest : Int := 0
  timeoutHTTPKeepAlive : Int := 0
  timeoutQueue : Int := 0
  timeoutServer : Int := 0
deriving DecidableEq, Repr

/-- `frontends.frontendWithBinds`. -/
structure frontendWithBinds where
  apiVersion : String := ""
  kind : String := ""
  config : frontendConfig := {}
  binds : List BindConfig := []
deriving DecidableEq, Repr

/-- `(*frontendWithBinds).Validate`. -/
def frontendValidate (f : frontendWithBinds) : Except String Unit :=
  if f.config.name = "" then .error "frontend name is required"
  else if f.config.mode ≠ "http" ∧ f.config.mode ≠ "tcp" then
    .error ("invalid mode " ++ f.config.mode)
  else if f.binds.any fun b => b.address = "" ∨ b.port = 0 then
    .error "each bind must have address and port"
  else .ok ()

/-- `(*frontendWithBinds).ToPayload`. -/
def frontendToPayload (f : frontendWithBinds) : Except String frontendPayload := do
  let pos : Int → Int := fun ms => if ms > 0 then ms else 0
  let tc ← Internal.ParseDurationToMillis f.config.timeoutClient
  let thr ← Internal.ParseDurationToMillis f.config.timeoutHTTPRequest
  let tka ← Internal.ParseDurationToMillis f.config.timeoutHTTPKeepAlive
  let tq ← Internal.ParseDurationToMillis f.config.timeoutQueue
  let ts ← Internal.ParseDurationToMillis f.config.timeoutServer
  return { config := f.config
           timeoutClient := pos tc
           timeoutHTTPRequest := pos thr
           timeoutHTTPKeepAlive := pos tka
           timeoutQueue := pos tq
           timeoutServer := pos ts }

/-- `populateFrontendConfigFromMap` (frontends/types.go). -/
def populateFrontendConfigFromMap (cfg0 : frontendConfig) (obj : WireObj) :
    frontendConfig :=
  let cfg := cfg0
  let cfg := match getStrField obj "name" with
    | some v => { cfg with name := v } | none => cfg
  let cfg := match getStrField obj "mode" with
    | some v => { cfg with mode := v } | none => cfg
  let cfg := match getStrField obj "default_backend" with
    | some v => { cfg with defaultBackend := v } | none => cfg
  let cfg := match getObjField obj "forwardfor" with
    | some m => { cfg with forwardfor := some (toStringMap m) } | none => cfg
  let cfg := match getIntField obj "timeout_client" with
    | some ms => { cfg with timeoutClient := Internal.FormatMillisAsDuration ms }
    | none => cfg
  let cfg := match getIntField obj "timeout_http_request" with
    | some ms => { cfg with timeoutHTTPRequest := Internal.FormatMillisAsDuration ms }
    | none => cfg
  let cfg := match getIntField obj "timeout_http_keep_alive" with
    | some ms => { cfg with timeoutHTTPKeepAlive := Internal.FormatMillisAsDuration ms }
    | none => cfg
  let cfg := match getIntField obj "timeout_queue" with
    | some ms => { cfg with timeoutQueue := Internal.FormatMillisAsDuration ms }
    | none => cfg
  let cfg := match getIntField obj "timeout_server" with
    | some ms => { cfg with timeoutServer := Internal.FormatMillisAsDuration ms }
    | none => cfg
  cfg

/-- `mapBindFromAPI` (frontends/edit.go): keeps the underlying wire name for
update/delete operations. -/
def mapBindFromAPI (obj : WireObj) : BindConfig :=
  let b : BindConfig := {}
  let b := match getStrField obj "name" with
    | some v => { b with name := v } | none => b
  let b := match getStrField obj "address" with
    | some v => { b with address := v } | none => b
  let b := match getIntField obj "port" with
    | some p => { b with port := p } | none => b
  let b := match getStrField obj "ssl" with
    | some v => if v = "enabled" then { b with ssl := true } else b
    | none => b
  b

/-- `bindsEqualByKey` (frontends/apply.go). -/
def bindsEqualByKey (a b : List BindConfig) : Bool :=
  if a.length ≠ b.length then false
  else
    let aByKey := buildMap (a.map fun bd => (bindKey bd, bd))
    b.all fun bd =>
      match lookupKey aByKey (bindKey bd) with
      | none => false
      | some existing => bindConfigEqual existing bd

/-! ## Error classification (`internal/requests.go`, `internal/ui.go`) -/

/-- The error message `SendRequest` builds for an HTTP status at or above 300:
`"HAProxy API error (%d): %s"` with the status code and the response body. -/
def apiErrorMessage (status : Int) (body : String) : String :=
  "HAProxy API error (" ++ toString status ++ "): " ++ body

/-- `internal.IsNotFoundError`: substring match on the rendered message.
`err == nil` is the empty-trace case handled by the callers in this model, so
the argument here is always an error message. -/
def IsNotFoundError (msg : String) : Bool :=
  strContains msg "HAProxy API error (404)"

/-- `internal.IsAlreadyExistsError`: substring match for conflict responses. -/
def IsAlreadyExistsError (msg : String) : Bool :=
  strContains msg "HAProxy API error (409)"

/-! ## API oracle and call traces

One apply invocation is modelled as a pure function of the manifest and an
`ApiWorld` oracle.  The oracle answers the two reads, the i-th
configuration-version fetch and the i-th write; the function returns the full
list of network calls it issued together with its result.  Write calls carry
the ordinal of the version fetch whose token they use (`vIdx`), mirroring the
data flow of the Go code. -/

/-- A request body attached to a write call. -/
inductive Body where
  | backendB (p : backendPayload)
  | frontendB (p : frontendPayload)
  | serverB (s : ServerConfig)
  | bindB (b : BindConfig)
  | emptyB
deriving DecidableEq, Repr

/-- One network call issued during an apply invocation. -/
inductive ApiCall where
  | getResource (path : String)
  | getList (path : String)
  | getVersion (idx : Nat)
  | post (path : String) (vIdx : Nat) (version : Int) (body : Body)
  | put (path : String) (vIdx : Nat) (version : Int) (body : Body)
  | del (path : String) (vIdx : Nat) (version : Int)
deriving DecidableEq, Repr

/-- Is this call a mutating (write) call? -/
def ApiCall.isWrite : ApiCall → Bool
  | .post _ _ _ _ => true
  | .put _ _ _ _ => true
  | .del _ _ _ => true
  | _ => false

/-- The version-fetch ordinal a write call uses (`none` for reads). -/
def ApiCall.writeVIdx : ApiCall → Option Nat
  | .post _ v _ _ => some v
  | .put _ v _ _ => some v
  | .del _ v _ => some v
  | _ => none

/-- The oracle answering the network calls of one invocation. -/
structure ApiWorld where
  getResource : String → Except String WireObj
  getList : String → Except String (List WireObj)
  version : Nat → Except String Int
  writeOk : Nat → Option String

/-- Version-fetch / write counters threaded through one invocation. -/
structure Ctr where
  vIdx : Nat := 0
  wIdx : Nat := 0
deriving DecidableEq, Repr

/-- `servers.(*ServerConfig).NormalizeParent`. -/
def NormalizeParent (s : ServerConfig) : Except String ServerConfig :=
  let s := if s.parent = "" ∧ s.backend ≠ "" then { s with parent := s.backend } else s
  if s.parent = "" then .error "server must specify parent (backend)" else .ok s

/-- `servers.CreateServer` (cmd/servers/create.go): preview short-circuits,
otherwise normalize, fetch a fresh version, POST the server. -/
def CreateServer (w : ApiWorld) (c : Ctr) (server : ServerConfig)
    (outputFormat : String) (dryRun : Bool) :
    List ApiCall × Ctr × Except String Unit :=
  if outputFormat ≠ "" ∨ dryRun then ([], c, .ok ())
  else
    match NormalizeParent server with
    | .error e => ([], c, .error ("invalid server configuration: " ++ e))
    | .ok server =>
      match w.version c.vIdx with
      | .error e =>
        ([.getVersion c.vIdx], { c with vIdx := c.vIdx + 1 },
         .error ("failed to fetch HAProxy configuration version: " ++ e))
      | .ok version =>
        let call := ApiCall.post
          ("/services/haproxy/configuration/backends/" ++ server.parent ++ "/servers")
          c.vIdx version (.serverB server)
        ([.getVersion c.vIdx, call], { vIdx := c.vIdx + 1, wIdx := c.wIdx + 1 },
         match w.writeOk c.wIdx with
         | some e => .error ("failed to create server " ++ server.name ++ ": " ++ e)
         | none => .ok ())

/-- `servers.DeleteServer` (cmd/servers/delete.go): fetch a fresh version,
DELETE the server. -/
def DeleteServer (w : ApiWorld) (c : Ctr) (backendName serverName : String) :
    List ApiCall × Ctr × Except String Unit :=
  match w.version c.vIdx with
  | .error e =>
    ([.getVersion c.vIdx], { c with vIdx := c.vIdx + 1 },
     .error ("failed to fetch HAProxy configuration version: " ++ e))
  | .ok version =>
    let call := ApiCall.del
      ("/services/haproxy/configuration/backends/" ++ backendName ++ "/servers/"
        ++ serverName)
      c.vIdx version
    ([.getVersion c.vIdx, call], { vIdx := c.vIdx + 1, wIdx := c.wIdx + 1 },
     match w.writeOk c.wIdx with
     | some e => .error ("failed to delete server " ++ serverName ++ " in backend "
                          ++ backendName ++ ": " ++ e)
     | none => .ok ())

/-- Modelled from the spec: `servers.UpdateServer` is called by
`applyServerDiff` but its body is not among the provided sources.  Per §4.5 of
the spec every mutating call fetches its own fresh version token immediately
before the write; the update PUTs the server at its name. -/
def UpdateServer (w : ApiWorld) (c : Ctr) (server : ServerConfig) :
    List ApiCall × Ctr × Except String Unit :=
  match w.version c.vIdx with
  | .error e =>
    ([.getVersion c.vIdx], { c with vIdx := c.vIdx + 1 },
     .error ("failed to fetch HAProxy configuration version: " ++ e))
  | .ok version =>
    let call := ApiCall.put
      ("/services/haproxy/configuration/backends/" ++ server.backend ++ "/servers/"
        ++ server.name)
      c.vIdx version (.serverB server)
    ([.getVersion c.vIdx, call], { vIdx := c.vIdx + 1, wIdx := c.wIdx + 1 },
     match w.writeOk c.wIdx with
     | some e => .error ("failed to update server " ++ server.name ++ ": " ++ e)
     | none => .ok ())

/-- `frontends.createBind` (cmd/frontends/create.go): fetch a fresh version,
POST the bind to the frontend. -/
def createBind (w : ApiWorld) (c : Ctr) (frontendName : String) (bind : BindConfig) :
    List ApiCall × Ctr × Except String Unit :=
  match w.version c.vIdx with
  | .error e =>
    ([.getVersion c.vIdx], { c with vIdx := c.vIdx + 1 },
     .error ("fetch version: " ++ e))
  | .ok version =>
    let call := ApiCall.post
      ("/services/haproxy/configuration/frontends/" ++ frontendName ++ "/binds")
      c.vIdx version (.bindB bind)
    ([.getVersion c.vIdx, call], { vIdx := c.vIdx + 1, wIdx := c.wIdx + 1 },
     match w.writeOk c.wIdx with
     | some e => .error e
     | none => .ok ())

/-- Modelled from the spec: `frontends.updateBind` is called by `applyBindDiff`
but its body is not among the provided sources.  Per §4.5 it fetches a fresh
version immediately before the write and addresses the bind by its wire name. -/
def updateBind (w : ApiWorld) (c : Ctr) (frontendName : String) (bind : BindConfig) :
    List ApiCall × Ctr × Except String Unit :=
  match w.version c.vIdx with
  | .error e =>
    ([.getVersion c.vIdx], { c with vIdx := c.vIdx + 1 },
     .error ("fetch version: " ++ e))
  | .ok version =>
    let call := ApiCall.put
      ("/services/haproxy/configuration/frontends/" ++ frontendName ++ "/binds/"
        ++ bind.name)
      c.vIdx version (.bindB bind)
    ([.getVersion c.vIdx, call], { vIdx := c.vIdx + 1, wIdx := c.wIdx + 1 },
     match w.writeOk c.wIdx with
     | some e => .error e
     | none => .ok ())

/-- Modelled from the spec: `frontends.deleteBind` is called by `applyBindDiff`
but its body is not among the provided sources.  Per §4.5 it fetches a fresh
version immediately before the write and deletes the bind by its wire name. -/
def deleteBind (w : ApiWorld) (c : Ctr) (frontendName bindName : String) :
    List ApiCall × Ctr × Except String Unit :=
  match w.version c.vIdx with
  | .error e =>
    ([.getVersion c.vIdx], { c with vIdx := c.vIdx + 1 },
     .error ("fetch version: " ++ e))
  | .ok version =>
    let call := ApiCall.del
      ("/services/haproxy/configuration/frontends/" ++ frontendName ++ "/binds/"
        ++ bindName)
      c.vIdx version
    ([.getVersion c.vIdx, call], { vIdx := c.vIdx + 1, wIdx := c.wIdx + 1 },
     match w.writeOk c.wIdx with
     | some e => .error e
     | none => .ok ())

/-! ## `applyServerDiff` / `applyBindDiff`, with call traces

Iteration over a Go map is in unspecified order; the passes below take the
order as an explicit list of keys (`ord`), and every theorem about them
quantifies over all enumerations of the corresponding key set. -/

/-- Delete pass of `applyServerDiff`: keys of `beforeByName` missing from
`afterByName` are deleted; a failure aborts the pass. -/
def serverDeletePass (w : ApiWorld) (backendName : String)
    (am : List (String × ServerConfig)) :
    List String → Ctr → List ApiCall × Ctr × Except String Unit
  | [], c => ([], c, .ok ())
  | k :: ks, c =>
    if (lookupKey am k).isNone then
      let r := DeleteServer w c backendName k
      match r.2.2 with
      | .error e => (r.1, r.2.1, .error e)
      | .ok _ =>
        let rest := serverDeletePass w backendName am ks r.2.1
        (r.1 ++ rest.1, rest.2)
    else serverDeletePass w backendName am ks c

/-- Create/update pass of `applyServerDiff`. -/
def serverCreateUpdatePass (w : ApiWorld) (bm am : List (String × ServerConfig)) :
    List String → Ctr → List ApiCall × Ctr × Except String Unit
  | [], c => ([], c, .ok ())
  | k :: ks, c =>
    match lookupKey am k with
    | none => serverCreateUpdatePass w bm am ks c
    | some newS =>
      match lookupKey bm k with
      | none =>
        let r := CreateServer w c newS "" false
        match r.2.2 with
        | .error e => (r.1, r.2.1, .error e)
        | .ok _ =>
          let rest := serverCreateUpdatePass w bm am ks r.2.1
          (r.1 ++ rest.1, rest.2)
      | some oldS =>
        if serverConfigEqual oldS newS then serverCreateUpdatePass w bm am ks c
        else
          let r := UpdateServer w c newS
          match r.2.2 with
          | .error e => (r.1, r.2.1, .error e)
          | .ok _ =>
            let rest := serverCreateUpdatePass w bm am ks r.2.1
            (r.1 ++ rest.1, rest.2)

/-- `applyServerDiff` (backends/edit.go): all deletes, then all creates and
updates, both computed from the same `beforeByName`/`afterByName` maps.
`ord1`/`ord2` are the iteration orders over the two maps. -/
def applyServerDiff (w : ApiWorld) (c : Ctr) (backendName : String)
    (before after : List ServerConfig) (ord1 ord2 : List String) :
    List ApiCall × Ctr × Except String Unit :=
  let bm := serverBeforeMap before
  let am := serverAfterMap backendName after
  let del := serverDeletePass w backendName am ord1 c
  match del.2.2 with
  | .error e => (del.1, del.2.1, .error e)
  | .ok _ =>
    let cu := serverCreateUpdatePass w bm am ord2 del.2.1
    (del.1 ++ cu.1, cu.2)

/-- Delete pass of `applyBindDiff`: a before-bind with no wire name is skipped
with a warning instead of deleted. -/
def bindDeletePass (w : ApiWorld) (frontendName : String)
    (bm am : List (String × BindConfig)) :
    List String → Ctr → List ApiCall × Ctr × Except String Unit
  | [], c => ([], c, .ok ())
  | k :: ks, c =>
    match lookupKey bm k with
    | none => bindDeletePass w frontendName bm am ks c
    | some oldB =>
      if (lookupKey am k).isNone then
        if oldB.name = "" then bindDeletePass w frontendName bm am ks c
        else
          let r := deleteBind w c frontendName oldB.name
          match r.2.2 with
          | .error e => (r.1, r.2.1, .error e)
          | .ok _ =>
            let rest := bindDeletePass w frontendName bm am ks r.2.1
            (r.1 ++ rest.1, rest.2)
      else bindDeletePass w frontendName bm am ks c

/-- Create/update pass of `applyBindDiff`: the wire name of the matched
before-bind is copied onto the after-bind before the equality check; an update
without a wire name is skipped with a warning. -/
def bindCreateUpdatePass (w : ApiWorld) (frontendName : String)
    (bm am : List (String × BindConfig)) :
    List String → Ctr → List ApiCall × Ctr × Except String Unit
  | [], c => ([], c, .ok ())
  | k :: ks, c =>
    match lookupKey am k with
    | none => bindCreateUpdatePass w frontendName bm am ks c
    | some newB =>
      match lookupKey bm k with
      | none =>
        let r := createBind w c frontendName newB
        match r.2.2 with
        | .error e => (r.1, r.2.1, .error e)
        | .ok _ =>
          let rest := bindCreateUpdatePass w frontendName bm am ks r.2.1
          (r.1 ++ rest.1, rest.2)
      | some oldB =>
        let newB := { newB with name := oldB.name }
        if bindConfigEqual oldB newB then bindCreateUpdatePass w frontendName bm am ks c
        else if newB.name = "" then bindCreateUpdatePass w frontendName bm am ks c
        else
          let r := updateBind w c frontendName newB
          match r.2.2 with
          | .error e => (r.1, r.2.1, .error e)
          | .ok _ =>
            let rest := bindCreateUpdatePass w frontendName bm am ks r.2.1
            (r.1 ++ rest.1, rest.2)

/-- `applyBindDiff` (frontends/edit.go): deletes first, then creates/updates,
with the wire-identity carry-over and the missing-name skips. -/
def applyBindDiff (w : ApiWorld) (c : Ctr) (frontendName : String)
    (before after : List BindConfig) (ord1 ord2 : List String) :
    List ApiCall × Ctr × Except String Unit :=
  let bm := bindBeforeMap before
  let am := bindAfterMap after
  let del := bindDeletePass w frontendName bm am ord1 c
  match del.2.2 with
  | .error e => (del.1, del.2.1, .error e)
  | .ok _ =>
    let cu := bindCreateUpdatePass w frontendName bm am ord2 del.2.1
    (del.1 ++ cu.1, cu.2)

/-! ## The apply entry points -/

/-- The status an apply invocation reports (`internal.PrintStatus`), plus the
preview outcome of the dry-run/output short-circuit. -/
inductive ApplyAction where
  | created
  | configured
  | unchanged
  | previewed
deriving DecidableEq, Repr

/-- The unconditional child-creation loop of the backend creation path. -/
def createServersPass (w : ApiWorld) (name : String) :
    List ServerConfig → Ctr → List ApiCall × Ctr × Except String Unit
  | [], c => ([], c, .ok ())
  | srv :: rest, c =>
    let srv := { srv with backend := name }
    let r := CreateServer w c srv "" false
    match r.2.2 with
    | .error e =>
      (r.1, r.2.1, .error ("failed to create server " ++ srv.name ++ " for backend "
        ++ name ++ ": " ++ e))
    | .ok _ =>
      let rr := createServersPass w name rest r.2.1
      (r.1 ++ rr.1, rr.2)

/-- The unconditional bind-creation loop of the frontend creation path. -/
def createBindsPass (w : ApiWorld) (name : String) :
    List BindConfig → Ctr → List ApiCall × Ctr × Except String Unit
  | [], c => ([], c, .ok ())
  | b :: rest, c =>
    let r := createBind w c name b
    match r.2.2 with
    | .error e =>
      (r.1, r.2.1, .error ("failed to create bind on frontend " ++ name ++ ": " ++ e))
    | .ok _ =>
      let rr := createBindsPass w name rest r.2.1
      (r.1 ++ rr.1, rr.2)

/-- `backends.ApplyBackendFromYAML` (backends/apply.go), after YAML decoding:
validate, preview short-circuit, existence check, version fetch, payload
conversion, then create-or-replace with server reconciliation.  `ord1`/`ord2`
are the iteration orders of the two diff maps.  The Go `log.Fatalf` inside
`toPayload` is the `.error` outcome of the payload conversion. -/
def ApplyBackendFromYAML (manifest : backendWithServers) (outputFormat : String)
    (dryRun : Bool) (w : ApiWorld) (ord1 ord2 : List String) :
    List ApiCall × Except String ApplyAction :=
  match backendValidate manifest with
  | .error e => ([], .error ("invalid backend configuration: " ++ e))
  | .ok _ =>
    if outputFormat ≠ "" ∨ dryRun then
      if outputFormat = "" then ([], .ok .previewed)
      else
        match backendToPayload manifest with
        | .error e => ([], .error e)
        | .ok _ => ([], .ok .previewed)
    else
      let name := manifest.config.name
      let path := "/services/haproxy/configuration/backends/" ++ name
      let t0 := [ApiCall.getResource path]
      match w.getResource path with
      | .error e0 =>
        let e := "failed to get resource: " ++ e0
        if IsNotFoundError e then
          match w.version 0 with
          | .error ev =>
            (t0 ++ [.getVersion 0],
             .error ("failed to fetch HAProxy configuration version: " ++ ev))
          | .ok version =>
            match backendToPayload manifest with
            | .error ep => (t0 ++ [.getVersion 0], .error ep)
            | .ok payload =>
              let postCall := ApiCall.post "/services/haproxy/configuration/backends"
                0 version (.backendB payload)
              match w.writeOk 0 with
              | some ew =>
                (t0 ++ [.getVersion 0, postCall],
                 .error ("failed to create backend " ++ name ++ ": " ++ ew))
              | none =>
                let cs := createServersPass w name manifest.servers
                  { vIdx := 1, wIdx := 1 }
                match cs.2.2 with
                | .error ec => (t0 ++ [.getVersion 0, postCall] ++ cs.1, .error ec)
                | .ok _ => (t0 ++ [.getVersion 0, postCall] ++ cs.1, .ok .created)
        else (t0, .error ("failed to check backend existence: " ++ e))
      | .ok rawBackend =>
        match w.version 0 with
        | .error ev =>
          (t0 ++ [.getVersion 0],
           .error ("failed to fetch HAProxy configuration version: " ++ ev))
        | .ok version =>
          match backendToPayload manifest with
          | .error ep => (t0 ++ [.getVersion 0], .error ep)
          | .ok payload =>
            let spath := path ++ "/servers"
            let t1 := t0 ++ [ApiCall.getVersion 0, ApiCall.getList spath]
            let go : List WireObj → List ApiCall × Except String ApplyAction :=
              fun rawServers =>
                let before := (rawServers.map (mapServerFromAPI name)).filter
                  fun sc => sc.name ≠ "" ∧ sc.address ≠ "" ∧ sc.port ≠ 0
                let current := populateBackendConfigFromMap {} rawBackend
                if current = manifest.config ∧ serversEqualByName before manifest.servers
                then (t1, .ok .unchanged)
                else
                  let putCall := ApiCall.put path 0 version (.backendB payload)
                  match w.writeOk 0 with
                  | some ew =>
                    (t1 ++ [putCall],
                     .error ("failed to update backend " ++ name ++ ": " ++ ew))
                  | none =>
                    let dr := applyServerDiff w { vIdx := 1, wIdx := 1 } name before
                      manifest.servers ord1 ord2
                    match dr.2.2 with
                    | .error ed =>
                      (t1 ++ [putCall] ++ dr.1,
                       .error ("failed to apply server changes for backend " ++ name
                         ++ ": " ++ ed))
                    | .ok _ => (t1 ++ [putCall] ++ dr.1, .ok .configured)
            match w.getList spath with
            | .error el0 =>
              let el := "failed to get resource list: " ++ el0
              if IsNotFoundError el then go []
              else
                (t1, .error ("failed to fetch existing servers for backend " ++ name
                  ++ ": " ++ el))
            | .ok rawServers => go rawServers

/-- `frontends.ApplyFrontendFromYAML` (frontends/apply.go), after YAML
decoding; the exact analogue of the backend apply with binds as children. -/
def ApplyFrontendFromYAML (manifest : frontendWithBinds) (outputFormat : String)
    (dryRun : Bool) (w : ApiWorld) (ord1 ord2 : List String) :
    List ApiCall × Except String ApplyAction :=
  match frontendValidate manifest with
  | .error e => ([], .error ("invalid frontend configuration: " ++ e))
  | .ok _ =>
    if outputFormat ≠ "" ∨ dryRun then
      if outputFormat = "" then ([], .ok .previewed)
      else
        match frontendToPayload manifest with
        | .error e => ([], .error e)
        | .ok _ => ([], .ok .previewed)
    else
      let name := manifest.config.name
      let path := "/services/haproxy/configuration/frontends/" ++ name
      let t0 := [ApiCall.getResource path]
      match w.getResource path with
      | .error e0 =>
        let e := "failed to get resource: " ++ e0
        if IsNotFoundError e then
          match w.version 0 with
          | .error ev =>
            (t0 ++ [.getVersion 0],
             .error ("failed to fetch HAProxy configuration version: " ++ ev))
          | .ok version =>
            match frontendToPayload manifest with
            | .error ep => (t0 ++ [.getVersion 0], .error ep)
            | .ok payload =>
              let postCall := ApiCall.post "/services/haproxy/configuration/frontends"
                0 version (.frontendB payload)
              match w.writeOk 0 with
              | some ew =>
                (t0 ++ [.getVersion 0, postCall],
                 .error ("failed to create frontend " ++ name ++ ": " ++ ew))
              | none =>
                let cs := createBindsPass w name manifest.binds { vIdx := 1, wIdx := 1 }
                match cs.2.2 with
                | .error ec => (t0 ++ [.getVersion 0, postCall] ++ cs.1, .error ec)
                | .ok _ => (t0 ++ [.getVersion 0, postCall] ++ cs.1, .ok .created)
        else (t0, .error ("failed to check frontend existence: " ++ e))
      | .ok rawFrontend =>
        match w.version 0 with
        | .error ev =>
          (t0 ++ [.getVersion 0],
           .error ("failed to fetch HAProxy configuration version: " ++ ev))
        | .ok version =>
          match frontendToPayload manifest with
          | .error ep => (t0 ++ [.getVersion 0], .error ep)
          | .ok payload =>
            let bpath := path ++ "/binds"
            let t1 := t0 ++ [ApiCall.getVersion 0, ApiCall.getList bpath]
            let go : List WireObj → List ApiCall × Except String ApplyAction :=
              fun rawBinds =>
                let before := (rawBinds.map mapBindFromAPI).filter
                  fun bc => bc.address ≠ "" ∧ bc.port ≠ 0
                let current := populateFrontendConfigFromMap {} rawFrontend
                if current = manifest.config ∧ bindsEqualByKey before manifest.binds
                then (t1, .ok .unchanged)
                else
                  let putCall := ApiCall.put path 0 version (.frontendB payload)
                  match w.writeOk 0 with
                  | some ew =>
                    (t1 ++ [putCall],
                     .error ("failed to update frontend " ++ name ++ ": " ++ ew))
                  | none =>
                    let dr := applyBindDiff w { vIdx := 1, wIdx := 1 } name before
                      manifest.binds ord1 ord2
                    match dr.2.2 with
                    | .error ed =>
                      (t1 ++ [putCall] ++ dr.1,
                       .error ("failed to apply bind changes for frontend " ++ name
                         ++ ": " ++ ed))
                    | .ok _ => (t1 ++ [putCall] ++ dr.1, .ok .configured)
            match w.getList bpath with
            | .error el0 =>
              let el := "failed to get resource list: " ++ el0
              if IsNotFoundError el then go []
              else
                (t1, .error ("failed to fetch existing binds for frontend " ++ name
                  ++ ": " ++ el))
            | .ok rawBinds => go rawBinds

/-! ## Trace observables and concrete fixtures -/

/-- Number of configuration-version fetches in a trace. -/
def versionFetchCount (t : List ApiCall) : Nat :=
  (t.filter fun c => match c with | .getVersion _ => true | _ => false).length

/-- The write calls of a trace. -/
def writeCalls (t : List ApiCall) : List ApiCall := t.filter ApiCall.isWrite

/-- The version-fetch ordinals used by the write calls of a trace, in order. -/
def writeVIdxs (t : List ApiCall) : List Nat := t.filterMap ApiCall.writeVIdx

/-- Proof device for claim C8: all version ordinals used by the writes of a
trace segment lie in the half-open interval between the starting and final
counters, in strictly increasing order. -/
def vIdxInv (c : Ctr) (t : List ApiCall) (c' : Ctr) : Prop :=
  c.vIdx ≤ c'.vIdx ∧
  List.Pairwise (· < ·) (writeVIdxs t) ∧
  ∀ i ∈ writeVIdxs t, c.vIdx ≤ i ∧ i < c'.vIdx

/-- Is this write call a delete? -/
def ApiCall.isDelete : ApiCall → Bool
  | .del _ _ _ => true
  | _ => false

/-- Is this write call a create or an update? -/
def ApiCall.isCreateOrUpdate : ApiCall → Bool
  | .post _ _ _ _ => true
  | .put _ _ _ _ => true
  | _ => false

/-- Every delete in the trace is issued before any create or update: once a
create/update appears, no delete follows. -/
def deletesBeforeWrites (t : List ApiCall) : Bool :=
  (t.dropWhile fun c => ¬ c.isCreateOrUpdate).all fun c => ¬ c.isDelete

/-- The expected child-creation segment of the backend creation path, starting
at version-fetch ordinal `k`, when every fetch and write succeeds (`vf i` is
the value the i-th version fetch returns). -/
def creationServerTrace (name : String) (vf : Nat → Int) :
    List ServerConfig → Nat → List ApiCall
  | [], _ => []
  | srv :: rest, k =>
    let srv1 : ServerConfig := { srv with backend := name }
    let srv2 := if srv1.parent = "" ∧ srv1.backend ≠ "" then
        { srv1 with parent := srv1.backend } else srv1
    ApiCall.getVersion k
      :: ApiCall.post ("/services/haproxy/configuration/backends/" ++ srv2.parent
            ++ "/servers") k (vf k) (.serverB srv2)
      :: creationServerTrace name vf rest (k + 1)

/-- The JSON-visible content of a marshalled `backendPayload`: the outer
integer timeout fields shadow the embedded duration strings carrying the same
JSON tag (Go `encoding/json` promotes the shallower field), and the embedded
`tcpka`/`redispatch` booleans are tagged `json:"-"`, so only the payload's enum
string and object survive. -/
structure backendWireView where
  name : String := ""
  mode : String := ""
  balance : Option (List (String × String)) := none
  httpchkParams : Option (List (String × String)) := none
  cookie : Option (List (String × String)) := none
  log : Option (List (List (String × JAtom))) := none
  defaultServer : Option (List (String × JAtom)) := none
  forwardfor : Option (List (String × String)) := none
  httpRequestRules : Option (List (List (String × JAtom))) := none
  httpResponseRules : Option (List (List (String × JAtom))) := none
  tcpRequestRules : Option (List (List (String × JAtom))) := none
  errorFiles : Option (List (List (String × JAtom))) := none
  source : Option (List (String × String)) := none
  timeoutClient : Int := 0
  timeoutHTTPKeepAlive : Int := 0
  timeoutHTTPRequest : Int := 0
  timeoutQueue : Int := 0
  timeoutServer : Int := 0
  timeoutServerFin : Int := 0
  tcpka : String := ""
  redispatch : Option redispatchPayload := none
deriving DecidableEq, Repr

/-- Marshalling a `backendPayload`: what the PUT/POST body actually carries. -/
def marshalBackendPayload (p : backendPayload) : backendWireView :=
  { name := p.config.name
    mode := p.config.mode
    balance := p.config.balance
    httpchkParams := p.config.httpchkParams
    cookie := p.config.cookie
    log := p.config.log
    defaultServer := p.config.defaultServer
    forwardfor := p.config.forwardfor
    httpRequestRules := p.config.httpRequestRules
    httpResponseRules := p.config.httpResponseRules
    tcpRequestRules := p.config.tcpRequestRules
    errorFiles := p.config.errorFiles
    source := p.config.source
    timeoutClient := p.timeoutClient
    timeoutHTTPKeepAlive := p.timeoutHTTPKeepAlive
    timeoutHTTPRequest := p.timeoutHTTPRequest
    timeoutQueue := p.timeoutQueue
    timeoutServer := p.timeoutServer
    timeoutServerFin := p.timeoutServerFin
    tcpka := p.tcpka
    redispatch := p.redispatch }

/-! ### Concrete fixtures for witnesses and counterexamples -/

/-- A small valid backend manifest: `b1` with one server `s1`. -/
def manifestB1 : backendWithServers :=
  { apiVersion := "haproxyctl/v1", kind := "Backend"
    config := { name := "b1", mode := "http" }
    servers := [{ name := "s1", address := "10.0.0.1", port := 80, weight := 100 }] }

/-- A small valid frontend manifest: `f1` with one bind. -/
def manifestF1 : frontendWithBinds :=
  { apiVersion := "haproxyctl/v1", kind := "Frontend"
    config := { name := "f1", mode := "http" }
    binds := [{ address := "0.0.0.0", port := 80 }] }

/-- The wire object backing `manifestB1`'s parent. -/
def rawBackendB1 : WireObj :=
  [("name", .atom (.str "b1")), ("mode", .atom (.str "http"))]

/-- The wire list backing `manifestB1`'s server. -/
def rawServersB1 : List WireObj :=
  [[("name", .atom (.str "s1")), ("address", .atom (.str "10.0.0.1")),
    ("port", .atom (.int 80)), ("weight", .atom (.int 100))]]

/-- The wire object backing `manifestF1`'s parent. -/
def rawFrontendF1 : WireObj :=
  [("name", .atom (.str "f1")), ("mode", .atom (.str "http"))]

/-- The wire list backing `manifestF1`'s bind, with wire name `bnd1`. -/
def rawBindsF1 : List WireObj :=
  [[("name", .atom (.str "bnd1")), ("address", .atom (.str "0.0.0.0")),
    ("port", .atom (.int 80))]]

/-- A world where the parent resource does not exist (404s) and every fetch
and write succeeds. -/
def worldNotFound : ApiWorld :=
  { getResource := fun _ => .error (apiErrorMessage 404 "not found")
    getList := fun _ => .error (apiErrorMessage 404 "not found")
    version := fun i => .ok (Int.ofNat (10 + i))
    writeOk := fun _ => none }

/-- A world holding exactly the remote state of `manifestB1`. -/
def worldMatchB1 : ApiWorld :=
  { getResource := fun _ => .ok rawBackendB1
    getList := fun _ => .ok rawServersB1
    version := fun i => .ok (Int.ofNat (10 + i))
    writeOk := fun _ => none }

/-- A world holding exactly the remote state of `manifestF1`. -/
def worldMatchF1 : ApiWorld :=
  { getResource := fun _ => .ok rawFrontendF1
    getList := fun _ => .ok rawBindsF1
    version := fun i => .ok (Int.ofNat (10 + i))
    writeOk := fun _ => none }

/-- A world whose parent fetch fails with the given message, everything else
succeeding. -/
def worldGetErr (msg : String) : ApiWorld :=
  { getResource := fun _ => .error msg
    getList := fun _ => .error (apiErrorMessage 404 "")
    version := fun i => .ok (Int.ofNat (10 + i))
    writeOk := fun _ => none }

/-- The payload `manifestB1` converts to. -/
def payloadB1 : backendPayload := { config := manifestB1.config }

/-- The server POSTed for `manifestB1` on the creation path. -/
def serverS1Normalized : ServerConfig :=
  { name := "s1", address := "10.0.0.1", port := 80, weight := 100
    backend := "b1", parent := "b1" }

/-- The exact call trace of the unchanged (no-op) path of a backend apply:
existence check, one version fetch, children listing — and nothing else. -/
def noopBackendTrace (name : String) : List ApiCall :=
  [ .getResource ("/services/haproxy/configuration/backends/" ++ name)
  , .getVersion 0
  , .getList ("/services/haproxy/configuration/backends/" ++ name ++ "/servers") ]

/-- The exact call trace of the unchanged (no-op) path of a frontend apply. -/
def noopFrontendTrace (name : String) : List ApiCall :=
  [ .getResource ("/services/haproxy/configuration/frontends/" ++ name)
  , .getVersion 0
  , .getList ("/services/haproxy/configuration/frontends/" ++ name ++ "/binds") ]

/-- The exact call trace of the creation path of `manifestB1` against a world
whose version fetches return `10 + i`. -/
def creationTraceB1 : List ApiCall :=
  [ .getResource "/services/haproxy/configuration/backends/b1"
  , .getVersion 0
  , .post "/services/haproxy/configuration/backends" 0 10 (.backendB payloadB1)
  , .getVersion 1
  , .post "/services/haproxy/configuration/backends/b1/servers" 1 11
      (.serverB serverS1Normalized) ]

/-- A valid backend manifest spelling its client timeout as the bare-integer
string `"30000"` (30 seconds), with no servers. -/
def manifestB9 : backendWithServers :=
  { apiVersion := "haproxyctl/v1", kind := "Backend"
    config := { name := "b1", mode := "http", timeoutClient := "30000" }
    servers := [] }

/-- The wire object backing `manifestB9`: the same backend whose client
timeout reads back as the integer `30000` milliseconds. -/
def rawBackendB9 : WireObj :=
  [("name", .atom (.str "b1")), ("mode", .atom (.str "http")),
   ("timeout_client", .atom (.int 30000))]

/-- A world holding exactly the remote state of `manifestB9`. -/
def worldB9 : ApiWorld :=
  { getResource := fun _ => .ok rawBackendB9
    getList := fun _ => .ok []
    version := fun _ => .ok 7
    writeOk := fun _ => none }

/-- The payload `manifestB9` converts to. -/
def payloadB9 : backendPayload :=
  { config := manifestB9.config, timeoutClient := 30000 }

/-! ### Lemmas about the Go map model -/

theorem keysOf_nil : keysOf ([] : List (String × α)) = [] := rfl

theorem keysOf_cons (p : String × α) (ps : List (String × α)) :
    keysOf (p :: ps) = p.1 :: keysOf ps := rfl

theorem keysOf_append (m₁ m₂ : List (String × α)) :
    keysOf (m₁ ++ m₂) = keysOf m₁ ++ keysOf m₂ := List.map_append _ _ _

theorem mem_keysOf (m : List (String × α)) (k : String) :
    k ∈ keysOf m ↔ ∃ p ∈ m, p.1 = k := by
  simp [keysOf, List.mem_map, eq_comm]

theorem lookupKey_goInsert (m : List (String × α)) (k : String) (v : α) (k' : String) :
    lookupKey (goInsert m k v) k' = if k = k' then some v else lookupKey m k' := by
  unfold goInsert
  by_cases hin : m.any fun p => p.1 = k
  · simp only [hin, if_true]
    induction m with
    | nil => simp at hin
    | cons p ps ih =>
      simp only [List.any_cons, Bool.or_eq_true, decide_eq_true_eq] at hin
      by_cases hp : p.1 = k
      · subst hp
        by_cases hk : p.1 = k'
        · subst hk; simp [lookupKey]
        · simp only [List.map_cons, if_pos rfl, lookupKey, hk, if_neg hk]
          by_cases hany : ps.any fun q => q.1 = p.1
          · simpa [hk] using ih hany
          · have hmap : (ps.map fun q => if q.1 = p.1 then (p.1, v) else q) = ps := by
              conv_rhs => rw [← List.map_id ps]
              apply List.map_congr_left
              intro q hq
              have : ¬ q.1 = p.1 := by
                intro h
                exact hany (List.any_eq_true.mpr ⟨q, hq, by simp [h]⟩)
              simp [this]
            simp [hmap, hk]
      · rcases hin with hin | hin
        · exact absurd hin hp
        · simp only [List.map_cons, if_neg hp, lookupKey]
          by_cases hk : p.1 = k'
          · have hkk : ¬ k = k' := fun h => hp (h ▸ hk)
            simp [hk, hkk]
          · simpa [hk] using ih hin
  · simp only [hin, if_false]
    induction m with
    | nil => simp [lookupKey]
    | cons p ps ih =>
      simp only [List.any_cons, Bool.or_eq_true, decide_eq_true_eq, not_or] at hin
      simp only [List.cons_append, lookupKey]
      by_cases hk : p.1 = k'
      · have : ¬ k = k' := fun h => hin.1 (by rw [h, hk])
        simp [hk, this]
      · simpa [hk] using ih hin.2

theorem keysOf_goInsert (m : List (String × α)) (k : String) (v : α) :
    keysOf (goInsert m k v) =
      if m.any (fun p => p.1 = k) then keysOf m else keysOf m ++ [k] := by
  unfold goInsert keysOf
  by_cases hin : m.any fun p => p.1 = k
  · simp only [hin, if_true, List.map_map]
    apply List.map_congr_left
    intro p _
    by_cases hp : p.1 = k <;> simp [hp]
  · simp [hin]

theorem nodup_keys_goInsert (m : List (String × α)) (k : String) (v : α)
    (h : (keysOf m).Nodup) : (keysOf (goInsert m k v)).Nodup := by
  rw [keysOf_goInsert]
  by_cases hin : m.any fun p => p.1 = k
  · simpa [hin] using h
  · simp only [hin, if_false]
    refine List.Nodup.append h (List.nodup_singleton k) ?_
    intro a ha hb
    simp only [List.mem_singleton] at hb
    subst hb
    rcases List.mem_map.mp ha with ⟨p, hp, hpa⟩
    exact hin (List.any_eq_true.mpr ⟨p, hp, by simp [hpa]⟩)

theorem nodup_keys_buildMap (l : List (String × α)) : (keysOf (buildMap l)).Nodup := by
  have aux : ∀ (l m : List (String × α)), (keysOf m).Nodup →
      (keysOf (l.foldl (fun m p => goInsert m p.1 p.2) m)).Nodup := by
    intro l
    induction l with
    | nil => intro m hm; simpa using hm
    | cons p ps ih =>
      intro m hm
      exact ih _ (nodup_keys_goInsert m p.1 p.2 hm)
  exact aux l [] (by simp [keysOf])

/-- Looking a key up in a built map finds the value of the last entry carrying
that key: the spec's "later entries silently overwrite earlier map entries". -/
theorem lookupKey_buildMap (l : List (String × α)) (k : String) :
    lookupKey (buildMap l) k =
      (l.reverse.find? fun p => p.1 = k).map Prod.snd := by
  have aux : ∀ (l : List (String × α)) (m : List (String × α)),
      lookupKey (l.foldl (fun m p => goInsert m p.1 p.2) m) k =
        match l.reverse.find? fun p => p.1 = k with
        | some p => some p.2
        | none => lookupKey m k := by
    intro l
    induction l with
    | nil => intro m; simp
    | cons p ps ih =>
      intro m
      simp only [List.foldl_cons, List.reverse_cons, List.find?_append]
      rw [ih]
      cases hf : ps.reverse.find? fun q => q.1 = k with
      | some q => simp [hf, Option.or]
      | none =>
        simp only [hf, Option.or, lookupKey_goInsert]
        by_cases hp : p.1 = k
        · simp [List.find?, hp]
        · simp [List.find?, hp]
  rw [show buildMap l = l.foldl (fun m p => goInsert m p.1 p.2) [] from rfl, aux l []]
  cases hf : l.reverse.find? fun p => p.1 = k with
  | some p => simp [hf]
  | none => simp [hf, lookupKey]

/-- If the input keys are already unique, building the map changes nothing. -/
theorem buildMap_of_nodup (l : List (String × α)) (h : (keysOf l).Nodup) :
    buildMap l = l := by
  have aux : ∀ (l m : List (String × α)), (keysOf l).Nodup →
      (∀ k, k ∈ keysOf m → k ∉ keysOf l) →
      l.foldl (fun m p => goInsert m p.1 p.2) m = m ++ l := by
    intro l
    induction l with
    | nil => intro m _ _; simp
    | cons p ps ih =>
      intro m hnd hdis
      rw [keysOf_cons, List.nodup_cons] at hnd
      simp only [List.foldl_cons]
      have hnotin : ¬ m.any fun q => q.1 = p.1 := by
        intro hany
        rcases List.any_eq_true.mp hany with ⟨q, hq, hq1⟩
        simp only [decide_eq_true_eq] at hq1
        refine hdis q.1 ((mem_keysOf m q.1).mpr ⟨q, hq, rfl⟩) ?_
        rw [keysOf_cons]
        exact List.mem_cons.mpr (Or.inl hq1)
      rw [show goInsert m p.1 p.2 = m ++ [p] by unfold goInsert; simp [hnotin]]
      rw [ih (m ++ [p]) hnd.2]
      · simp
      · intro k hk hkps
        rw [keysOf_append] at hk
        rcases List.mem_append.mp hk with hk | hk
        · exact hdis k hk (by rw [keysOf_cons]; exact List.mem_cons_of_mem _ hkps)
        · rw [show keysOf [p] = [p.1] from rfl, List.mem_singleton] at hk
          subst hk
          exact hnd.1 hkps
  simpa using aux l [] h (by intro k hk; rw [keysOf_nil] at hk; simp at hk)

/-- A key is in a map exactly when the lookup finds something. -/
theorem mem_keysOf_iff_lookupKey (m : List (String × α)) (k : String) :
    k ∈ keysOf m ↔ (lookupKey m k).isSome := by
  induction m with
  | nil => simp [keysOf_nil, lookupKey]
  | cons p ps ih =>
    rw [keysOf_cons]
    simp only [List.mem_cons, lookupKey]
    by_cases hp : p.1 = k
    · simp [hp]
    · have : ¬ k = p.1 := fun h => hp h.symm
      simp only [hp, if_false, this, false_or]
      exact ih

/-- In a map with unique keys, every entry is found by looking up its key. -/
theorem lookupKey_of_mem (m : List (String × α)) (h : (keysOf m).Nodup)
    (p : String × α) (hp : p ∈ m) : lookupKey m p.1 = some p.2 := by
  induction m with
  | nil => simp at hp
  | cons q qs ih =>
    rw [keysOf_cons, List.nodup_cons] at h
    rcases List.mem_cons.mp hp with hp | hp
    · subst hp; simp [lookupKey]
    · simp only [lookupKey]
      by_cases hq : q.1 = p.1
      · exact absurd (hq ▸ (mem_keysOf qs p.1).mpr ⟨p, hp, rfl⟩) h.1
      · simpa [hq] using ih h.2 hp

/-- A successful lookup exhibits a member of the map. -/
theorem mem_of_lookupKey (m : List (String × α)) (k : String) (v : α)
    (h : lookupKey m k = some v) : (k, v) ∈ m := by
  induction m with
  | nil => simp [lookupKey] at h
  | cons p ps ih =>
    simp only [lookupKey] at h
    by_cases hp : p.1 = k
    · rw [if_pos hp] at h
      injection h with h
      apply List.mem_cons.mpr
      left
      cases p with
      | mk a b =>
        simp only at hp h
        rw [hp, h]
    · rw [if_neg hp] at h
      exact List.mem_cons_of_mem _ (ih h)

/-- Two maps with unique keys and identical lookups are permutations. -/
theorem perm_of_lookupKey_eq (m₁ m₂ : List (String × α))
    (h₁ : (keysOf m₁).Nodup) (h₂ : (keysOf m₂).Nodup)
    (h : ∀ k, lookupKey m₁ k = lookupKey m₂ k) : m₁.Perm m₂ := by
  rw [List.perm_ext_iff_of_nodup (List.Nodup.of_map _ h₁) (List.Nodup.of_map _ h₂)]
  intro p
  constructor
  · intro hp
    have := lookupKey_of_mem m₁ h₁ p hp
    rw [h p.1] at this
    exact mem_of_lookupKey m₂ p.1 p.2 this
  · intro hp
    have := lookupKey_of_mem m₂ h₂ p hp
    rw [← h p.1] at this
    exact mem_of_lookupKey m₁ p.1 p.2 this

/-! ### Counting lemmas for the diff classification -/

theorem length_filter_bi (l : List α) (p q : α → Bool)
    (h : ∀ x ∈ l, q x = ! p x) :
    (l.filter p).length + (l.filter q).length = l.length := by
  induction l with
  | nil => simp
  | cons a as ih =>
    have ha := h a (List.mem_cons_self a as)
    have ih' := ih fun x hx => h x (List.mem_cons_of_mem _ hx)
    cases hp : p a <;> rw [hp] at ha <;>
      simp [List.filter_cons, hp, ha] <;> omega

theorem length_filter_tri (l : List α) (p q r : α → Bool)
    (h : ∀ x ∈ l, (p x = true ∧ q x = false ∧ r x = false) ∨
                  (p x = false ∧ q x = true ∧ r x = false) ∨
                  (p x = false ∧ q x = false ∧ r x = true)) :
    (l.filter p).length + (l.filter q).length + (l.filter r).length = l.length := by
  induction l with
  | nil => simp
  | cons a as ih =>
    have ih' := ih fun x hx => h x (List.mem_cons_of_mem _ hx)
    rcases h a (List.mem_cons_self a as) with ⟨h1, h2, h3⟩ | ⟨h1, h2, h3⟩ | ⟨h1, h2, h3⟩ <;>
      simp [List.filter_cons, h1, h2, h3] <;> omega

theorem keysOf_filter_keydep (m : List (String × α)) (P : String → Bool) :
    keysOf (m.filter fun p => P p.1) = (keysOf m).filter P := by
  induction m with
  | nil => rfl
  | cons p ps ih =>
    by_cases hp : P p.1 <;> simp [List.filter_cons, hp, keysOf_cons, ih]

theorem matched_filter_length_eq (m₁ m₂ : List (String × α))
    (h₁ : (keysOf m₁).Nodup) (h₂ : (keysOf m₂).Nodup) :
    (m₁.filter fun p => (lookupKey m₂ p.1).isSome).length =
    (m₂.filter fun p => (lookupKey m₁ p.1).isSome).length := by
  have e1 : (m₁.filter fun p => (lookupKey m₂ p.1).isSome).length
      = ((keysOf m₁).filter fun k => (lookupKey m₂ k).isSome).length := by
    rw [← keysOf_filter_keydep]
    exact (List.length_map _ _).symm
  have e2 : (m₂.filter fun p => (lookupKey m₁ p.1).isSome).length
      = ((keysOf m₂).filter fun k => (lookupKey m₁ k).isSome).length := by
    rw [← keysOf_filter_keydep]
    exact (List.length_map _ _).symm
  rw [e1, e2]
  apply List.Perm.length_eq
  rw [List.perm_ext_iff_of_nodup (h₁.filter _) (h₂.filter _)]
  intro k
  simp only [List.mem_filter, mem_keysOf_iff_lookupKey]
  tauto

/-- The generic partition facts behind `applyServerDiff` and `applyBindDiff`:
for built maps with unique keys, the create/update/unchanged classifications of
the "after" map partition it, and delete plus matched partition the "before"
map.  The four predicates are abstract, pinned down pointwise by the
hypotheses. -/
theorem diff_partition_generic (m₁ m₂ : List (String × α))
    (pc pu pe pd : String × α → Bool)
    (h₁ : (keysOf m₁).Nodup) (h₂ : (keysOf m₂).Nodup)
    (hc : ∀ p, pc p = (lookupKey m₁ p.1).isNone)
    (hd : ∀ p, pd p = (lookupKey m₂ p.1).isNone)
    (hnone : ∀ p, lookupKey m₁ p.1 = none → pu p = false ∧ pe p = false)
    (hsome : ∀ p old, lookupKey m₁ p.1 = some old → pe p = ! pu p) :
    (∀ p, ¬ (p ∈ m₂.filter pc ∧ p ∈ m₂.filter pu) ∧
          ¬ (p ∈ m₂.filter pc ∧ p ∈ m₁.filter pd) ∧
          ¬ (p ∈ m₂.filter pu ∧ p ∈ m₁.filter pd)) ∧
    ((m₂.filter pc).length + (m₂.filter pu).length + (m₂.filter pe).length
      = m₂.length) ∧
    ((m₁.filter pd).length + (m₂.filter pu).length + (m₂.filter pe).length
      = m₁.length) := by
  have tri := length_filter_tri m₂ pc pu pe (by
    intro x _
    cases hx : lookupKey m₁ x.1 with
    | none =>
      rcases hnone x hx with ⟨hu, he⟩
      left
      exact ⟨by rw [hc x, hx]; rfl, hu, he⟩
    | some old =>
      have hpe := hsome x old hx
      have hpc : pc x = false := by rw [hc x, hx]; rfl
      cases hu : pu x with
      | true => right; left; rw [hu] at hpe; exact ⟨hpc, rfl, by rw [hpe]; rfl⟩
      | false => right; right; rw [hu] at hpe; exact ⟨hpc, rfl, by rw [hpe]; rfl⟩)
  have bi2 := length_filter_bi m₂ pc (fun p => (lookupKey m₁ p.1).isSome) (by
    intro x _
    rw [hc x]
    show (lookupKey m₁ x.1).isSome = !(lookupKey m₁ x.1).isNone
    cases lookupKey m₁ x.1 <;> rfl)
  have bi1 := length_filter_bi m₁ pd (fun p => (lookupKey m₂ p.1).isSome) (by
    intro x _
    rw [hd x]
    show (lookupKey m₂ x.1).isSome = !(lookupKey m₂ x.1).isNone
    cases lookupKey m₂ x.1 <;> rfl)
  have matched := matched_filter_length_eq m₁ m₂ h₁ h₂
  refine ⟨?_, tri, by omega⟩
  intro p
  refine ⟨?_, ?_, ?_⟩
  · rintro ⟨hcm, hum⟩
    rw [List.mem_filter] at hcm hum
    rcases hcm with ⟨_, hcp⟩
    rcases hum with ⟨_, hup⟩
    rw [hc p] at hcp
    cases hx : lookupKey m₁ p.1 with
    | none => rcases hnone p hx with ⟨hu, _⟩; rw [hu] at hup; exact Bool.noConfusion hup
    | some old => rw [hx] at hcp; exact Bool.noConfusion hcp
  · rintro ⟨hcm, hdm⟩
    rw [List.mem_filter] at hcm hdm
    rcases hcm with ⟨hmem, _⟩
    rcases hdm with ⟨_, hdp⟩
    rw [hd p, lookupKey_of_mem m₂ h₂ p hmem] at hdp
    exact Bool.noConfusion hdp
  · rintro ⟨hum, hdm⟩
    rw [List.mem_filter] at hum hdm
    rcases hum with ⟨hmem, _⟩
    rcases hdm with ⟨_, hdp⟩
    rw [hd p, lookupKey_of_mem m₂ h₂ p hmem] at hdp
    exact Bool.noConfusion hdp

/-! ### Duplicate-key (last-occurrence-wins) lemmas -/

theorem any_map_comp (f : α → β) (l : List α) (p : β → Bool) :
    (l.map f).any p = l.any fun a => p (f a) := by
  induction l with
  | nil => rfl
  | cons a as ih => simp [List.any_cons, ih]

theorem dedupKeepLast_cons (key : α → String) (x : α) (xs : List α) :
    dedupKeepLast key (x :: xs) =
      if xs.any (fun y => key y = key x) then dedupKeepLast key xs
      else x :: dedupKeepLast key xs := rfl

theorem find?_reverse_dedupKeepLast (l : List (String × α)) (k : String) :
    (dedupKeepLast Prod.fst l).reverse.find? (fun p => p.1 = k)
      = l.reverse.find? (fun p => p.1 = k) := by
  induction l with
  | nil => rfl
  | cons x xs ih =>
    rw [dedupKeepLast_cons]
    by_cases hany : xs.any fun y => y.1 = x.1
    · rw [if_pos hany, ih, List.reverse_cons, List.find?_append]
      by_cases hk : x.1 = k
      · have hsome : (xs.reverse.find? fun p => p.1 = k).isSome := by
          rw [List.find?_isSome]
          rcases List.any_eq_true.mp hany with ⟨y, hy, hyk⟩
          simp only [decide_eq_true_eq] at hyk
          exact ⟨y, List.mem_reverse.mpr hy, by simp [hyk, hk]⟩
        cases hf : xs.reverse.find? fun p => p.1 = k with
        | some q => rfl
        | none => rw [hf] at hsome; exact Bool.noConfusion hsome
      · have hnone : (List.find? (fun p => decide (p.1 = k)) [x]) = none := by
          simp [List.find?, hk]
        rw [hnone]
        cases xs.reverse.find? fun p => p.1 = k <;> rfl
    · rw [if_neg hany, List.reverse_cons, List.reverse_cons, List.find?_append,
        List.find?_append, ih]

/-- Dropping all but the last occurrence of each key leaves every lookup of the
built map unchanged: earlier duplicates never reach the map. -/
theorem lookupKey_buildMap_dedup (l : List (String × α)) (k : String) :
    lookupKey (buildMap (dedupKeepLast Prod.fst l)) k = lookupKey (buildMap l) k := by
  rw [lookupKey_buildMap, lookupKey_buildMap, find?_reverse_dedupKeepLast]

/-- The built maps of a list and of its last-occurrence restriction are
permutations of one another. -/
theorem buildMap_dedup_perm (l : List (String × α)) :
    (buildMap (dedupKeepLast Prod.fst l)).Perm (buildMap l) :=
  perm_of_lookupKey_eq _ _ (nodup_keys_buildMap _) (nodup_keys_buildMap _)
    (lookupKey_buildMap_dedup l)

theorem map_pairing_dedup_server (before : List ServerConfig) :
    (dedupKeepLast (fun s => s.name) before).map (fun s => (s.name, s))
      = dedupKeepLast Prod.fst (before.map fun s => (s.name, s)) := by
  induction before with
  | nil => rfl
  | cons x xs ih =>
    rw [List.map_cons, dedupKeepLast_cons, dedupKeepLast_cons]
    have hpred : ((xs.map fun s => (s.name, s)).any fun y => y.1 = (x.name, x).1)
        = (xs.any fun y => y.name = x.name) := by
      rw [any_map_comp]
    rw [hpred]
    by_cases h : xs.any fun y => y.name = x.name
    · rw [if_pos h, if_pos h, ih]
    · rw [if_neg h, if_neg h, List.map_cons, ih]

theorem map_pairing_dedup_bind (before : List BindConfig) :
    (dedupKeepLast bindKey before).map (fun b => (bindKey b, b))
      = dedupKeepLast Prod.fst (before.map fun b => (bindKey b, b)) := by
  induction before with
  | nil => rfl
  | cons x xs ih =>
    rw [List.map_cons, dedupKeepLast_cons, dedupKeepLast_cons]
    have hpred : ((xs.map fun b => (bindKey b, b)).any fun y => y.1 = (bindKey x, x).1)
        = (xs.any fun y => bindKey y = bindKey x) := by
      rw [any_map_comp]
    rw [hpred]
    by_cases h : xs.any fun y => bindKey y = bindKey x
    · rw [if_pos h, if_pos h, ih]
    · rw [if_neg h, if_neg h, List.map_cons, ih]

/-- The backend default commutes with the last-occurrence restriction (the
default touches only the `backend` field, never the `name` key). -/
theorem afterWithBackend_dedup (bn : String) (a : List ServerConfig) :
    afterWithBackend bn (dedupKeepLast (fun s => s.name) a)
      = dedupKeepLast (fun s => s.name) (afterWithBackend bn a) := by
  have hname : ∀ s : ServerConfig,
      (if s.backend = "" then { s with backend := bn } else s).name = s.name := by
    intro s; by_cases h : s.backend = "" <;> simp [h]
  induction a with
  | nil => rfl
  | cons x xs ih =>
    rw [dedupKeepLast_cons]
    rw [show afterWithBackend bn (x :: xs)
        = (if x.backend = "" then { x with backend := bn } else x)
            :: afterWithBackend bn xs from rfl]
    rw [dedupKeepLast_cons]
    have hpred : ((afterWithBackend bn xs).any fun y =>
          y.name = (if x.backend = "" then { x with backend := bn } else x).name)
        = (xs.any fun y => y.name = x.name) := by
      unfold afterWithBackend
      rw [any_map_comp]
      simp only [hname]
    rw [hpred]
    by_cases h : xs.any fun y => y.name = x.name
    · rw [if_pos h, if_pos h, ih]
    · rw [if_neg h, if_neg h]
      rw [show afterWithBackend bn (x :: dedupKeepLast (fun s => s.name) xs)
          = (if x.backend = "" then { x with backend := bn } else x)
              :: afterWithBackend bn (dedupKeepLast (fun s => s.name) xs) from rfl]
      rw [ih]

theorem serverBeforeMap_of_nodup (before : List ServerConfig)
    (hb : (before.map ServerConfig.name).Nodup) :
    serverBeforeMap before = before.map fun s => (s.name, s) := by
  apply buildMap_of_nodup
  simpa [keysOf, List.map_map, Function.comp] using hb

theorem afterWithBackend_names (bn : String) (a : List ServerConfig) :
    (afterWithBackend bn a).map ServerConfig.name = a.map ServerConfig.name := by
  unfold afterWithBackend
  rw [List.map_map]
  apply List.map_congr_left
  intro s _
  by_cases h : s.backend = "" <;> simp [h]

theorem serverAfterMap_of_nodup (bn : String) (a : List ServerConfig)
    (ha : (a.map ServerConfig.name).Nodup) :
    serverAfterMap bn a = (afterWithBackend bn a).map fun s => (s.name, s) := by
  apply buildMap_of_nodup
  have : keysOf ((afterWithBackend bn a).map fun s => (s.name, s))
      = (afterWithBackend bn a).map ServerConfig.name := by
    simp [keysOf, List.map_map, Function.comp]
  rw [this, afterWithBackend_names]
  exact ha

theorem bindBeforeMap_of_nodup (before : List BindConfig)
    (hb : (before.map bindKey).Nodup) :
    bindBeforeMap before = before.map fun b => (bindKey b, b) := by
  apply buildMap_of_nodup
  simpa [keysOf, List.map_map, Function.comp] using hb

theorem bindAfterMap_of_nodup (a : List BindConfig)
    (ha : (a.map bindKey).Nodup) :
    bindAfterMap a = a.map fun b => (bindKey b, b) := by
  apply buildMap_of_nodup
  simpa [keysOf, List.map_map, Function.comp] using ha

/-! ### String containment lemmas -/

theorem strContains_append_right (a b sub : String)
    (h : strContains b sub = true) : strContains (a ++ b) sub = true := by
  unfold strContains at h ⊢
  rcases List.any_eq_true.mp h with ⟨t, ht, hpre⟩
  refine List.any_eq_true.mpr ⟨t, ?_, hpre⟩
  rw [List.mem_tails] at ht ⊢
  refine ht.trans ?_
  rw [String.data_append]
  exact List.suffix_append a.data b.data

/-! ### Claim theorems -/

/-- **C7.**  A Backend or Frontend manifest violating a validation rule (empty
name, mode outside {http, tcp}, a server child missing name/address/port, or a
bind child missing address/port) is rejected by `Validate` before any network
call: the apply returns a validation error with an empty call trace — no
resource fetch, no version fetch, no write. -/
theorem C7_validation_rejects_before_any_network_call
    (mb : backendWithServers) (mf : frontendWithBinds)
    (outputFormat : String) (dryRun : Bool) (w : ApiWorld) (ord1 ord2 : List String)
    (hb : mb.config.name = "" ∨ (mb.config.mode ≠ "http" ∧ mb.config.mode ≠ "tcp") ∨
          ∃ s ∈ mb.servers, s.name = "" ∨ s.address = "" ∨ s.port = 0)
    (hf : mf.config.name = "" ∨ (mf.config.mode ≠ "http" ∧ mf.config.mode ≠ "tcp") ∨
          ∃ b ∈ mf.binds, b.address = "" ∨ b.port = 0) :
    (∃ e, ApplyBackendFromYAML mb outputFormat dryRun w ord1 ord2 =
        ([], Except.error e)) ∧
    (∃ e, ApplyFrontendFromYAML mf outputFormat dryRun w ord1 ord2 =
        ([], Except.error e)) := by
  constructor
  · match hval : backendValidate mb with
    | .error e =>
      exact ⟨"invalid backend configuration: " ++ e, by
        unfold ApplyBackendFromYAML; rw [hval]⟩
    | .ok _ =>
      exfalso
      unfold backendValidate at hval
      split_ifs at hval with h1 h2 h3 h4 h5
      rcases hb with h | h | h
      · exact h1 h
      · exact h4 h
      · rcases h with ⟨s, hs, hbad⟩
        exact h5 (List.any_eq_true.mpr ⟨s, hs, by simpa using hbad⟩)
  · match hval : frontendValidate mf with
    | .error e =>
      exact ⟨"invalid frontend configuration: " ++ e, by
        unfold ApplyFrontendFromYAML; rw [hval]⟩
    | .ok _ =>
      exfalso
      unfold frontendValidate at hval
      split_ifs at hval with h1 h2 h3
      rcases hf with h | h | h
      · exact h1 h
      · exact h2 h
      · rcases h with ⟨b, hbm, hbad⟩
        exact h3 (List.any_eq_true.mpr ⟨b, hbm, by simpa using hbad⟩)

/-- Witness for C7 at the empty (hence name-less) manifests. -/
theorem C7_validation_rejects_witness :
    (({} : backendWithServers).config.name = "" ∨
      (({} : backendWithServers).config.mode ≠ "http" ∧
        ({} : backendWithServers).config.mode ≠ "tcp") ∨
      ∃ s ∈ ({} : backendWithServers).servers,
        s.name = "" ∨ s.address = "" ∨ s.port = 0) ∧
    (({} : frontendWithBinds).config.name = "" ∨
      (({} : frontendWithBinds).config.mode ≠ "http" ∧
        ({} : frontendWithBinds).config.mode ≠ "tcp") ∨
      ∃ b ∈ ({} : frontendWithBinds).binds, b.address = "" ∨ b.port = 0) ∧
    ((∃ e, ApplyBackendFromYAML {} "" false worldNotFound [] [] =
        ([], Except.error e)) ∧
     (∃ e, ApplyFrontendFromYAML {} "" false worldNotFound [] [] =
        ([], Except.error e))) :=
  ⟨Or.inl rfl, Or.inl rfl,
    C7_validation_rejects_before_any_network_call {} {} "" false worldNotFound [] []
      (Or.inl rfl) (Or.inl rfl)⟩

/-- **C2.**  For finite before/after collections of children with unique
identity keys (servers by name, binds by address:port), the child
reconciliation classifies every item into exactly one of create, delete,
update, unchanged: the three computed sets are pairwise disjoint,
`|toCreate| + |toUpdate| + unchanged = |after|`, and
`|toDelete| + |toUpdate| + unchanged = |before|`. -/
theorem C2_diff_classification_partition
    (backendName : String) (beforeS afterS : List ServerConfig)
    (beforeB afterB : List BindConfig)
    (hbs : (beforeS.map ServerConfig.name).Nodup)
    (has : (afterS.map ServerConfig.name).Nodup)
    (hbb : (beforeB.map bindKey).Nodup)
    (hab : (afterB.map bindKey).Nodup) :
    ((∀ p, ¬ (p ∈ serverToCreate backendName beforeS afterS ∧
              p ∈ serverToUpdate backendName beforeS afterS) ∧
           ¬ (p ∈ serverToCreate backendName beforeS afterS ∧
              p ∈ serverToDelete backendName beforeS afterS) ∧
           ¬ (p ∈ serverToUpdate backendName beforeS afterS ∧
              p ∈ serverToDelete backendName beforeS afterS)) ∧
     (serverToCreate backendName beforeS afterS).length +
       (serverToUpdate backendName beforeS afterS).length +
       (serverUnchanged backendName beforeS afterS).length = afterS.length ∧
     (serverToDelete backendName beforeS afterS).length +
       (serverToUpdate backendName beforeS afterS).length +
       (serverUnchanged backendName beforeS afterS).length = beforeS.length) ∧
    ((∀ p, ¬ (p ∈ bindToCreate beforeB afterB ∧ p ∈ bindToUpdate beforeB afterB) ∧
           ¬ (p ∈ bindToCreate beforeB afterB ∧ p ∈ bindToDelete beforeB afterB) ∧
           ¬ (p ∈ bindToUpdate beforeB afterB ∧ p ∈ bindToDelete beforeB afterB)) ∧
     (bindToCreate beforeB afterB).length + (bindToUpdate beforeB afterB).length +
       (bindUnchanged beforeB afterB).length = afterB.length ∧
     (bindToDelete beforeB afterB).length + (bindToUpdate beforeB afterB).length +
       (bindUnchanged beforeB afterB).length = beforeB.length) := by
  constructor
  · have hlA : afterS.length = (serverAfterMap backendName afterS).length := by
      rw [serverAfterMap_of_nodup backendName afterS has, List.length_map]
      unfold afterWithBackend
      exact (List.length_map _ _).symm
    have hlB : beforeS.length = (serverBeforeMap beforeS).length := by
      rw [serverBeforeMap_of_nodup beforeS hbs]
      exact (List.length_map _ _).symm
    unfold serverToCreate serverToUpdate serverUnchanged serverToDelete
    rw [hlA, hlB]
    refine diff_partition_generic _ _ _ _ _ _
      (nodup_keys_buildMap _) (nodup_keys_buildMap _)
      (fun _ => rfl) (fun _ => rfl) ?_ ?_
    · intro p hx
      constructor <;> simp only [hx]
    · intro p old hx
      simp only [hx]
      cases h : serverConfigEqual old p.2 <;> simp [h]
  · have hlA : afterB.length = (bindAfterMap afterB).length := by
      rw [bindAfterMap_of_nodup afterB hab]
      exact (List.length_map _ _).symm
    have hlB : beforeB.length = (bindBeforeMap beforeB).length := by
      rw [bindBeforeMap_of_nodup beforeB hbb]
      exact (List.length_map _ _).symm
    unfold bindToCreate bindToUpdate bindUnchanged bindToDelete
    rw [hlA, hlB]
    refine diff_partition_generic _ _ _ _ _ _
      (nodup_keys_buildMap _) (nodup_keys_buildMap _)
      (fun _ => rfl) (fun _ => rfl) ?_ ?_
    · intro p hx
      constructor <;> simp only [hx]
    · intro p old hx
      simp only [hx]
      cases h : bindConfigEqual old { p.2 with name := old.name } <;> simp [h]

/-- Witness for C2 on a mixed example: one create, one update, one unchanged,
one delete on each side. -/
theorem C2_diff_classification_witness :
    (([{ name := "s1", address := "10.0.0.1", port := 80 },
       { name := "s2", address := "10.0.0.2", port := 81 }] :
        List ServerConfig).map ServerConfig.name).Nodup ∧
    (([{ name := "s2", address := "10.0.0.9", port := 81 },
       { name := "s3", address := "10.0.0.3", port := 82 }] :
        List ServerConfig).map ServerConfig.name).Nodup ∧
    (([{ address := "0.0.0.0", port := 80, name := "b0" }] :
        List BindConfig).map bindKey).Nodup ∧
    (([{ address := "0.0.0.0", port := 80 }, { address := "::", port := 443 }] :
        List BindConfig).map bindKey).Nodup ∧
    (serverToCreate "bk"
        [{ name := "s1", address := "10.0.0.1", port := 80 },
         { name := "s2", address := "10.0.0.2", port := 81 }]
        [{ name := "s2", address := "10.0.0.9", port := 81 },
         { name := "s3", address := "10.0.0.3", port := 82 }]).length +
      (serverToUpdate "bk"
        [{ name := "s1", address := "10.0.0.1", port := 80 },
         { name := "s2", address := "10.0.0.2", port := 81 }]
        [{ name := "s2", address := "10.0.0.9", port := 81 },
         { name := "s3", address := "10.0.0.3", port := 82 }]).length +
      (serverUnchanged "bk"
        [{ name := "s1", address := "10.0.0.1", port := 80 },
         { name := "s2", address := "10.0.0.2", port := 81 }]
        [{ name := "s2", address := "10.0.0.9", port := 81 },
         { name := "s3", address := "10.0.0.3", port := 82 }]).length = 2 :=
  ⟨by decide, by decide, by decide, by decide,
    ((C2_diff_classification_partition "bk"
      [{ name := "s1", address := "10.0.0.1", port := 80 },
       { name := "s2", address := "10.0.0.2", port := 81 }]
      [{ name := "s2", address := "10.0.0.9", port := 81 },
       { name := "s3", address := "10.0.0.3", port := 82 }]
      [{ address := "0.0.0.0", port := 80, name := "b0" }]
      [{ address := "0.0.0.0", port := 80 }, { address := "::", port := 443 }]
      (by decide) (by decide) (by decide) (by decide)).1.2.1)⟩

/-! ### Call-shape lemmas for the child operations and diff passes -/

theorem DeleteServer_calls (w : ApiWorld) (c : Ctr) (bn k : String) :
    ∀ call ∈ (DeleteServer w c bn k).1, call.isCreateOrUpdate = false := by
  intro call hc
  unfold DeleteServer at hc
  cases h : w.version c.vIdx with
  | error e =>
    rw [h] at hc
    simp only [List.mem_singleton] at hc
    subst hc; rfl
  | ok v =>
    rw [h] at hc
    simp only [List.mem_cons, List.mem_singleton, List.not_mem_nil, or_false] at hc
    rcases hc with hc | hc <;> subst hc <;> rfl

theorem deleteBind_calls (w : ApiWorld) (c : Ctr) (fn k : String) :
    ∀ call ∈ (deleteBind w c fn k).1, call.isCreateOrUpdate = false := by
  intro call hc
  unfold deleteBind at hc
  cases h : w.version c.vIdx with
  | error e =>
    rw [h] at hc
    simp only [List.mem_singleton] at hc
    subst hc; rfl
  | ok v =>
    rw [h] at hc
    simp only [List.mem_cons, List.mem_singleton, List.not_mem_nil, or_false] at hc
    rcases hc with hc | hc <;> subst hc <;> rfl

theorem CreateServer_calls (w : ApiWorld) (c : Ctr) (s : ServerConfig) :
    ∀ call ∈ (CreateServer w c s "" false).1, call.isDelete = false := by
  intro call hc
  unfold CreateServer at hc
  simp only [ne_eq, not_true_eq_false, false_or] at hc
  rw [if_neg (fun h => Bool.noConfusion h)] at hc
  cases hn : NormalizeParent s with
  | error e => rw [hn] at hc; simp at hc
  | ok s' =>
    rw [hn] at hc
    cases h : w.version c.vIdx with
    | error e =>
      rw [h] at hc
      simp only [List.mem_singleton] at hc
      subst hc; rfl
    | ok v =>
      rw [h] at hc
      simp only [List.mem_cons, List.mem_singleton, List.not_mem_nil, or_false] at hc
      rcases hc with hc | hc <;> subst hc <;> rfl

theorem UpdateServer_calls (w : ApiWorld) (c : Ctr) (s : ServerConfig) :
    ∀ call ∈ (UpdateServer w c s).1, call.isDelete = false := by
  intro call hc
  unfold UpdateServer at hc
  cases h : w.version c.vIdx with
  | error e =>
    rw [h] at hc
    simp only [List.mem_singleton] at hc
    subst hc; rfl
  | ok v =>
    rw [h] at hc
    simp only [List.mem_cons, List.mem_singleton, List.not_mem_nil, or_false] at hc
    rcases hc with hc | hc <;> subst hc <;> rfl

theorem createBind_calls (w : ApiWorld) (c : Ctr) (fn : String) (b : BindConfig) :
    ∀ call ∈ (createBind w c fn b).1, call.isDelete = false := by
  intro call hc
  unfold createBind at hc
  cases h : w.version c.vIdx with
  | error e =>
    rw [h] at hc
    simp only [List.mem_singleton] at hc
    subst hc; rfl
  | ok v =>
    rw [h] at hc
    simp only [List.mem_cons, List.mem_singleton, List.not_mem_nil, or_false] at hc
    rcases hc with hc | hc <;> subst hc <;> rfl

theorem updateBind_calls (w : ApiWorld) (c : Ctr) (fn : String) (b : BindConfig) :
    ∀ call ∈ (updateBind w c fn b).1, call.isDelete = false := by
  intro call hc
  unfold updateBind at hc
  cases h : w.version c.vIdx with
  | error e =>
    rw [h] at hc
    simp only [List.mem_singleton] at hc
    subst hc; rfl
  | ok v =>
    rw [h] at hc
    simp only [List.mem_cons, List.mem_singleton, List.not_mem_nil, or_false] at hc
    rcases hc with hc | hc <;> subst hc <;> rfl

theorem serverDeletePass_calls (w : ApiWorld) (bn : String)
    (am : List (String × ServerConfig)) :
    ∀ (ks : List String) (c : Ctr),
      ∀ call ∈ (serverDeletePass w bn am ks c).1, call.isCreateOrUpdate = false := by
  intro ks
  induction ks with
  | nil => intro c call hc; simp [serverDeletePass] at hc
  | cons k ks ih =>
    intro c call hc
    simp only [serverDeletePass] at hc
    by_cases hk : (lookupKey am k).isNone
    · rw [if_pos hk] at hc
      cases h2 : (DeleteServer w c bn k).2.2 with
      | error e =>
        rw [h2] at hc
        exact DeleteServer_calls w c bn k call hc
      | ok u =>
        rw [h2] at hc
        simp only [List.mem_append] at hc
        rcases hc with hc | hc
        · exact DeleteServer_calls w c bn k call hc
        · exact ih _ call hc
    · rw [if_neg hk] at hc
      exact ih _ call hc

theorem bindDeletePass_calls (w : ApiWorld) (fn : String)
    (bm am : List (String × BindConfig)) :
    ∀ (ks : List String) (c : Ctr),
      ∀ call ∈ (bindDeletePass w fn bm am ks c).1, call.isCreateOrUpdate = false := by
  intro ks
  induction ks with
  | nil => intro c call hc; simp [bindDeletePass] at hc
  | cons k ks ih =>
    intro c call hc
    simp only [bindDeletePass] at hc
    cases hb : lookupKey bm k with
    | none =>
      rw [hb] at hc
      exact ih _ call hc
    | some oldB =>
      rw [hb] at hc
      simp only at hc
      by_cases hk : (lookupKey am k).isNone
      · rw [if_pos hk] at hc
        by_cases hn : oldB.name = ""
        · rw [if_pos hn] at hc
          exact ih _ call hc
        · rw [if_neg hn] at hc
          cases h2 : (deleteBind w c fn oldB.name).2.2 with
          | error e =>
            rw [h2] at hc
            exact deleteBind_calls w c fn oldB.name call hc
          | ok u =>
            rw [h2] at hc
            simp only [List.mem_append] at hc
            rcases hc with hc | hc
            · exact deleteBind_calls w c fn oldB.name call hc
            · exact ih _ call hc
      · rw [if_neg hk] at hc
        exact ih _ call hc

theorem serverCreateUpdatePass_calls (w : ApiWorld)
    (bm am : List (String × ServerConfig)) :
    ∀ (ks : List String) (c : Ctr),
      ∀ call ∈ (serverCreateUpdatePass w bm am ks c).1, call.isDelete = false := by
  intro ks
  induction ks with
  | nil => intro c call hc; simp [serverCreateUpdatePass] at hc
  | cons k ks ih =>
    intro c call hc
    simp only [serverCreateUpdatePass] at hc
    cases ha : lookupKey am k with
    | none =>
      rw [ha] at hc
      exact ih _ call hc
    | some newS =>
      rw [ha] at hc
      simp only at hc
      cases hb : lookupKey bm k with
      | none =>
        rw [hb] at hc
        simp only at hc
        cases h2 : (CreateServer w c newS "" false).2.2 with
        | error e =>
          rw [h2] at hc
          exact CreateServer_calls w c newS call hc
        | ok u =>
          rw [h2] at hc
          simp only [List.mem_append] at hc
          rcases hc with hc | hc
          · exact CreateServer_calls w c newS call hc
          · exact ih _ call hc
      | some oldS =>
        rw [hb] at hc
        simp only at hc
        by_cases he : serverConfigEqual oldS newS
        · rw [if_pos he] at hc
          exact ih _ call hc
        · rw [if_neg he] at hc
          cases h2 : (UpdateServer w c newS).2.2 with
          | error e =>
            rw [h2] at hc
            exact UpdateServer_calls w c newS call hc
          | ok u =>
            rw [h2] at hc
            simp only [List.mem_append] at hc
            rcases hc with hc | hc
            · exact UpdateServer_calls w c newS call hc
            · exact ih _ call hc

theorem bindCreateUpdatePass_calls (w : ApiWorld) (fn : String)
    (bm am : List (String × BindConfig)) :
    ∀ (ks : List String) (c : Ctr),
      ∀ call ∈ (bindCreateUpdatePass w fn bm am ks c).1, call.isDelete = false := by
  intro ks
  induction ks with
  | nil => intro c call hc; simp [bindCreateUpdatePass] at hc
  | cons k ks ih =>
    intro c call hc
    simp only [bindCreateUpdatePass] at hc
    cases ha : lookupKey am k with
    | none =>
      rw [ha] at hc
      exact ih _ call hc
    | some newB =>
      rw [ha] at hc
      simp only at hc
      cases hb : lookupKey bm k with
      | none =>
        rw [hb] at hc
        simp only at hc
        cases h2 : (createBind w c fn newB).2.2 with
        | error e =>
          rw [h2] at hc
          exact createBind_calls w c fn newB call hc
        | ok u =>
          rw [h2] at hc
          simp only [List.mem_append] at hc
          rcases hc with hc | hc
          · exact createBind_calls w c fn newB call hc
          · exact ih _ call hc
      | some oldB =>
        rw [hb] at hc
        simp only at hc
        by_cases he : bindConfigEqual oldB { newB with name := oldB.name }
        · rw [if_pos he] at hc
          exact ih _ call hc
        · rw [if_neg he] at hc
          by_cases hn : ({ newB with name := oldB.name } : BindConfig).name = ""
          · rw [if_pos hn] at hc
            exact ih _ call hc
          · rw [if_neg hn] at hc
            cases h2 : (updateBind w c fn { newB with name := oldB.name }).2.2 with
            | error e =>
              rw [h2] at hc
              exact updateBind_calls w c fn _ call hc
            | ok u =>
              rw [h2] at hc
              simp only [List.mem_append] at hc
              rcases hc with hc | hc
              · exact updateBind_calls w c fn _ call hc
              · exact ih _ call hc

theorem deletesBeforeWrites_append (l1 l2 : List ApiCall)
    (h1 : ∀ x ∈ l1, x.isCreateOrUpdate = false)
    (h2 : ∀ x ∈ l2, x.isDelete = false) :
    deletesBeforeWrites (l1 ++ l2) = true := by
  unfold deletesBeforeWrites
  rw [List.dropWhile_append]
  have hnil : (l1.dropWhile fun c => ¬ c.isCreateOrUpdate) = [] := by
    rw [List.dropWhile_eq_nil_iff]
    intro x hx
    simp [h1 x hx]
  rw [hnil]
  simp only [List.isEmpty_nil, if_true]
  rw [List.all_eq_true]
  intro x hx
  have := (List.dropWhile_sublist (fun c : ApiCall => ¬ c.isCreateOrUpdate)).mem hx
  simp [h2 x this]

/-! ### Shape lemmas for bind reconciliation (claim C4) -/

theorem updateBind_put_inv (w : ApiWorld) (c : Ctr) (fn : String) (b : BindConfig) :
    ∀ call ∈ (updateBind w c fn b).1,
      ∀ p vi ver bb, call = ApiCall.put p vi ver (.bindB bb) → bb = b := by
  intro call hc p vi ver bb hcall
  unfold updateBind at hc
  cases h : w.version c.vIdx with
  | error e =>
    rw [h] at hc
    simp only [List.mem_singleton] at hc
    rw [hc] at hcall
    exact ApiCall.noConfusion hcall
  | ok v =>
    rw [h] at hc
    simp only [List.mem_cons, List.mem_singleton, List.not_mem_nil, or_false] at hc
    rcases hc with hc | hc
    · rw [hc] at hcall
      exact ApiCall.noConfusion hcall
    · rw [hc] at hcall
      injection hcall with h1 h2 h3 h4
      injection h4 with h4
      exact h4.symm

theorem createBind_no_put (w : ApiWorld) (c : Ctr) (fn : String) (b : BindConfig) :
    ∀ call ∈ (createBind w c fn b).1,
      ∀ p vi ver bb, call ≠ ApiCall.put p vi ver (.bindB bb) := by
  intro call hc p vi ver bb hcall
  unfold createBind at hc
  cases h : w.version c.vIdx with
  | error e =>
    rw [h] at hc
    simp only [List.mem_singleton] at hc
    rw [hc] at hcall
    exact ApiCall.noConfusion hcall
  | ok v =>
    rw [h] at hc
    simp only [List.mem_cons, List.mem_singleton, List.not_mem_nil, or_false] at hc
    rcases hc with hc | hc <;> rw [hc] at hcall <;> exact ApiCall.noConfusion hcall

theorem deleteBind_del_inv (w : ApiWorld) (c : Ctr) (fn nm : String) :
    ∀ call ∈ (deleteBind w c fn nm).1,
      ∀ p vi ver, call = ApiCall.del p vi ver →
        p = "/services/haproxy/configuration/frontends/" ++ fn ++ "/binds/" ++ nm := by
  intro call hc p vi ver hcall
  unfold deleteBind at hc
  cases h : w.version c.vIdx with
  | error e =>
    rw [h] at hc
    simp only [List.mem_singleton] at hc
    rw [hc] at hcall
    exact ApiCall.noConfusion hcall
  | ok v =>
    rw [h] at hc
    simp only [List.mem_cons, List.mem_singleton, List.not_mem_nil, or_false] at hc
    rcases hc with hc | hc
    · rw [hc] at hcall
      exact ApiCall.noConfusion hcall
    · rw [hc] at hcall
      injection hcall with h1 h2 h3
      exact h1.symm

/-- Every PUT of a bind in the create/update pass carries the wire name
copied from the matched before-bind, and that name is non-empty. -/
theorem bindCreateUpdatePass_put_inv (w : ApiWorld) (fn : String)
    (bm am : List (String × BindConfig)) :
    ∀ (ks : List String) (c : Ctr),
      ∀ call ∈ (bindCreateUpdatePass w fn bm am ks c).1,
        ∀ p vi ver bb, call = ApiCall.put p vi ver (.bindB bb) →
          ∃ k old new, lookupKey bm k = some old ∧ lookupKey am k = some new ∧
            bb = { new with name := old.name } ∧ old.name ≠ "" := by
  intro ks
  induction ks with
  | nil => intro c call hc; simp [bindCreateUpdatePass] at hc
  | cons k ks ih =>
    intro c call hc p vi ver bb hcall
    simp only [bindCreateUpdatePass] at hc
    cases ha : lookupKey am k with
    | none =>
      rw [ha] at hc
      exact ih _ call hc p vi ver bb hcall
    | some newB =>
      rw [ha] at hc
      simp only at hc
      cases hb : lookupKey bm k with
      | none =>
        rw [hb] at hc
        simp only at hc
        cases h2 : (createBind w c fn newB).2.2 with
        | error e =>
          rw [h2] at hc
          exact absurd hcall (createBind_no_put w c fn newB call hc p vi ver bb)
        | ok u =>
          rw [h2] at hc
          simp only [List.mem_append] at hc
          rcases hc with hc | hc
          · exact absurd hcall (createBind_no_put w c fn newB call hc p vi ver bb)
          · exact ih _ call hc p vi ver bb hcall
      | some oldB =>
        rw [hb] at hc
        simp only at hc
        by_cases he : bindConfigEqual oldB { newB with name := oldB.name }
        · rw [if_pos he] at hc
          exact ih _ call hc p vi ver bb hcall
        · rw [if_neg he] at hc
          by_cases hn : ({ newB with name := oldB.name } : BindConfig).name = ""
          · rw [if_pos hn] at hc
            exact ih _ call hc p vi ver bb hcall
          · rw [if_neg hn] at hc
            cases h2 : (updateBind w c fn { newB with name := oldB.name }).2.2 with
            | error e =>
              rw [h2] at hc
              have := updateBind_put_inv w c fn _ call hc p vi ver bb hcall
              exact ⟨k, oldB, newB, hb, ha, this, fun hz => hn (by simpa using hz)⟩
            | ok u =>
              rw [h2] at hc
              simp only [List.mem_append] at hc
              rcases hc with hc | hc
              · have := updateBind_put_inv w c fn _ call hc p vi ver bb hcall
                exact ⟨k, oldB, newB, hb, ha, this, fun hz => hn (by simpa using hz)⟩
              · exact ih _ call hc p vi ver bb hcall

/-- Every DELETE issued by the delete pass addresses the wire name of a
matched before-bind whose wire name is non-empty and whose key is absent from
the after map. -/
theorem bindDeletePass_del_inv (w : ApiWorld) (fn : String)
    (bm am : List (String × BindConfig)) :
    ∀ (ks : List String) (c : Ctr),
      ∀ call ∈ (bindDeletePass w fn bm am ks c).1,
        ∀ p vi ver, call = ApiCall.del p vi ver →
          ∃ k old, lookupKey bm k = some old ∧ (lookupKey am k).isNone ∧
            old.name ≠ "" ∧
            p = "/services/haproxy/configuration/frontends/" ++ fn ++ "/binds/"
                ++ old.name := by
  intro ks
  induction ks with
  | nil => intro c call hc; simp [bindDeletePass] at hc
  | cons k ks ih =>
    intro c call hc p vi ver hcall
    simp only [bindDeletePass] at hc
    cases hb : lookupKey bm k with
    | none =>
      rw [hb] at hc
      exact ih _ call hc p vi ver hcall
    | some oldB =>
      rw [hb] at hc
      simp only at hc
      by_cases hk : (lookupKey am k).isNone
      · rw [if_pos hk] at hc
        by_cases hn : oldB.name = ""
        · rw [if_pos hn] at hc
          exact ih _ call hc p vi ver hcall
        · rw [if_neg hn] at hc
          cases h2 : (deleteBind w c fn oldB.name).2.2 with
          | error e =>
            rw [h2] at hc
            have := deleteBind_del_inv w c fn oldB.name call hc p vi ver hcall
            exact ⟨k, oldB, hb, hk, hn, this⟩
          | ok u =>
            rw [h2] at hc
            simp only [List.mem_append] at hc
            rcases hc with hc | hc
            · have := deleteBind_del_inv w c fn oldB.name call hc p vi ver hcall
              exact ⟨k, oldB, hb, hk, hn, this⟩
            · exact ih _ call hc p vi ver hcall
      · rw [if_neg hk] at hc
        exact ih _ call hc p vi ver hcall

/-! ### Success lemmas: an all-success oracle yields an ok reconciliation -/

theorem createBind_ok (w : ApiWorld) (c : Ctr) (fn : String) (b : BindConfig)
    (hv : ∀ i, ∃ v, w.version i = Except.ok v) (hw : ∀ i, w.writeOk i = none) :
    (createBind w c fn b).2.2 = Except.ok () := by
  obtain ⟨v, hvv⟩ := hv c.vIdx
  unfold createBind
  rw [hvv]
  simp [hw]

theorem updateBind_ok (w : ApiWorld) (c : Ctr) (fn : String) (b : BindConfig)
    (hv : ∀ i, ∃ v, w.version i = Except.ok v) (hw : ∀ i, w.writeOk i = none) :
    (updateBind w c fn b).2.2 = Except.ok () := by
  obtain ⟨v, hvv⟩ := hv c.vIdx
  unfold updateBind
  rw [hvv]
  simp [hw]

theorem deleteBind_ok (w : ApiWorld) (c : Ctr) (fn nm : String)
    (hv : ∀ i, ∃ v, w.version i = Except.ok v) (hw : ∀ i, w.writeOk i = none) :
    (deleteBind w c fn nm).2.2 = Except.ok () := by
  obtain ⟨v, hvv⟩ := hv c.vIdx
  unfold deleteBind
  rw [hvv]
  simp [hw]

theorem bindDeletePass_ok (w : ApiWorld) (fn : String)
    (bm am : List (String × BindConfig))
    (hv : ∀ i, ∃ v, w.version i = Except.ok v) (hw : ∀ i, w.writeOk i = none) :
    ∀ (ks : List String) (c : Ctr),
      (bindDeletePass w fn bm am ks c).2.2 = Except.ok () := by
  intro ks
  induction ks with
  | nil => intro c; rfl
  | cons k ks ih =>
    intro c
    simp only [bindDeletePass]
    cases hb : lookupKey bm k with
    | none => exact ih _
    | some oldB =>
      simp only
      by_cases hk : (lookupKey am k).isNone
      · rw [if_pos hk]
        by_cases hn : oldB.name = ""
        · rw [if_pos hn]; exact ih _
        · rw [if_neg hn]
          have hok := deleteBind_ok w c fn oldB.name hv hw
          cases h2 : (deleteBind w c fn oldB.name).2.2 with
          | error e => rw [h2] at hok; exact Except.noConfusion hok
          | ok u => exact ih _
      · rw [if_neg hk]; exact ih _

theorem bindCreateUpdatePass_ok (w : ApiWorld) (fn : String)
    (bm am : List (String × BindConfig))
    (hv : ∀ i, ∃ v, w.version i = Except.ok v) (hw : ∀ i, w.writeOk i = none) :
    ∀ (ks : List String) (c : Ctr),
      (bindCreateUpdatePass w fn bm am ks c).2.2 = Except.ok () := by
  intro ks
  induction ks with
  | nil => intro c; rfl
  | cons k ks ih =>
    intro c
    simp only [bindCreateUpdatePass]
    cases ha : lookupKey am k with
    | none => exact ih _
    | some newB =>
      simp only
      cases hb : lookupKey bm k with
      | none =>
        simp only
        have hok := createBind_ok w c fn newB hv hw
        cases h2 : (createBind w c fn newB).2.2 with
        | error e => rw [h2] at hok; exact Except.noConfusion hok
        | ok u => exact ih _
      | some oldB =>
        simp only
        by_cases he : bindConfigEqual oldB { newB with name := oldB.name }
        · rw [if_pos he]; exact ih _
        · rw [if_neg he]
          by_cases hn : ({ newB with name := oldB.name } : BindConfig).name = ""
          · rw [if_pos hn]; exact ih _
          · rw [if_neg hn]
            have hok := updateBind_ok w c fn { newB with name := oldB.name } hv hw
            cases h2 : (updateBind w c fn { newB with name := oldB.name }).2.2 with
            | error e => rw [h2] at hok; exact Except.noConfusion hok
            | ok u => exact ih _

theorem applyBindDiff_ok (w : ApiWorld) (c : Ctr) (fn : String)
    (before after : List BindConfig) (ord1 ord2 : List String)
    (hv : ∀ i, ∃ v, w.version i = Except.ok v) (hw : ∀ i, w.writeOk i = none) :
    (applyBindDiff w c fn before after ord1 ord2).2.2 = Except.ok () := by
  unfold applyBindDiff
  have hd := bindDeletePass_ok w fn (bindBeforeMap before) (bindAfterMap after)
    hv hw ord1 c
  cases h2 : (bindDeletePass w fn (bindBeforeMap before) (bindAfterMap after)
      ord1 c).2.2 with
  | error e => rw [h2] at hd; exact Except.noConfusion hd
  | ok u =>
    simp only [h2]
    exact bindCreateUpdatePass_ok w fn (bindBeforeMap before) (bindAfterMap after)
      hv hw ord2 _

theorem deletesBeforeWrites_of_noCU (l : List ApiCall)
    (h : ∀ x ∈ l, x.isCreateOrUpdate = false) : deletesBeforeWrites l = true := by
  have := deletesBeforeWrites_append l [] h (by simp)
  simpa using this

/-- **C4.**  During bind reconciliation the matched before-bind's
system-assigned wire name is copied onto the after-bind before any update call
is issued: every bind PUT in the trace carries exactly the matched after-bind
with the old wire name, and that name is non-empty; every bind DELETE
addresses a non-empty wire name of an unmatched before-bind — so a needed
update or delete whose before-bind has an empty wire name is skipped — and the
skips are non-fatal: with an oracle whose fetches and writes succeed the
reconciliation returns ok. -/
theorem C4_bind_wire_identity_carry_over
    (w : ApiWorld) (c : Ctr) (fn : String) (before after : List BindConfig)
    (ord1 ord2 : List String) :
    (∀ call ∈ (applyBindDiff w c fn before after ord1 ord2).1,
      ∀ p vi ver bb, call = ApiCall.put p vi ver (.bindB bb) →
        ∃ k old new, lookupKey (bindBeforeMap before) k = some old ∧
          lookupKey (bindAfterMap after) k = some new ∧
          bb = { new with name := old.name } ∧ old.name ≠ "") ∧
    (∀ call ∈ (applyBindDiff w c fn before after ord1 ord2).1,
      ∀ p vi ver, call = ApiCall.del p vi ver →
        ∃ k old, lookupKey (bindBeforeMap before) k = some old ∧
          (lookupKey (bindAfterMap after) k).isNone ∧ old.name ≠ "" ∧
          p = "/services/haproxy/configuration/frontends/" ++ fn ++ "/binds/"
              ++ old.name) ∧
    ((∀ i, ∃ v, w.version i = Except.ok v) → (∀ i, w.writeOk i = none) →
      (applyBindDiff w c fn before after ord1 ord2).2.2 = Except.ok ()) := by
  refine ⟨?_, ?_, fun hv hw => applyBindDiff_ok w c fn before after ord1 ord2 hv hw⟩
  · intro call hc p vi ver bb hcall
    unfold applyBindDiff at hc
    cases h2 : (bindDeletePass w fn (bindBeforeMap before) (bindAfterMap after)
        ord1 c).2.2 with
    | error e =>
      simp only [h2] at hc
      have := bindDeletePass_calls w fn (bindBeforeMap before) (bindAfterMap after)
        ord1 c call hc
      rw [hcall] at this
      exact Bool.noConfusion this
    | ok u =>
      simp only [h2, List.mem_append] at hc
      rcases hc with hc | hc
      · have := bindDeletePass_calls w fn (bindBeforeMap before) (bindAfterMap after)
          ord1 c call hc
        rw [hcall] at this
        exact Bool.noConfusion this
      · exact bindCreateUpdatePass_put_inv w fn (bindBeforeMap before)
          (bindAfterMap after) ord2 _ call hc p vi ver bb hcall
  · intro call hc p vi ver hcall
    unfold applyBindDiff at hc
    cases h2 : (bindDeletePass w fn (bindBeforeMap before) (bindAfterMap after)
        ord1 c).2.2 with
    | error e =>
      simp only [h2] at hc
      exact bindDeletePass_del_inv w fn (bindBeforeMap before) (bindAfterMap after)
        ord1 c call hc p vi ver hcall
    | ok u =>
      simp only [h2, List.mem_append] at hc
      rcases hc with hc | hc
      · exact bindDeletePass_del_inv w fn (bindBeforeMap before) (bindAfterMap after)
          ord1 c call hc p vi ver hcall
      · have := bindCreateUpdatePass_calls w fn (bindBeforeMap before)
          (bindAfterMap after) ord2 _ call hc
        rw [hcall] at this
        exact Bool.noConfusion this

/-- Witness for C4's non-fatal-skip conclusion: a matched bind needs an update
but its before-entry has no wire name; the reconciliation still returns ok. -/
theorem C4_bind_wire_identity_witness :
    (applyBindDiff worldNotFound {} "f1"
        [{ address := "0.0.0.0", port := 80, ssl := false, name := "" }]
        [{ address := "0.0.0.0", port := 80, ssl := true }]
        ["0.0.0.0:80"] ["0.0.0.0:80"]).2.2 = Except.ok () :=
  (C4_bind_wire_identity_carry_over worldNotFound {} "f1"
      [{ address := "0.0.0.0", port := 80, ssl := false, name := "" }]
      [{ address := "0.0.0.0", port := 80, ssl := true }]
      ["0.0.0.0:80"] ["0.0.0.0:80"]).2.2
    (fun i => ⟨Int.ofNat (10 + i), rfl⟩) (fun _ => rfl)

/-- **C5.**  Within one child reconciliation pass — servers of a backend or
binds of a frontend — every delete call is issued before any create or update
call, for every iteration order of the two key maps and every oracle (failures
included); both groups are computed from the same `beforeBy*`/`afterBy*`
snapshot taken once at the start of the pass. -/
theorem C5_deletes_issued_before_creates_and_updates :
    (∀ (w : ApiWorld) (c : Ctr) (backendName : String)
       (before after : List ServerConfig) (ord1 ord2 : List String),
      deletesBeforeWrites (applyServerDiff w c backendName before after ord1 ord2).1
        = true) ∧
    (∀ (w : ApiWorld) (c : Ctr) (frontendName : String)
       (before after : List BindConfig) (ord1 ord2 : List String),
      deletesBeforeWrites (applyBindDiff w c frontendName before after ord1 ord2).1
        = true) := by
  constructor
  · intro w c bn before after ord1 ord2
    unfold applyServerDiff
    cases hd : (serverDeletePass w bn (serverAfterMap bn after) ord1 c).2.2 with
    | error e =>
      simp only [hd]
      exact deletesBeforeWrites_of_noCU _
        (serverDeletePass_calls w bn (serverAfterMap bn after) ord1 c)
    | ok u =>
      simp only [hd]
      exact deletesBeforeWrites_append _ _
        (serverDeletePass_calls w bn (serverAfterMap bn after) ord1 c)
        (serverCreateUpdatePass_calls w (serverBeforeMap before)
          (serverAfterMap bn after) ord2 _)
  · intro w c fn before after ord1 ord2
    unfold applyBindDiff
    cases hd : (bindDeletePass w fn (bindBeforeMap before) (bindAfterMap after)
        ord1 c).2.2 with
    | error e =>
      simp only [hd]
      exact deletesBeforeWrites_of_noCU _
        (bindDeletePass_calls w fn (bindBeforeMap before) (bindAfterMap after) ord1 c)
    | ok u =>
      simp only [hd]
      exact deletesBeforeWrites_append _ _
        (bindDeletePass_calls w fn (bindBeforeMap before) (bindAfterMap after) ord1 c)
        (bindCreateUpdatePass_calls w fn (bindBeforeMap before)
          (bindAfterMap after) ord2 _)

/-- **C6.**  With duplicate identity keys in `before` (or `after`), the lookup
map retains only the last occurrence in slice iteration order — the lookup of
any key is the value of the *last* entry carrying it — and consequently the
computed creates, updates and deletes are exactly those computed from the
lists restricted to last occurrences (equal where the duplicated side only
feeds lookups, permutations where the duplicated side is the filtered map
itself). -/
theorem C6_duplicate_keys_last_occurrence_wins :
    (∀ (before : List ServerConfig) (k : String),
      lookupKey (serverBeforeMap before) k
        = before.reverse.find? fun s => s.name = k) ∧
    (∀ (bn : String) (before after : List ServerConfig),
      serverToCreate bn (dedupKeepLast (fun s => s.name) before) after
          = serverToCreate bn before after ∧
      serverToUpdate bn (dedupKeepLast (fun s => s.name) before) after
          = serverToUpdate bn before after ∧
      (serverToDelete bn (dedupKeepLast (fun s => s.name) before) after).Perm
          (serverToDelete bn before after)) ∧
    (∀ (bn : String) (before after : List ServerConfig),
      serverToDelete bn before (dedupKeepLast (fun s => s.name) after)
          = serverToDelete bn before after ∧
      (serverToCreate bn before (dedupKeepLast (fun s => s.name) after)).Perm
          (serverToCreate bn before after) ∧
      (serverToUpdate bn before (dedupKeepLast (fun s => s.name) after)).Perm
          (serverToUpdate bn before after)) ∧
    (∀ (before : List BindConfig) (k : String),
      lookupKey (bindBeforeMap before) k
        = before.reverse.find? fun b => bindKey b = k) ∧
    (∀ before after : List BindConfig,
      bindToCreate (dedupKeepLast bindKey before) after = bindToCreate before after ∧
      bindToUpdate (dedupKeepLast bindKey before) after = bindToUpdate before after ∧
      (bindToDelete (dedupKeepLast bindKey before) after).Perm
          (bindToDelete before after)) ∧
    (∀ before after : List BindConfig,
      bindToDelete before (dedupKeepLast bindKey after) = bindToDelete before after ∧
      (bindToCreate before (dedupKeepLast bindKey after)).Perm
          (bindToCreate before after) ∧
      (bindToUpdate before (dedupKeepLast bindKey after)).Perm
          (bindToUpdate before after)) := by
  have hsmap : ∀ before : List ServerConfig,
      serverBeforeMap (dedupKeepLast (fun s => s.name) before)
        = buildMap (dedupKeepLast Prod.fst (before.map fun s => (s.name, s))) := by
    intro before
    unfold serverBeforeMap
    rw [map_pairing_dedup_server]
  have hslk : ∀ (before : List ServerConfig) (k : String),
      lookupKey (serverBeforeMap (dedupKeepLast (fun s => s.name) before)) k
        = lookupKey (serverBeforeMap before) k := by
    intro before k
    rw [hsmap]
    exact lookupKey_buildMap_dedup _ k
  have hsperm : ∀ before : List ServerConfig,
      (serverBeforeMap (dedupKeepLast (fun s => s.name) before)).Perm
        (serverBeforeMap before) := by
    intro before
    rw [hsmap]
    exact buildMap_dedup_perm _
  have hamap : ∀ (bn : String) (a : List ServerConfig),
      serverAfterMap bn (dedupKeepLast (fun s => s.name) a)
        = buildMap (dedupKeepLast Prod.fst
            ((afterWithBackend bn a).map fun s => (s.name, s))) := by
    intro bn a
    unfold serverAfterMap
    rw [afterWithBackend_dedup, map_pairing_dedup_server]
  have halk : ∀ (bn : String) (a : List ServerConfig) (k : String),
      lookupKey (serverAfterMap bn (dedupKeepLast (fun s => s.name) a)) k
        = lookupKey (serverAfterMap bn a) k := by
    intro bn a k
    rw [hamap]
    exact lookupKey_buildMap_dedup _ k
  have haperm : ∀ (bn : String) (a : List ServerConfig),
      (serverAfterMap bn (dedupKeepLast (fun s => s.name) a)).Perm
        (serverAfterMap bn a) := by
    intro bn a
    rw [hamap]
    exact buildMap_dedup_perm _
  have hbmap : ∀ before : List BindConfig,
      bindBeforeMap (dedupKeepLast bindKey before)
        = buildMap (dedupKeepLast Prod.fst (before.map fun b => (bindKey b, b))) := by
    intro before
    unfold bindBeforeMap
    rw [map_pairing_dedup_bind]
  have hblk : ∀ (before : List BindConfig) (k : String),
      lookupKey (bindBeforeMap (dedupKeepLast bindKey before)) k
        = lookupKey (bindBeforeMap before) k := by
    intro before k
    rw [hbmap]
    exact lookupKey_buildMap_dedup _ k
  have hbperm : ∀ before : List BindConfig,
      (bindBeforeMap (dedupKeepLast bindKey before)).Perm (bindBeforeMap before) := by
    intro before
    rw [hbmap]
    exact buildMap_dedup_perm _
  have hbamap : ∀ a : List BindConfig,
      bindAfterMap (dedupKeepLast bindKey a)
        = buildMap (dedupKeepLast Prod.fst (a.map fun b => (bindKey b, b))) := by
    intro a
    unfold bindAfterMap
    rw [map_pairing_dedup_bind]
  have hbalk : ∀ (a : List BindConfig) (k : String),
      lookupKey (bindAfterMap (dedupKeepLast bindKey a)) k
        = lookupKey (bindAfterMap a) k := by
    intro a k
    rw [hbamap]
    exact lookupKey_buildMap_dedup _ k
  have hbaperm : ∀ a : List BindConfig,
      (bindAfterMap (dedupKeepLast bindKey a)).Perm (bindAfterMap a) := by
    intro a
    rw [hbamap]
    exact buildMap_dedup_perm _
  refine ⟨?_, ?_, ?_, ?_, ?_, ?_⟩
  · intro before k
    unfold serverBeforeMap
    rw [lookupKey_buildMap, ← List.map_reverse,
      List.find?_map (fun s : ServerConfig => (s.name, s)) before.reverse,
      Option.map_map]
    rw [show ((fun p : String × ServerConfig => decide (p.1 = k)) ∘
        fun s : ServerConfig => (s.name, s)) = fun s : ServerConfig =>
          decide (s.name = k) from rfl]
    rw [show (Prod.snd ∘ fun s : ServerConfig => (s.name, s)) = id from rfl]
    exact Option.map_id.symm ▸ rfl
  · intro bn before after
    refine ⟨?_, ?_, ?_⟩
    · unfold serverToCreate
      apply List.filter_congr
      intro x _
      rw [hslk before x.1]
    · unfold serverToUpdate
      apply List.filter_congr
      intro x _
      rw [hslk before x.1]
    · unfold serverToDelete
      exact List.Perm.filter _ (hsperm before)
  · intro bn before after
    refine ⟨?_, ?_, ?_⟩
    · unfold serverToDelete
      apply List.filter_congr
      intro x _
      rw [halk bn after x.1]
    · unfold serverToCreate
      exact List.Perm.filter _ (haperm bn after)
    · unfold serverToUpdate
      exact List.Perm.filter _ (haperm bn after)
  · intro before k
    unfold bindBeforeMap
    rw [lookupKey_buildMap, ← List.map_reverse,
      List.find?_map (fun b : BindConfig => (bindKey b, b)) before.reverse,
      Option.map_map]
    rw [show ((fun p : String × BindConfig => decide (p.1 = k)) ∘
        fun b : BindConfig => (bindKey b, b)) = fun b : BindConfig =>
          decide (bindKey b = k) from rfl]
    rw [show (Prod.snd ∘ fun b : BindConfig => (bindKey b, b)) = id from rfl]
    exact Option.map_id.symm ▸ rfl
  · intro before after
    refine ⟨?_, ?_, ?_⟩
    · unfold bindToCreate
      apply List.filter_congr
      intro x _
      rw [hblk before x.1]
    · unfold bindToUpdate
      apply List.filter_congr
      intro x _
      rw [hblk before x.1]
    · unfold bindToDelete
      exact List.Perm.filter _ (hbperm before)
  · intro before after
    refine ⟨?_, ?_, ?_⟩
    · unfold bindToDelete
      apply List.filter_congr
      intro x _
      rw [hbalk after x.1]
    · unfold bindToCreate
      exact List.Perm.filter _ (hbaperm after)
    · unfold bindToUpdate
      exact List.Perm.filter _ (hbaperm after)

/-- **C10.**  The not-found and already-exists classifiers decide purely by
substring matching on the error message — `IsNotFoundError` is true exactly
when the text contains `"HAProxy API error (404)"`, `IsAlreadyExistsError`
exactly when it contains `"(409)"` — so a non-404 failure whose message merely
echoes that text is classified as not-found, and the apply then follows the
creation path (it POSTs the backend rather than aborting). -/
theorem C10_error_classification_by_substring :
    (∀ msg, IsNotFoundError msg = strContains msg "HAProxy API error (404)") ∧
    (∀ msg, IsAlreadyExistsError msg = strContains msg "HAProxy API error (409)") ∧
    (∀ (status : Int) (body : String),
      strContains body "HAProxy API error (404)" = true →
      IsNotFoundError (apiErrorMessage status body) = true) ∧
    (∀ msg, strContains msg "HAProxy API error (404)" = true →
      ApplyBackendFromYAML manifestB1 "" false (worldGetErr msg) [] [] =
        (creationTraceB1, Except.ok ApplyAction.created)) := by
  refine ⟨fun _ => rfl, fun _ => rfl, ?_, ?_⟩
  · intro status body h
    exact strContains_append_right _ _ _ h
  · intro msg h
    have hnf : IsNotFoundError ("failed to get resource: " ++ msg) = true :=
      strContains_append_right _ _ _ h
    unfold ApplyBackendFromYAML
    rw [show backendValidate manifestB1 = .ok () from rfl]
    simp only [worldGetErr, hnf, if_true]
    rfl

/-- **C1 (amended).**  A Backend or Frontend apply whose desired state
deep-equals the current remote state (parent fields equal under the typed
comparison and children sets equal under identity-key matching) reports
`unchanged` and issues exactly zero write calls — no PUT of the parent and no
child create/update/delete — but it does perform exactly one
configuration-version fetch, because the code fetches the version before the
no-op check. -/
theorem C1_noop_zero_writes_one_version_fetch
    (mb : backendWithServers) (wb : ApiWorld) (ordb1 ordb2 : List String)
    (rawB : WireObj) (rawServers : List WireObj)
    (mf : frontendWithBinds) (wf : ApiWorld) (ordf1 ordf2 : List String)
    (rawF : WireObj) (rawBinds : List WireObj)
    (hvalb : backendValidate mb = .ok ())
    (hresb : wb.getResource
        ("/services/haproxy/configuration/backends/" ++ mb.config.name) = .ok rawB)
    (hverb : ∃ v, wb.version 0 = .ok v)
    (hpayb : ∃ p, backendToPayload mb = .ok p)
    (hlistb : wb.getList ("/services/haproxy/configuration/backends/"
        ++ mb.config.name ++ "/servers") = .ok rawServers)
    (heqb : populateBackendConfigFromMap {} rawB = mb.config)
    (heqsb : serversEqualByName
        ((rawServers.map (mapServerFromAPI mb.config.name)).filter
          fun sc => sc.name ≠ "" ∧ sc.address ≠ "" ∧ sc.port ≠ 0)
        mb.servers = true)
    (hvalf : frontendValidate mf = .ok ())
    (hresf : wf.getResource
        ("/services/haproxy/configuration/frontends/" ++ mf.config.name) = .ok rawF)
    (hverf : ∃ v, wf.version 0 = .ok v)
    (hpayf : ∃ p, frontendToPayload mf = .ok p)
    (hlistf : wf.getList ("/services/haproxy/configuration/frontends/"
        ++ mf.config.name ++ "/binds") = .ok rawBinds)
    (heqf : populateFrontendConfigFromMap {} rawF = mf.config)
    (heqsf : bindsEqualByKey
        ((rawBinds.map mapBindFromAPI).filter fun bc => bc.address ≠ "" ∧ bc.port ≠ 0)
        mf.binds = true) :
    (ApplyBackendFromYAML mb "" false wb ordb1 ordb2 =
        (noopBackendTrace mb.config.name, Except.ok ApplyAction.unchanged) ∧
      writeCalls (noopBackendTrace mb.config.name) = [] ∧
      versionFetchCount (noopBackendTrace mb.config.name) = 1) ∧
    (ApplyFrontendFromYAML mf "" false wf ordf1 ordf2 =
        (noopFrontendTrace mf.config.name, Except.ok ApplyAction.unchanged) ∧
      writeCalls (noopFrontendTrace mf.config.name) = [] ∧
      versionFetchCount (noopFrontendTrace mf.config.name) = 1) := by
  obtain ⟨vb, hvb⟩ := hverb
  obtain ⟨pb, hpb⟩ := hpayb
  obtain ⟨vf, hvf⟩ := hverf
  obtain ⟨pf, hpf⟩ := hpayf
  refine ⟨⟨?_, rfl, rfl⟩, ⟨?_, rfl, rfl⟩⟩
  · unfold ApplyBackendFromYAML
    rw [hvalb]
    simp only [ne_eq, not_true_eq_false, false_or, if_false]
    rw [hresb, hvb, hpb, hlistb]
    simp only [heqb, heqsb, and_self, if_true, noopBackendTrace]
    rfl
  · unfold ApplyFrontendFromYAML
    rw [hvalf]
    simp only [ne_eq, not_true_eq_false, false_or, if_false]
    rw [hresf, hvf, hpf, hlistf]
    simp only [heqf, heqsf, and_self, if_true, noopFrontendTrace]
    rfl

/-- Counterexample to C1 as frozen: on a no-op apply the code *does* fetch the
configuration version (before the no-op check), so "no configuration-version
fetch" fails — even though the result is `unchanged` with zero writes. -/
theorem C1_noop_version_fetch_counterexample :
    ApplyBackendFromYAML manifestB1 "" false worldMatchB1 [] [] =
      (noopBackendTrace "b1", Except.ok ApplyAction.unchanged) ∧
    ApiCall.getVersion 0 ∈ (ApplyBackendFromYAML manifestB1 "" false worldMatchB1 [] []).1 ∧
    versionFetchCount (ApplyBackendFromYAML manifestB1 "" false worldMatchB1 [] []).1 = 1 := by
  refine ⟨by rfl, ?_, by rfl⟩
  show ApiCall.getVersion 0 ∈ noopBackendTrace "b1"
  simp [noopBackendTrace]

/-- Witness for the amended C1 at `manifestB1`/`manifestF1` against worlds
holding exactly their remote state. -/
theorem C1_noop_zero_writes_witness :
    serversEqualByName
        ((rawServersB1.map (mapServerFromAPI "b1")).filter
          fun sc => sc.name ≠ "" ∧ sc.address ≠ "" ∧ sc.port ≠ 0)
        manifestB1.servers = true ∧
    bindsEqualByKey
        ((rawBindsF1.map mapBindFromAPI).filter fun bc => bc.address ≠ "" ∧ bc.port ≠ 0)
        manifestF1.binds = true ∧
    ((ApplyBackendFromYAML manifestB1 "" false worldMatchB1 [] [] =
        (noopBackendTrace "b1", Except.ok ApplyAction.unchanged) ∧
      writeCalls (noopBackendTrace "b1") = [] ∧
      versionFetchCount (noopBackendTrace "b1") = 1) ∧
     (ApplyFrontendFromYAML manifestF1 "" false worldMatchF1 [] [] =
        (noopFrontendTrace "f1", Except.ok ApplyAction.unchanged) ∧
      writeCalls (noopFrontendTrace "f1") = [] ∧
      versionFetchCount (noopFrontendTrace "f1") = 1)) :=
  ⟨by decide, by decide,
    C1_noop_zero_writes_one_version_fetch manifestB1 worldMatchB1 [] []
      rawBackendB1 rawServersB1 manifestF1 worldMatchF1 [] [] rawFrontendF1 rawBindsF1
      rfl rfl ⟨10, rfl⟩ ⟨payloadB1, by rfl⟩ rfl (by decide) (by decide)
      rfl rfl ⟨10, rfl⟩ ⟨{ config := manifestF1.config }, by rfl⟩ rfl
      (by decide) (by decide)⟩

/-- Witness for C10's conditional parts at a 500 whose body quotes the 404
marker. -/
theorem C10_error_classification_witness :
    (strContains "upstream said: HAProxy API error (404) earlier"
        "HAProxy API error (404)" = true) ∧
    (IsNotFoundError
        (apiErrorMessage 500 "upstream said: HAProxy API error (404) earlier") = true) ∧
    (ApplyBackendFromYAML manifestB1 "" false
        (worldGetErr
          (apiErrorMessage 500 "upstream said: HAProxy API error (404) earlier"))
        [] [] = (creationTraceB1, Except.ok ApplyAction.created)) := by
  refine ⟨by decide, ?_, ?_⟩
  · exact C10_error_classification_by_substring.2.2.1 500 _ (by decide)
  · exact C10_error_classification_by_substring.2.2.2 _
      (strContains_append_right _ _ _ (by decide))


/-! ### Duration codec lemmas (claim C3) -/

open GoTime

/-- `2^63` as a numeral, for `omega`. -/
theorem two_pow_63 : (2 : Nat) ^ 63 = 9223372036854775808 := by norm_num

theorem digitChar_isDigit (d : Nat) (h : d < 10) : (Nat.digitChar d).isDigit = true := by
  interval_cases d <;> decide

theorem digitChar_toNat (d : Nat) (h : d < 10) : (Nat.digitChar d).toNat - 48 = d := by
  interval_cases d <;> decide

theorem isGoSpace_of_isDigit (c : Char) (h : c.isDigit = true) : isGoSpace c = false := by
  cases hc : isGoSpace c with
  | false => rfl
  | true =>
    exfalso
    unfold isGoSpace at hc
    rcases of_decide_eq_true hc with h1 | h1 | h1 | h1 | h1 | h1 <;>
      (subst h1; exact absurd h (by decide))

theorem ne_of_isDigit (c d : Char) (h : c.isDigit = true) (hd : d.isDigit = false) : c ≠ d := by
  intro he
  rw [he, hd] at h
  exact Bool.noConfusion h

theorem stripSign_digit (c : Char) (cs : List Char) (h : c.isDigit = true) :
    stripSign (c :: cs) = (false, c :: cs) := by
  simp only [stripSign]
  rw [if_neg (ne_of_isDigit c '-' h (by decide)), if_neg (ne_of_isDigit c '+' h (by decide))]

theorem decValFrom_nil (acc : Nat) : decValFrom acc [] = acc := rfl

theorem decValFrom_cons (acc : Nat) (c : Char) (cs : List Char) :
    decValFrom acc (c :: cs) = decValFrom (acc * 10 + (c.toNat - 48)) cs := rfl

theorem decValFrom_append (acc : Nat) (xs ys : List Char) :
    decValFrom acc (xs ++ ys) = decValFrom (decValFrom acc xs) ys := by
  unfold decValFrom
  exact List.foldl_append _ _ _ _

theorem decValFrom_le (acc : Nat) (xs : List Char) : acc ≤ decValFrom acc xs := by
  induction xs generalizing acc with
  | nil => exact Nat.le_refl acc
  | cons c cs ih =>
    rw [decValFrom_cons]
    exact le_trans (by omega) (ih (acc * 10 + (c.toNat - 48)))

theorem fmtIntAux_spec (fuel : Nat) : ∀ n acc : Nat, n ≤ fuel →
    decValFrom acc (fmtIntAux fuel n) = acc * 10 ^ (fmtIntAux fuel n).length + n := by
  induction fuel with
  | zero =>
    intro n acc h
    have hn : n = 0 := by omega
    subst hn
    simp [fmtIntAux, decValFrom_nil]
  | succ fuel ih =>
    intro n acc h
    by_cases h0 : n = 0
    · subst h0
      simp [fmtIntAux, decValFrom_nil]
    · rw [show fmtIntAux (fuel + 1) n = fmtIntAux fuel (n / 10) ++ [Nat.digitChar (n % 10)] from by
        rw [fmtIntAux, if_neg h0]]
      rw [decValFrom_append, decValFrom_cons, decValFrom_nil]
      rw [ih (n / 10) acc (by omega)]
      rw [digitChar_toNat _ (Nat.mod_lt n (by norm_num))]
      rw [List.length_append]
      calc (acc * 10 ^ (fmtIntAux fuel (n / 10)).length + n / 10) * 10 + n % 10
          = acc * (10 ^ (fmtIntAux fuel (n / 10)).length * 10) + (n / 10 * 10 + n % 10) := by ring
        _ = acc * 10 ^ ((fmtIntAux fuel (n / 10)).length + [Nat.digitChar (n % 10)].length) + n := by
            rw [List.length_singleton, pow_succ]
            congr 1
            omega

theorem fmtIntAux_digits (fuel : Nat) : ∀ n : Nat, ∀ c ∈ fmtIntAux fuel n, c.isDigit = true := by
  induction fuel with
  | zero => intro n c hc; exact absurd hc (by simp [fmtIntAux])
  | succ fuel ih =>
    intro n c hc
    rw [fmtIntAux] at hc
    by_cases h0 : n = 0
    · rw [if_pos h0] at hc
      exact absurd hc (by simp)
    · rw [if_neg h0] at hc
      rcases List.mem_append.1 hc with h | h
      · exact ih _ c h
      · rw [List.mem_singleton.1 h]
        exact digitChar_isDigit _ (Nat.mod_lt n (by norm_num))

theorem fmtIntChars_ne_nil (n : Nat) : fmtIntChars n ≠ [] := by
  unfold fmtIntChars
  by_cases h0 : n = 0
  · rw [if_pos h0]; exact by decide
  · rw [if_neg h0, fmtIntAux, if_neg h0]
    intro he
    exact absurd (List.append_eq_nil.mp he).2 (List.cons_ne_nil _ _)

theorem fmtIntChars_digits (n : Nat) : ∀ c ∈ fmtIntChars n, c.isDigit = true := by
  unfold fmtIntChars
  by_cases h0 : n = 0
  · rw [if_pos h0]
    intro c hc
    rw [List.mem_singleton.1 hc]
    decide
  · rw [if_neg h0]
    exact fmtIntAux_digits _ _

theorem decVal_fmtIntChars (n : Nat) : decVal (fmtIntChars n) = n := by
  unfold decVal fmtIntChars
  by_cases h0 : n = 0
  · rw [if_pos h0, h0]; decide
  · rw [if_neg h0]
    have := fmtIntAux_spec (n + 1) n 0 (by omega)
    simpa using this

theorem fmtIntChars_head (n : Nat) : ∃ c cs, fmtIntChars n = c :: cs ∧ c.isDigit = true := by
  cases hfc : fmtIntChars n with
  | nil => exact absurd hfc (fmtIntChars_ne_nil n)
  | cons c cs =>
    refine ⟨c, cs, rfl, fmtIntChars_digits n c ?_⟩
    rw [hfc]
    exact List.mem_cons_self c cs

theorem dropWhile_eq_self_of_all (p : Char → Bool) (l : List Char)
    (h : ∀ c ∈ l, p c = false) : l.dropWhile p = l := by
  cases l with
  | nil => rfl
  | cons c cs =>
    rw [List.dropWhile_cons, h c (List.mem_cons_self c cs)]
    rfl

theorem goTrimSpace_eq_self (s : String) (h : ∀ c ∈ s.data, isGoSpace c = false) :
    goTrimSpace s = s := by
  unfold goTrimSpace
  rw [dropWhile_eq_self_of_all _ _ h]
  rw [dropWhile_eq_self_of_all _ _ (fun c hc => h c (List.mem_reverse.1 hc))]
  rw [List.reverse_reverse]

theorem string_mk_ne_empty (c : Char) (cs : List Char) : String.mk (c :: cs) ≠ "" := by
  intro h
  exact absurd (show c :: cs = ([] : List Char) from congrArg String.data h) (List.cons_ne_nil c cs)

theorem takeWhile_append_of_all (p : Char → Bool) (u rest : List Char)
    (hu : ∀ c ∈ u, p c = true)
    (hr : ∀ c cs, rest = c :: cs → p c = false) :
    (u ++ rest).takeWhile p = u := by
  induction u with
  | nil =>
    cases rest with
    | nil => rfl
    | cons c cs =>
      rw [List.nil_append, List.takeWhile_cons, hr c cs rfl]
      simp
  | cons c u ih =>
    rw [List.cons_append, List.takeWhile_cons, hu c (List.mem_cons_self c u)]
    simp only [if_pos]
    rw [ih (fun x hx => hu x (List.mem_cons_of_mem c hx))]

theorem leadingIntGo_spec (ds : List Char) : ∀ (rest : List Char) (acc : Nat),
    (∀ c ∈ ds, c.isDigit = true) →
    (∀ c cs, rest = c :: cs → c.isDigit = false) →
    decValFrom acc ds ≤ 2 ^ 63 →
    leadingIntGo acc (ds ++ rest) = some (decValFrom acc ds, rest) := by
  induction ds with
  | nil =>
    intro rest acc _ hrest _
    cases rest with
    | nil => rfl
    | cons c cs =>
      rw [List.nil_append, decValFrom_nil]
      simp only [leadingIntGo]
      rw [hrest c cs rfl]
      simp
  | cons d ds ih =>
    intro rest acc hds hrest hb
    have hd : d.isDigit = true := hds d (List.mem_cons_self d ds)
    have hb' : decValFrom (acc * 10 + (d.toNat - 48)) ds ≤ 2 ^ 63 := by
      rw [← decValFrom_cons]; exact hb
    have hle : acc * 10 + (d.toNat - 48) ≤ 2 ^ 63 :=
      le_trans (decValFrom_le _ ds) hb'
    rw [List.cons_append]
    simp only [leadingIntGo]
    rw [if_pos hd, if_neg (by rw [two_pow_63] at hle ⊢; omega),
      if_neg (by omega)]
    rw [decValFrom_cons]
    exact ih rest _ (fun c hc => hds c (List.mem_cons_of_mem d hc)) hrest hb'

theorem leadingFractionGo_spec (fds : List Char) : ∀ (rest : List Char) (x scale : Nat),
    (∀ c ∈ fds, c.isDigit = true) →
    (∀ c cs, rest = c :: cs → c.isDigit = false) →
    decValFrom x fds ≤ 2 ^ 63 →
    leadingFractionGo x scale false (fds ++ rest) =
      (decValFrom x fds, scale * 10 ^ fds.length, rest) := by
  induction fds with
  | nil =>
    intro rest x scale _ hrest _
    cases rest with
    | nil => simp [leadingFractionGo, decValFrom_nil]
    | cons c cs =>
      rw [List.nil_append, decValFrom_nil]
      simp only [leadingFractionGo]
      rw [if_pos (by rw [hrest c cs rfl]; exact fun he => Bool.noConfusion he)]
      simp
  | cons d fds ih =>
    intro rest x scale hds hrest hb
    have hd : d.isDigit = true := hds d (List.mem_cons_self d fds)
    have hb' : decValFrom (x * 10 + (d.toNat - 48)) fds ≤ 2 ^ 63 := by
      rw [← decValFrom_cons]; exact hb
    have hle : x * 10 + (d.toNat - 48) ≤ 2 ^ 63 :=
      le_trans (decValFrom_le _ fds) hb'
    rw [List.cons_append]
    simp only [leadingFractionGo]
    rw [if_neg (show ¬¬(d.isDigit = true) from fun he => he hd)]
    rw [if_neg (show ¬(false = true) from fun he => Bool.noConfusion he)]
    rw [if_neg (show ¬(x > (2 ^ 63 - 1) / 10) from by rw [two_pow_63] at hle ⊢; omega)]
    rw [if_neg (show ¬(x * 10 + (d.toNat - 48) > 2 ^ 63) from by omega)]
    rw [ih rest _ (scale * 10) (fun c hc => hds c (List.mem_cons_of_mem d hc)) hrest hb']
    rw [decValFrom_cons, List.length_cons, pow_succ]
    rw [show scale * 10 * 10 ^ fds.length = scale * (10 ^ fds.length * 10) from by ring]

theorem fmtFracAux_zero (v : Nat) (print : Bool) (acc : List Char) :
    fmtFracAux v 0 print acc = (v, print, acc) := rfl

theorem fmtFracAux_succ (v p : Nat) (print : Bool) (acc : List Char) :
    fmtFracAux v (p + 1) print acc =
      fmtFracAux (v / 10) p (print || decide (v % 10 ≠ 0))
        (if print || decide (v % 10 ≠ 0) then Nat.digitChar (v % 10) :: acc else acc) := rfl

theorem fmtFracAux_mul_pow (p : Nat) : ∀ (a q : Nat) (acc : List Char),
    fmtFracAux (a * 10 ^ p) (p + q) false acc = fmtFracAux a q false acc := by
  induction p with
  | zero =>
    intro a q acc
    rw [pow_zero, Nat.mul_one, Nat.zero_add]
  | succ p ih =>
    intro a q acc
    rw [show p + 1 + q = (p + q) + 1 from by omega]
    rw [fmtFracAux_succ]
    have h1 : a * 10 ^ (p + 1) % 10 = 0 := by
      rw [pow_succ, ← Nat.mul_assoc]
      exact Nat.mul_mod_left _ 10
    have h2 : a * 10 ^ (p + 1) / 10 = a * 10 ^ p := by
      rw [pow_succ, ← Nat.mul_assoc]
      exact Nat.mul_div_cancel _ (by norm_num)
    rw [h1, h2]
    rw [show (false || decide ((0 : Nat) ≠ 0)) = false from rfl]
    rw [if_neg (show ¬(false = true) from fun he => Bool.noConfusion he)]
    exact ih a q acc

theorem fmtFracAux_three (x rr : Nat) (h : rr < 1000) :
    fmtFracAux (x * 1000 + rr) 3 false [] = (x, decide (rr ≠ 0), fracChars3 rr) := by
  by_cases hrr : rr = 0
  · subst hrr
    have := fmtFracAux_mul_pow 3 x 0 []
    norm_num at this
    rw [Nat.add_zero, this, fmtFracAux_zero]
    norm_num [fracChars3]
  · have e1 : (x * 1000 + rr) % 10 = rr % 10 := by omega
    have e2 : (x * 1000 + rr) / 10 = x * 100 + rr / 10 := by omega
    have e3 : (x * 100 + rr / 10) % 10 = rr / 10 % 10 := by omega
    have e4 : (x * 100 + rr / 10) / 10 = x * 10 + rr / 100 := by omega
    have e5 : (x * 10 + rr / 100) % 10 = rr / 100 := by omega
    have e6 : (x * 10 + rr / 100) / 10 = x := by omega
    rw [show (3 : Nat) = 2 + 1 from rfl, fmtFracAux_succ, e1, e2]
    rw [show (2 : Nat) = 1 + 1 from rfl, fmtFracAux_succ, e3, e4]
    rw [show (1 : Nat) = 0 + 1 from rfl, fmtFracAux_succ, e5, e6, fmtFracAux_zero]
    unfold fracChars3
    by_cases h0 : rr % 10 = 0 <;> by_cases h1 : rr / 10 % 10 = 0 <;>
      by_cases h2 : rr / 100 = 0 <;>
      first
      | exact absurd (show rr = 0 from by omega) hrr
      | simp [h0, h1, h2, hrr]

theorem fmtFrac_six (m : Nat) : fmtFrac (m * 1000000) 6 = (m, []) := by
  have h6 := fmtFracAux_mul_pow 6 m 0 []
  norm_num at h6
  unfold fmtFrac
  rw [h6, fmtFracAux_zero]
  rfl

theorem fmtFrac_nine (m : Nat) :
    fmtFrac (m * 1000000) 9 =
      (m / 1000, if m % 1000 = 0 then [] else '.' :: fracChars3 (m % 1000)) := by
  have h6 := fmtFracAux_mul_pow 6 m 3 []
  norm_num at h6
  have h3 : fmtFracAux m 3 false [] =
      (m / 1000, decide (m % 1000 ≠ 0), fracChars3 (m % 1000)) := by
    have := fmtFracAux_three (m / 1000) (m % 1000) (Nat.mod_lt _ (by norm_num))
    rw [show m / 1000 * 1000 + m % 1000 = m from by omega] at this
    exact this
  unfold fmtFrac
  rw [h6, h3]
  by_cases h0 : m % 1000 = 0
  · rw [if_pos h0, h0]
    norm_num [fracChars3]
  · rw [if_neg h0]
    simp [h0]

theorem string_mk_append (a b : List Char) : String.mk a ++ String.mk b = String.mk (a ++ b) := rfl

theorem format_eq_msChars (m : Nat) (h1 : 0 < m) (hub : m * 1000000 < 2 ^ 63) :
    Internal.FormatMillisAsDuration ((m : Nat) : Int) = String.mk (msChars m) := by
  have hm0 : ¬((m : Int) = 0) := by exact_mod_cast Nat.pos_iff_ne_zero.mp h1
  have hcast : (m : Int) * 1000000 = ((m * 1000000 : Nat) : Int) := by push_cast; ring
  have hlt63 : ((m * 1000000 : Nat) : Int) < 2 ^ 63 := by exact_mod_cast hub
  have hwrap : wrap64 ((m * 1000000 : Nat) : Int) = ((m * 1000000 : Nat) : Int) := by
    simp only [wrap64]
    rw [Int.emod_eq_of_lt (Int.natCast_nonneg _) (lt_trans hlt63 (by norm_num))]
    rw [if_pos hlt63]
  simp only [Internal.FormatMillisAsDuration]
  rw [if_neg hm0, hcast, hwrap]
  have hNA : ((m * 1000000 : Nat) : Int).natAbs = m * 1000000 := rfl
  simp only [goDurationString, hNA]
  rw [if_neg (not_lt.2 (Int.natCast_nonneg (m * 1000000)))]
  simp only [msChars]
  by_cases hm : m < 1000
  · rw [if_pos (show m * 1000000 < 1000000000 from by omega)]
    rw [if_neg (show ¬(m * 1000000 = 0) from by omega)]
    rw [if_neg (show ¬(m * 1000000 < 1000) from by omega)]
    rw [if_neg (show ¬(m * 1000000 < 1000000) from by omega)]
    rw [fmtFrac_six]
    rw [if_pos hm]
    rw [show ("ms" : String) = String.mk ['m', 's'] from rfl]
    simp only [string_mk_append]
    all_goals simp [List.append_assoc]
  · rw [if_neg (show ¬(m * 1000000 < 1000000000) from by omega)]
    rw [fmtFrac_nine, if_neg hm]
    dsimp only
    by_cases hmin : m / 1000 / 60 = 0
    · simp only [if_pos hmin]
      rw [show ("s" : String) = String.mk ['s'] from rfl]
      simp only [string_mk_append]
    · simp only [if_neg hmin]
      by_cases hhr : m / 1000 / 60 / 60 = 0
      · simp only [if_pos hhr]
        rw [show ("s" : String) = String.mk ['s'] from rfl,
          show ("m" : String) = String.mk ['m'] from rfl]
        simp only [string_mk_append]
        all_goals simp [List.append_assoc]
      · simp only [if_neg hhr]
        rw [show ("s" : String) = String.mk ['s'] from rfl,
          show ("m" : String) = String.mk ['m'] from rfl,
          show ("h" : String) = String.mk ['h'] from rfl]
        simp only [string_mk_append]
        all_goals simp [List.append_assoc]

theorem fracChars3_spec (rr : Nat) (h : rr < 1000) (hrr : rr ≠ 0) :
    fracChars3 rr ≠ [] ∧
    (∀ c ∈ fracChars3 rr, c.isDigit = true) ∧
    0 < decVal (fracChars3 rr) ∧
    decVal (fracChars3 rr) ≤ 2 ^ 63 ∧
    decVal (fracChars3 rr) * 1000000000 / 10 ^ (fracChars3 rr).length = rr * 1000000 := by
  have d2 : rr / 100 < 10 := by omega
  have d1 : rr / 10 % 10 < 10 := by omega
  have d0 : rr % 10 < 10 := by omega
  have i2 := digitChar_isDigit _ d2
  have i1 := digitChar_isDigit _ d1
  have i0 := digitChar_isDigit _ d0
  unfold fracChars3
  split_ifs with h0 h1 h2
  · have hval : decVal [Nat.digitChar (rr / 100), Nat.digitChar (rr / 10 % 10),
        Nat.digitChar (rr % 10)] = rr / 100 * 100 + rr / 10 % 10 * 10 + rr % 10 := by
      unfold decVal
      rw [decValFrom_cons, decValFrom_cons, decValFrom_cons, decValFrom_nil,
        digitChar_toNat _ d2, digitChar_toNat _ d1, digitChar_toNat _ d0]
      ring
    refine ⟨by simp, ?_, ?_, ?_, ?_⟩
    · intro c hc
      simp only [List.mem_cons, List.not_mem_nil, or_false] at hc
      rcases hc with rfl | rfl | rfl <;> assumption
    · rw [hval]; omega
    · rw [hval, two_pow_63]; omega
    · rw [hval, show ([Nat.digitChar (rr / 100), Nat.digitChar (rr / 10 % 10),
        Nat.digitChar (rr % 10)] : List Char).length = 3 from rfl,
        show (10 : Nat) ^ 3 = 1000 from by norm_num]
      omega
  · have hval : decVal [Nat.digitChar (rr / 100), Nat.digitChar (rr / 10 % 10)] =
        rr / 100 * 10 + rr / 10 % 10 := by
      unfold decVal
      rw [decValFrom_cons, decValFrom_cons, decValFrom_nil,
        digitChar_toNat _ d2, digitChar_toNat _ d1]
      ring
    refine ⟨by simp, ?_, ?_, ?_, ?_⟩
    · intro c hc
      simp only [List.mem_cons, List.not_mem_nil, or_false] at hc
      rcases hc with rfl | rfl <;> assumption
    · rw [hval]; omega
    · rw [hval, two_pow_63]; omega
    · rw [hval, show ([Nat.digitChar (rr / 100), Nat.digitChar (rr / 10 % 10)] :
        List Char).length = 2 from rfl,
        show (10 : Nat) ^ 2 = 100 from by norm_num]
      omega
  · have hval : decVal [Nat.digitChar (rr / 100)] = rr / 100 := by
      unfold decVal
      rw [decValFrom_cons, decValFrom_nil, digitChar_toNat _ d2]
      ring
    refine ⟨by simp, ?_, ?_, ?_, ?_⟩
    · intro c hc
      simp only [List.mem_cons, List.not_mem_nil, or_false] at hc
      rcases hc with rfl
      assumption
    · rw [hval]; omega
    · rw [hval, two_pow_63]; omega
    · rw [hval, show ([Nat.digitChar (rr / 100)] : List Char).length = 1 from rfl,
        show (10 : Nat) ^ 1 = 10 from by norm_num]
      omega
  · exact absurd (show rr = 0 from by omega) hrr

theorem unitLen_append (uc rest : List Char)
    (huc : ∀ c ∈ uc, c ≠ '.' ∧ c.isDigit = false)
    (hrest : ∀ c cs, rest = c :: cs → c.isDigit = true) :
    unitLen (uc ++ rest) = uc.length := by
  unfold unitLen
  rw [takeWhile_append_of_all _ uc rest ?hu ?hr]
  case hu =>
    intro c hc
    refine decide_eq_true (fun hor => ?_)
    rcases hor with hh | hh
    · exact (huc c hc).1 hh
    · rw [(huc c hc).2] at hh
      exact Bool.noConfusion hh
  case hr =>
    intro c cs hc
    exact decide_eq_false (fun hn => hn (Or.inr (hrest c cs hc)))

theorem not_and_not_left (q : Prop) : ¬(¬(true = true) ∧ q) := fun hand => hand.1 rfl

theorem not_and_not_right (p : Prop) : ¬(p ∧ ¬(true = true)) := fun hand => hand.2 rfl

set_option maxHeartbeats 1000000 in
theorem parseLoop_component (fuel : Nat) (ds fracPart uc rest : List Char)
    (F scale unit d : Nat)
    (hds_ne : ds ≠ []) (hds : ∀ c ∈ ds, c.isDigit = true)
    (hfrac : (fracPart = [] ∧ F = 0 ∧ scale = 1) ∨
      (∃ fds, fracPart = '.' :: fds ∧ fds ≠ [] ∧ (∀ c ∈ fds, c.isDigit = true) ∧
        decVal fds = F ∧ scale = 10 ^ fds.length ∧ 0 < F ∧ F ≤ 2 ^ 63))
    (huc_ne : uc ≠ []) (huc : ∀ c ∈ uc, c ≠ '.' ∧ c.isDigit = false)
    (hunit : unitNanos (String.mk uc) = some unit) (hupos : 0 < unit)
    (hrest : ∀ c cs, rest = c :: cs → c.isDigit = true)
    (hvu : decVal ds * unit ≤ 2 ^ 63)
    (hvfu : decVal ds * unit + F * unit / scale ≤ 2 ^ 63)
    (hdb : d + (decVal ds * unit + F * unit / scale) ≤ 2 ^ 63) :
    parseLoop (fuel + 1) (ds ++ fracPart ++ uc ++ rest) d =
      parseLoop fuel rest (d + (decVal ds * unit + F * unit / scale)) := by
  have hv : decVal ds ≤ 2 ^ 63 := le_trans (Nat.le_mul_of_pos_right _ hupos) hvu
  obtain ⟨d0, ds', rfl⟩ : ∃ d0 ds', ds = d0 :: ds' := by
    cases ds with
    | nil => exact absurd rfl hds_ne
    | cons a l => exact ⟨a, l, rfl⟩
  obtain ⟨u0, us, rfl⟩ : ∃ u0 us, uc = u0 :: us := by
    cases uc with
    | nil => exact absurd rfl huc_ne
    | cons a l => exact ⟨a, l, rfl⟩
  have hd0 : d0.isDigit = true := hds d0 (List.mem_cons_self _ _)
  have hu0 := huc u0 (List.mem_cons_self _ _)
  have hRhead : ∀ c cs, fracPart ++ (u0 :: (us ++ rest)) = c :: cs → c.isDigit = false := by
    intro c cs hc
    rcases hfrac with ⟨hfp, _, _⟩ | ⟨fds, hfp, _⟩
    · subst hfp
      rw [List.nil_append] at hc
      injection hc with h1 _
      rw [← h1]
      exact hu0.2
    · subst hfp
      rw [List.cons_append] at hc
      injection hc with h1 _
      rw [← h1]
      decide
  have hlead : leadingIntGo 0 (d0 :: (ds' ++ (fracPart ++ (u0 :: (us ++ rest))))) =
      some (decVal (d0 :: ds'), fracPart ++ (u0 :: (us ++ rest))) := by
    have h := leadingIntGo_spec (d0 :: ds') (fracPart ++ (u0 :: (us ++ rest))) 0 hds hRhead hv
    rw [show decValFrom 0 (d0 :: ds') = decVal (d0 :: ds') from rfl] at h
    rw [List.cons_append] at h
    exact h
  simp only [List.cons_append, List.append_assoc]
  simp only [parseLoop]
  rw [if_neg (show ¬¬(d0 = '.' ∨ d0.isDigit = true) from fun hne => hne (Or.inr hd0))]
  simp only [hlead]
  rcases hfrac with ⟨rfl, rfl, rfl⟩ | ⟨fds, rfl, hfds_ne, hfds, rfl, rfl, hFpos, hFle⟩
  · -- integer component without a fraction part
    simp only [List.nil_append]
    rw [if_neg hu0.1]
    have hpre : decide ((u0 :: (us ++ rest)).length ≠
        (d0 :: (ds' ++ (u0 :: (us ++ rest)))).length) = true := by
      refine decide_eq_true ?_
      simp only [List.length_cons, List.length_append]
      omega
    rw [hpre, if_neg (not_and_not_left _)]
    have hul : unitLen (u0 :: (us ++ rest)) = us.length + 1 := by
      have h := unitLen_append (u0 :: us) rest huc hrest
      rw [List.cons_append] at h
      rw [h, List.length_cons]
    rw [hul, if_neg (show ¬(us.length + 1 = 0) from by omega)]
    have htake : List.take (us.length + 1) (u0 :: (us ++ rest)) = u0 :: us := by
      have h := List.take_left (u0 :: us) rest
      rw [List.cons_append, List.length_cons] at h
      exact h
    have hdrop : List.drop (us.length + 1) (u0 :: (us ++ rest)) = rest := by
      have h := List.drop_left (u0 :: us) rest
      rw [List.cons_append, List.length_cons] at h
      exact h
    simp only [htake, hdrop, hunit]
    rw [if_neg (not_lt.2 ((Nat.le_div_iff_mul_le hupos).2 hvu))]
    rw [if_neg (show ¬((0 : Nat) > 0) from by omega)]
    rw [if_neg (show ¬((0 : Nat) > 0 ∧ decVal (d0 :: ds') * unit > 2 ^ 63) from
      fun hand => absurd hand.1 (by omega))]
    have hdb' : d + decVal (d0 :: ds') * unit ≤ 2 ^ 63 := by
      simp only [Nat.zero_mul, Nat.zero_div, Nat.add_zero] at hdb
      exact hdb
    rw [if_neg (not_lt.2 hdb')]
    simp only [Nat.zero_mul, Nat.zero_div, Nat.add_zero]
  · -- integer component with a dot and fraction digits
    simp only [List.cons_append]
    simp only [if_true]
    have hfhead : ∀ c cs, u0 :: (us ++ rest) = c :: cs → c.isDigit = false := by
      intro c cs hc
      injection hc with h1 _
      rw [← h1]
      exact hu0.2
    have hLF : leadingFractionGo 0 1 false (fds ++ u0 :: (us ++ rest)) =
        (decVal fds, 10 ^ fds.length, u0 :: (us ++ rest)) := by
      have h := leadingFractionGo_spec fds (u0 :: (us ++ rest)) 0 1 hfds hfhead hFle
      rw [show decValFrom 0 fds = decVal fds from rfl, one_mul] at h
      exact h
    simp only [hLF]
    have hpost : decide ((u0 :: (us ++ rest)).length ≠
        (fds ++ u0 :: (us ++ rest)).length) = true := by
      refine decide_eq_true ?_
      simp only [List.length_cons, List.length_append]
      have := List.length_pos.2 hfds_ne
      omega
    rw [hpost, if_neg (not_and_not_right _)]
    have hul : unitLen (u0 :: (us ++ rest)) = us.length + 1 := by
      have h := unitLen_append (u0 :: us) rest huc hrest
      rw [List.cons_append] at h
      rw [h, List.length_cons]
    rw [hul, if_neg (show ¬(us.length + 1 = 0) from by omega)]
    have htake : List.take (us.length + 1) (u0 :: (us ++ rest)) = u0 :: us := by
      have h := List.take_left (u0 :: us) rest
      rw [List.cons_append, List.length_cons] at h
      exact h
    have hdrop : List.drop (us.length + 1) (u0 :: (us ++ rest)) = rest := by
      have h := List.drop_left (u0 :: us) rest
      rw [List.cons_append, List.length_cons] at h
      exact h
    simp only [htake, hdrop, hunit]
    rw [if_neg (not_lt.2 ((Nat.le_div_iff_mul_le hupos).2 hvu))]
    rw [if_pos hFpos]
    rw [if_neg (show ¬(decVal fds > 0 ∧
        decVal (d0 :: ds') * unit + decVal fds * unit / 10 ^ fds.length > 2 ^ 63) from
      fun hand => absurd hand.2 (not_lt.2 hvfu))]
    rw [if_neg (not_lt.2 hdb)]

theorem parseLoop_intUnit (fuel n unit d : Nat) (uc rest : List Char)
    (huc_ne : uc ≠ []) (huc : ∀ c ∈ uc, c ≠ '.' ∧ c.isDigit = false)
    (hunit : unitNanos (String.mk uc) = some unit) (hupos : 0 < unit)
    (hrest : ∀ c cs, rest = c :: cs → c.isDigit = true)
    (hb : d + n * unit ≤ 2 ^ 63) :
    parseLoop (fuel + 1) (fmtIntChars n ++ uc ++ rest) d =
      parseLoop fuel rest (d + n * unit) := by
  have h := parseLoop_component fuel (fmtIntChars n) [] uc rest 0 1 unit d
    (fmtIntChars_ne_nil n) (fmtIntChars_digits n) (Or.inl ⟨rfl, rfl, rfl⟩)
    huc_ne huc hunit hupos hrest ?_ ?_ ?_
  · rw [decVal_fmtIntChars] at h
    simp only [List.append_nil, Nat.zero_mul, Nat.zero_div, Nat.add_zero] at h
    exact h
  · rw [decVal_fmtIntChars]; omega
  · rw [decVal_fmtIntChars]
    simp only [Nat.zero_mul, Nat.zero_div, Nat.add_zero]
    omega
  · rw [decVal_fmtIntChars]
    simp only [Nat.zero_mul, Nat.zero_div, Nat.add_zero]
    omega

theorem parseLoop_secPart (k sec rr d : Nat) (hrr : rr < 1000)
    (hb : d + ((sec % 60) * 1000000000 + rr * 1000000) ≤ 2 ^ 63) :
    parseLoop (k + 2) (fmtIntChars (sec % 60) ++
        (if rr = 0 then [] else '.' :: fracChars3 rr) ++ ['s']) d =
      some (d + ((sec % 60) * 1000000000 + rr * 1000000)) := by
  rw [show k + 2 = k + 1 + 1 from by omega]
  by_cases h0 : rr = 0
  · subst h0
    rw [if_pos rfl]
    simp only [List.append_nil]
    have h := parseLoop_intUnit (k + 1) (sec % 60) 1000000000 d ['s'] []
      (by decide) (by decide) rfl (by norm_num)
      (fun c cs hc => List.noConfusion hc) (by omega)
    simp only [List.append_nil] at h
    rw [h]
    rw [show parseLoop (k + 1) [] (d + sec % 60 * 1000000000) =
      some (d + sec % 60 * 1000000000) from rfl]
    norm_num
  · rw [if_neg h0]
    obtain ⟨hne, hdig, hpos, hle, hdiv⟩ := fracChars3_spec rr (by omega) h0
    have h := parseLoop_component (k + 1) (fmtIntChars (sec % 60)) ('.' :: fracChars3 rr)
      ['s'] [] (decVal (fracChars3 rr)) (10 ^ (fracChars3 rr).length) 1000000000 d
      (fmtIntChars_ne_nil _) (fmtIntChars_digits _)
      (Or.inr ⟨fracChars3 rr, rfl, hne, hdig, rfl, rfl, hpos, hle⟩)
      (by decide) (by decide) rfl (by norm_num)
      (fun c cs hc => List.noConfusion hc) ?_ ?_ ?_
    · rw [decVal_fmtIntChars, hdiv] at h
      simp only [List.append_nil] at h
      rw [h]
      rfl
    · rw [decVal_fmtIntChars]; omega
    · rw [decVal_fmtIntChars, hdiv]; omega
    · rw [decVal_fmtIntChars, hdiv]; omega

theorem length_pos_fmtIntChars (n : Nat) : 0 < (fmtIntChars n).length :=
  List.length_pos.2 (fmtIntChars_ne_nil n)

theorem head_digit_of_append2 (n : Nat) (b c : List Char) :
    ∀ x xs, fmtIntChars n ++ b ++ c = x :: xs → x.isDigit = true := by
  obtain ⟨c0, cs0, hfc, hd⟩ := fmtIntChars_head n
  intro x xs hx
  rw [hfc, List.cons_append, List.cons_append] at hx
  injection hx with h1 _
  rw [← h1]
  exact hd

set_option maxHeartbeats 1000000 in
theorem parseLoop_msChars (m : Nat) (h1 : 0 < m) (hub : m * 1000000 < 2 ^ 63) :
    parseLoop ((msChars m).length + 1) (msChars m) 0 = some (m * 1000000) := by
  have hub' : m * 1000000 ≤ 9223372036854775808 := by rw [two_pow_63] at hub; omega
  simp only [msChars]
  by_cases hm : m < 1000
  · rw [if_pos hm]
    have h := parseLoop_intUnit ((fmtIntChars m ++ ['m', 's']).length) m 1000000 0 ['m', 's'] []
      (by decide) (by decide) rfl (by norm_num) (fun c cs hc => List.noConfusion hc)
      (by rw [two_pow_63]; omega)
    simp only [List.append_nil, Nat.zero_add] at h
    rw [h]
    obtain ⟨k, hk⟩ : ∃ k, (fmtIntChars m ++ ['m', 's']).length = k + 1 :=
      ⟨(fmtIntChars m ++ ['m', 's']).length - 1, by
        have := length_pos_fmtIntChars m
        simp only [List.length_append]
        omega⟩
    rw [hk]
    rfl
  · rw [if_neg hm]
    by_cases hmin : m / 1000 / 60 = 0
    · rw [if_pos hmin]
      obtain ⟨k, hk⟩ : ∃ k, (fmtIntChars (m / 1000 % 60) ++
          (if m % 1000 = 0 then [] else '.' :: fracChars3 (m % 1000)) ++ ['s']).length + 1 =
          k + 2 :=
        ⟨(fmtIntChars (m / 1000 % 60) ++
          (if m % 1000 = 0 then [] else '.' :: fracChars3 (m % 1000)) ++ ['s']).length - 1, by
          have := length_pos_fmtIntChars (m / 1000 % 60)
          simp only [List.length_append]
          omega⟩
      rw [hk]
      rw [parseLoop_secPart k (m / 1000) (m % 1000) 0 (by omega)
        (by rw [two_pow_63]; omega)]
      exact congrArg some (by omega)
    · rw [if_neg hmin]
      by_cases hhr : m / 1000 / 60 / 60 = 0
      · rw [if_pos hhr]
        rw [List.append_cons (fmtIntChars (m / 1000 / 60 % 60)) 'm'
          (fmtIntChars (m / 1000 % 60) ++
            (if m % 1000 = 0 then [] else '.' :: fracChars3 (m % 1000)) ++ ['s'])]
        obtain ⟨k, hk⟩ : ∃ k, ((fmtIntChars (m / 1000 / 60 % 60) ++ ['m']) ++
            (fmtIntChars (m / 1000 % 60) ++
              (if m % 1000 = 0 then [] else '.' :: fracChars3 (m % 1000)) ++ ['s'])).length + 1 =
            k + 3 :=
        ⟨((fmtIntChars (m / 1000 / 60 % 60) ++ ['m']) ++
            (fmtIntChars (m / 1000 % 60) ++
              (if m % 1000 = 0 then [] else '.' :: fracChars3 (m % 1000)) ++ ['s'])).length - 2, by
          have := length_pos_fmtIntChars (m / 1000 / 60 % 60)
          have := length_pos_fmtIntChars (m / 1000 % 60)
          simp only [List.length_append]
          omega⟩
        rw [hk]
        rw [show k + 3 = (k + 2) + 1 from by omega]
        rw [parseLoop_intUnit (k + 2) (m / 1000 / 60 % 60) 60000000000 0 ['m']
          (fmtIntChars (m / 1000 % 60) ++
            (if m % 1000 = 0 then [] else '.' :: fracChars3 (m % 1000)) ++ ['s'])
          (by decide) (by decide) rfl (by norm_num)
          (head_digit_of_append2 _ _ _) (by rw [two_pow_63]; omega)]
        rw [parseLoop_secPart k (m / 1000) (m % 1000) (0 + m / 1000 / 60 % 60 * 60000000000)
          (by omega) (by rw [two_pow_63]; omega)]
        exact congrArg some (by omega)
      · rw [if_neg hhr]
        rw [List.append_cons (fmtIntChars (m / 1000 / 60 / 60)) 'h'
          (fmtIntChars (m / 1000 / 60 % 60) ++ 'm' ::
            (fmtIntChars (m / 1000 % 60) ++
              (if m % 1000 = 0 then [] else '.' :: fracChars3 (m % 1000)) ++ ['s']))]
        rw [List.append_cons (fmtIntChars (m / 1000 / 60 % 60)) 'm'
          (fmtIntChars (m / 1000 % 60) ++
            (if m % 1000 = 0 then [] else '.' :: fracChars3 (m % 1000)) ++ ['s'])]
        obtain ⟨k, hk⟩ : ∃ k, ((fmtIntChars (m / 1000 / 60 / 60) ++ ['h']) ++
            ((fmtIntChars (m / 1000 / 60 % 60) ++ ['m']) ++
              (fmtIntChars (m / 1000 % 60) ++
                (if m % 1000 = 0 then [] else '.' :: fracChars3 (m % 1000)) ++ ['s']))).length + 1 =
            k + 4 :=
        ⟨((fmtIntChars (m / 1000 / 60 / 60) ++ ['h']) ++
            ((fmtIntChars (m / 1000 / 60 % 60) ++ ['m']) ++
              (fmtIntChars (m / 1000 % 60) ++
                (if m % 1000 = 0 then [] else '.' :: fracChars3 (m % 1000)) ++ ['s']))).length - 3, by
          have := length_pos_fmtIntChars (m / 1000 / 60 / 60)
          have := length_pos_fmtIntChars (m / 1000 / 60 % 60)
          have := length_pos_fmtIntChars (m / 1000 % 60)
          simp only [List.length_append]
          omega⟩
        rw [hk]
        rw [show k + 4 = (k + 3) + 1 from by omega]
        rw [parseLoop_intUnit (k + 3) (m / 1000 / 60 / 60) 3600000000000 0 ['h']
          ((fmtIntChars (m / 1000 / 60 % 60) ++ ['m']) ++
            (fmtIntChars (m / 1000 % 60) ++
              (if m % 1000 = 0 then [] else '.' :: fracChars3 (m % 1000)) ++ ['s']))
          (by decide) (by decide) rfl (by norm_num)
          (head_digit_of_append2 _ _ _) (by rw [two_pow_63]; omega)]
        rw [show k + 3 = (k + 2) + 1 from by omega]
        rw [parseLoop_intUnit (k + 2) (m / 1000 / 60 % 60) 60000000000
          (0 + m / 1000 / 60 / 60 * 3600000000000) ['m']
          (fmtIntChars (m / 1000 % 60) ++
            (if m % 1000 = 0 then [] else '.' :: fracChars3 (m % 1000)) ++ ['s'])
          (by decide) (by decide) rfl (by norm_num)
          (head_digit_of_append2 _ _ _) (by rw [two_pow_63]; omega)]
        rw [parseLoop_secPart k (m / 1000) (m % 1000)
          (0 + m / 1000 / 60 / 60 * 3600000000000 + m / 1000 / 60 % 60 * 60000000000)
          (by omega) (by rw [two_pow_63]; omega)]
        exact congrArg some (by omega)

theorem sPart_classes (sec rr : Nat) (hrr : rr < 1000) :
    ∀ c ∈ fmtIntChars (sec % 60) ++
      (if rr = 0 then [] else '.' :: fracChars3 rr) ++ ['s'],
      c.isDigit = true ∨ c ∈ (['m', 's', 'h', '.'] : List Char) := by
  intro c hc
  rcases List.mem_append.1 hc with hc | hc
  · rcases List.mem_append.1 hc with hc | hc
    · exact Or.inl (fmtIntChars_digits _ _ hc)
    · by_cases h0 : rr = 0
      · rw [if_pos h0] at hc
        exact absurd hc (List.not_mem_nil c)
      · rw [if_neg h0] at hc
        rcases List.mem_cons.1 hc with rfl | hc
        · exact Or.inr (by decide)
        · exact Or.inl ((fracChars3_spec rr hrr h0).2.1 c hc)
  · rcases List.mem_cons.1 hc with rfl | hc
    · exact Or.inr (by decide)
    · exact absurd hc (List.not_mem_nil c)

theorem msChars_classes (m : Nat) : ∀ c ∈ msChars m,
    c.isDigit = true ∨ c ∈ (['m', 's', 'h', '.'] : List Char) := by
  simp only [msChars]
  intro c hc
  by_cases hm : m < 1000
  · rw [if_pos hm] at hc
    rcases List.mem_append.1 hc with hc | hc
    · exact Or.inl (fmtIntChars_digits _ _ hc)
    · rcases List.mem_cons.1 hc with rfl | hc
      · exact Or.inr (by decide)
      · rcases List.mem_cons.1 hc with rfl | hc
        · exact Or.inr (by decide)
        · exact absurd hc (List.not_mem_nil c)
  · rw [if_neg hm] at hc
    by_cases hmin : m / 1000 / 60 = 0
    · rw [if_pos hmin] at hc
      exact sPart_classes _ _ (by omega) c hc
    · rw [if_neg hmin] at hc
      by_cases hhr : m / 1000 / 60 / 60 = 0
      · rw [if_pos hhr] at hc
        rcases List.mem_append.1 hc with hc | hc
        · exact Or.inl (fmtIntChars_digits _ _ hc)
        · rcases List.mem_cons.1 hc with rfl | hc
          · exact Or.inr (by decide)
          · exact sPart_classes _ _ (by omega) c hc
      · rw [if_neg hhr] at hc
        rcases List.mem_append.1 hc with hc | hc
        · exact Or.inl (fmtIntChars_digits _ _ hc)
        · rcases List.mem_cons.1 hc with rfl | hc
          · exact Or.inr (by decide)
          · rcases List.mem_append.1 hc with hc | hc
            · exact Or.inl (fmtIntChars_digits _ _ hc)
            · rcases List.mem_cons.1 hc with rfl | hc
              · exact Or.inr (by decide)
              · exact sPart_classes _ _ (by omega) c hc

theorem msChars_nonspace (m : Nat) : ∀ c ∈ msChars m, isGoSpace c = false := by
  intro c hc
  rcases msChars_classes m c hc with h | h
  · exact isGoSpace_of_isDigit c h
  · fin_cases h <;> decide

theorem msChars_s_mem (m : Nat) : 's' ∈ msChars m := by
  simp only [msChars]
  by_cases hm : m < 1000
  · rw [if_pos hm]
    exact List.mem_append_right _ (by decide)
  · rw [if_neg hm]
    have hs : 's' ∈ fmtIntChars (m / 1000 % 60) ++
        (if m % 1000 = 0 then [] else '.' :: fracChars3 (m % 1000)) ++ ['s'] :=
      List.mem_append_right _ (by decide)
    by_cases hmin : m / 1000 / 60 = 0
    · rw [if_pos hmin]
      exact hs
    · rw [if_neg hmin]
      by_cases hhr : m / 1000 / 60 / 60 = 0
      · rw [if_pos hhr]
        exact List.mem_append_right _ (List.mem_cons_of_mem _ hs)
      · rw [if_neg hhr]
        exact List.mem_append_right _ (List.mem_cons_of_mem _
          (List.mem_append_right _ (List.mem_cons_of_mem _ hs)))

theorem head_cons_of_append2 (n : Nat) (b c : List Char) :
    ∃ x xs, fmtIntChars n ++ b ++ c = x :: xs ∧ x.isDigit = true := by
  obtain ⟨c0, cs0, hfc, hd⟩ := fmtIntChars_head n
  refine ⟨c0, cs0 ++ b ++ c, ?_, hd⟩
  rw [hfc, List.cons_append, List.cons_append]

theorem msChars_head (m : Nat) : ∃ c cs, msChars m = c :: cs ∧ c.isDigit = true := by
  simp only [msChars]
  by_cases hm : m < 1000
  · rw [if_pos hm]
    obtain ⟨c0, cs0, hfc, hd⟩ := fmtIntChars_head m
    exact ⟨c0, cs0 ++ ['m', 's'], by rw [hfc, List.cons_append], hd⟩
  · rw [if_neg hm]
    by_cases hmin : m / 1000 / 60 = 0
    · rw [if_pos hmin]
      exact head_cons_of_append2 _ _ _
    · rw [if_neg hmin]
      by_cases hhr : m / 1000 / 60 / 60 = 0
      · rw [if_pos hhr]
        obtain ⟨c0, cs0, hfc, hd⟩ := fmtIntChars_head (m / 1000 / 60 % 60)
        exact ⟨c0, _, by rw [hfc, List.cons_append], hd⟩
      · rw [if_neg hhr]
        obtain ⟨c0, cs0, hfc, hd⟩ := fmtIntChars_head (m / 1000 / 60 / 60)
        exact ⟨c0, _, by rw [hfc, List.cons_append], hd⟩

theorem goAtoi_none_of_mem (c0 : Char) (cs0 : List Char) (x : Char)
    (h0 : c0.isDigit = true) (hx : x ∈ c0 :: cs0) (hxd : x.isDigit = false) :
    goAtoi (String.mk (c0 :: cs0)) = none := by
  simp only [goAtoi, stripSign_digit c0 cs0 h0]
  rw [if_pos (Or.inr ?_)]
  intro hall
  have := List.all_eq_true.1 hall x hx
  rw [hxd] at this
  exact Bool.noConfusion this

theorem goParseDuration_of_loop (c0 : Char) (cs0 : List Char) (D : Nat)
    (h0 : c0.isDigit = true) (hsmem : 's' ∈ c0 :: cs0)
    (hloop : parseLoop ((c0 :: cs0).length + 1) (c0 :: cs0) 0 = some D)
    (hD : D ≤ 2 ^ 63 - 1) :
    goParseDuration (String.mk (c0 :: cs0)) = some ((D : Nat) : Int) := by
  simp only [goParseDuration, stripSign_digit c0 cs0 h0]
  rw [if_neg ?h01]
  case h01 =>
    intro he
    rw [he] at hsmem
    simp at hsmem
  rw [if_neg (show ¬(c0 :: cs0 = []) from List.cons_ne_nil c0 cs0)]
  simp only [hloop]
  rw [if_neg (show ¬(false = true) from fun he => Bool.noConfusion he)]
  rw [if_neg (show ¬(D > 2 ^ 63 - 1) from by omega)]

theorem ParseDurationToMillis_of_loop (c0 : Char) (cs0 : List Char) (D : Nat)
    (h0 : c0.isDigit = true)
    (hns : ∀ c ∈ c0 :: cs0, isGoSpace c = false)
    (hsmem : 's' ∈ c0 :: cs0)
    (hloop : parseLoop ((c0 :: cs0).length + 1) (c0 :: cs0) 0 = some D)
    (hD : D ≤ 2 ^ 63 - 1) :
    Internal.ParseDurationToMillis (String.mk (c0 :: cs0)) =
      Except.ok ((D / 1000000 : Nat) : Int) := by
  have htrim : goTrimSpace (String.mk (c0 :: cs0)) = String.mk (c0 :: cs0) :=
    goTrimSpace_eq_self _ hns
  simp only [Internal.ParseDurationToMillis, htrim]
  rw [if_neg (string_mk_ne_empty c0 cs0)]
  rw [goAtoi_none_of_mem c0 cs0 's' h0 hsmem (by decide)]
  simp only [goParseDuration_of_loop c0 cs0 D h0 hsmem hloop hD]
  rw [show Int.tdiv ((D : Nat) : Int) 1000000 = ((D / 1000000 : Nat) : Int) from rfl]

theorem parse_msChars (m : Nat) (h1 : 0 < m) (hub : m * 1000000 < 2 ^ 63) :
    Internal.ParseDurationToMillis (String.mk (msChars m)) = Except.ok ((m : Nat) : Int) := by
  obtain ⟨c0, cs0, hl, h0⟩ := msChars_head m
  have hloop := parseLoop_msChars m h1 hub
  rw [hl] at hloop
  have h := ParseDurationToMillis_of_loop c0 cs0 (m * 1000000) h0
    (by rw [← hl]; exact msChars_nonspace m)
    (by rw [← hl]; exact msChars_s_mem m)
    hloop (by omega)
  rw [← hl] at h
  rw [Nat.mul_div_cancel m (by norm_num)] at h
  exact h

theorem parse_bare_int (n : Nat) (hb : n ≤ 2 ^ 63 - 1) :
    Internal.ParseDurationToMillis (String.mk (fmtIntChars n)) = Except.ok ((n : Nat) : Int) := by
  obtain ⟨c0, cs0, hl, h0⟩ := fmtIntChars_head n
  have hns : ∀ c ∈ fmtIntChars n, isGoSpace c = false :=
    fun c hc => isGoSpace_of_isDigit c (fmtIntChars_digits n c hc)
  have htrim : goTrimSpace (String.mk (fmtIntChars n)) = String.mk (fmtIntChars n) :=
    goTrimSpace_eq_self _ hns
  simp only [Internal.ParseDurationToMillis, htrim]
  rw [hl]
  rw [if_neg (string_mk_ne_empty c0 cs0)]
  have hatoi : goAtoi (String.mk (c0 :: cs0)) = some ((n : Nat) : Int) := by
    simp only [goAtoi, stripSign_digit c0 cs0 h0]
    rw [if_neg ?hcond]
    case hcond =>
      intro hor
      rcases hor with he | hall
      · exact absurd he (List.cons_ne_nil c0 cs0)
      · refine hall (List.all_eq_true.2 ?_)
        intro x hx
        rw [← hl] at hx
        exact fmtIntChars_digits n x hx
    rw [if_neg (show ¬(false = true) from fun he => Bool.noConfusion he)]
    rw [show decVal (c0 :: cs0) = n from by rw [← hl]; exact decVal_fmtIntChars n]
    rw [if_pos hb]
  simp only [hatoi]

/-- **C3 (corrected).** The duration codec round-trips within the int64 range. -/
theorem C3_duration_codec_bounded_roundtrip :
    Internal.ParseDurationToMillis "" = Except.ok 0 ∧
    Internal.FormatMillisAsDuration 0 = "" ∧
    Internal.FormatMillisAsDuration 30000 = "30s" ∧
    Internal.FormatMillisAsDuration 1500 = "1.5s" ∧
    (∀ m : Nat, m * 1000000 < 2 ^ 63 →
      Internal.ParseDurationToMillis (Internal.FormatMillisAsDuration ((m : Nat) : Int)) =
        Except.ok ((m : Nat) : Int)) ∧
    (∀ n : Nat, n ≤ 2 ^ 63 - 1 →
      Internal.ParseDurationToMillis (String.mk (fmtIntChars n)) =
        Except.ok ((n : Nat) : Int)) ∧
    (∀ s : String, goTrimSpace s ≠ "" → goAtoi (goTrimSpace s) = none →
      goParseDuration (goTrimSpace s) = none →
      Internal.ParseDurationToMillis s =
        Except.error ("invalid duration " ++ goTrimSpace s)) := by
  refine ⟨rfl, rfl, rfl, rfl, ?_, parse_bare_int, ?_⟩
  · intro m hub
    by_cases h0 : m = 0
    · subst h0
      rfl
    · rw [format_eq_msChars m (by omega) hub]
      exact parse_msChars m (by omega) hub
  · intro s hne hatoi hpd
    simp only [Internal.ParseDurationToMillis]
    rw [if_neg hne]
    simp only [hatoi, hpd]

/-- **C3 counterexample.** Round-trip fails above the int64 nanosecond range. -/
theorem C3_duration_roundtrip_counterexample :
    Internal.ParseDurationToMillis
        (Internal.FormatMillisAsDuration 9223372036854776) = Except.ok 0 ∧
    (9223372036854776 : Int) ≠ 0 :=
  ⟨rfl, by decide⟩

/-- **C3 witness.** -/
theorem C3_duration_codec_witness :
    Internal.ParseDurationToMillis (Internal.FormatMillisAsDuration ((30000 : Nat) : Int)) =
      Except.ok ((30000 : Nat) : Int) ∧
    Internal.ParseDurationToMillis (String.mk (fmtIntChars 250)) =
      Except.ok ((250 : Nat) : Int) ∧
    Internal.ParseDurationToMillis "bogus" = Except.error "invalid duration bogus" :=
  ⟨C3_duration_codec_bounded_roundtrip.2.2.2.2.1 30000 (by norm_num),
   C3_duration_codec_bounded_roundtrip.2.2.2.2.2.1 250 (by norm_num),
   C3_duration_codec_bounded_roundtrip.2.2.2.2.2.2 "bogus" (by decide) rfl rfl⟩

/-! ### Timeout re-rendering in the comparison path (claim C9) -/

theorem roundtrip_millis (mnat : Nat) (hub : mnat * 1000000 < 2 ^ 63) :
    Internal.ParseDurationToMillis (Internal.FormatMillisAsDuration ((mnat : Nat) : Int)) =
      Except.ok ((mnat : Nat) : Int) := by
  by_cases h0 : mnat = 0
  · subst h0
    rfl
  · rw [format_eq_msChars mnat (by omega) hub]
    exact parse_msChars mnat (by omega) hub

/-- **C9.** In the comparison path, wire timeouts are re-rendered as duration
strings before the deep comparison, so a manifest spelling the same timeout
differently is PUT again even though the marshalled payload is wire-identical
to the remote state. -/
theorem C9_timeout_rerendering_forces_put
    (mb : backendWithServers) (w : ApiWorld) (rawB : WireObj)
    (mnat : Nat) (v : Int) (payload : backendPayload)
    (hub : mnat * 1000000 < 2 ^ 63)
    (hval : backendValidate mb = .ok ())
    (hres : w.getResource
        ("/services/haproxy/configuration/backends/" ++ mb.config.name) = .ok rawB)
    (hver : w.version 0 = .ok v)
    (hwr : w.writeOk 0 = none)
    (hpay : backendToPayload mb = .ok payload)
    (hlist : w.getList ("/services/haproxy/configuration/backends/"
        ++ mb.config.name ++ "/servers") = .ok [])
    (hservers : mb.servers = [])
    (hpop : populateBackendConfigFromMap {} rawB =
      { mb.config with
          timeoutClient := Internal.FormatMillisAsDuration ((mnat : Nat) : Int) })
    (hms : Internal.ParseDurationToMillis mb.config.timeoutClient =
      .ok ((mnat : Nat) : Int))
    (hspell : mb.config.timeoutClient ≠
      Internal.FormatMillisAsDuration ((mnat : Nat) : Int)) :
    ApplyBackendFromYAML mb "" false w [] [] =
      ([ .getResource ("/services/haproxy/configuration/backends/" ++ mb.config.name)
       , .getVersion 0
       , .getList ("/services/haproxy/configuration/backends/" ++ mb.config.name
           ++ "/servers")
       , .put ("/services/haproxy/configuration/backends/" ++ mb.config.name) 0 v
           (.backendB payload) ], .ok .configured) ∧
    ∃ pr, backendToPayload { mb with config := populateBackendConfigFromMap {} rawB } =
        .ok pr ∧
      marshalBackendPayload payload = marshalBackendPayload pr := by
  have hcfg : ({ mb.config with
      timeoutClient := Internal.FormatMillisAsDuration ((mnat : Nat) : Int) } =
      mb.config) = False :=
    eq_false (fun h => hspell (congrArg backendConfig.timeoutClient h).symm)
  have hrt := roundtrip_millis mnat hub
  constructor
  · unfold ApplyBackendFromYAML
    rw [hval]
    simp only [ne_eq, not_true_eq_false, false_or, if_false]
    simp only [hres, hver, hpay, hlist, hservers, hwr, hpop]
    simp only [hcfg, false_and, if_false]
    rfl
  · unfold backendToPayload at hpay
    rw [hms] at hpay
    cases h2 : Internal.ParseDurationToMillis mb.config.timeoutHTTPKeepAlive with
    | error e =>
      rw [h2] at hpay
      simp only [bind, Except.bind] at hpay
      exact Except.noConfusion hpay
    | ok tka =>
    rw [h2] at hpay
    cases h3 : Internal.ParseDurationToMillis mb.config.timeoutHTTPRequest with
    | error e =>
      rw [h3] at hpay
      simp only [bind, Except.bind] at hpay
      exact Except.noConfusion hpay
    | ok thr =>
    rw [h3] at hpay
    cases h4 : Internal.ParseDurationToMillis mb.config.timeoutQueue with
    | error e =>
      rw [h4] at hpay
      simp only [bind, Except.bind] at hpay
      exact Except.noConfusion hpay
    | ok tq =>
    rw [h4] at hpay
    cases h5 : Internal.ParseDurationToMillis mb.config.timeoutServer with
    | error e =>
      rw [h5] at hpay
      simp only [bind, Except.bind] at hpay
      exact Except.noConfusion hpay
    | ok ts =>
    rw [h5] at hpay
    cases h6 : Internal.ParseDurationToMillis mb.config.timeoutServerFin with
    | error e =>
      rw [h6] at hpay
      simp only [bind, Except.bind] at hpay
      exact Except.noConfusion hpay
    | ok tsf =>
    rw [h6] at hpay
    simp only [bind, Except.bind, pure, Except.pure, Except.ok.injEq] at hpay
    have hpr : backendToPayload { mb with config := populateBackendConfigFromMap {} rawB } =
        .ok { config := populateBackendConfigFromMap {} rawB
              timeoutClient := if ((mnat : Nat) : Int) > 0 then ((mnat : Nat) : Int) else 0
              timeoutHTTPKeepAlive := if tka > 0 then tka else 0
              timeoutHTTPRequest := if thr > 0 then thr else 0
              timeoutQueue := if tq > 0 then tq else 0
              timeoutServer := if ts > 0 then ts else 0
              timeoutServerFin := if tsf > 0 then tsf else 0
              tcpka := if mb.config.tcpka = true then "enabled" else ""
              redispatch := if mb.config.redispatch = true then
                some { enabled := "enabled", interval := 0 } else none } := by
      unfold backendToPayload
      rw [hpop]
      dsimp only
      rw [hrt, h2, h3, h4, h5, h6]
      simp only [bind, Except.bind, pure, Except.pure]
    refine ⟨_, hpr, ?_⟩
    rw [← hpay, hpop]
    rfl

/-- **C9 witness:** `manifestB9` spells its 30-second client timeout as
`"30000"`, the remote re-renders it as `"30s"`, and the apply issues a PUT and
reports `configured` though the marshalled payloads agree. -/
theorem C9_timeout_rerendering_witness :
    ApplyBackendFromYAML manifestB9 "" false worldB9 [] [] =
      ([ .getResource "/services/haproxy/configuration/backends/b1"
       , .getVersion 0
       , .getList "/services/haproxy/configuration/backends/b1/servers"
       , .put "/services/haproxy/configuration/backends/b1" 0 7 (.backendB payloadB9) ],
       .ok .configured) ∧
    ∃ pr, backendToPayload { manifestB9 with
        config := populateBackendConfigFromMap {} rawBackendB9 } = .ok pr ∧
      marshalBackendPayload payloadB9 = marshalBackendPayload pr :=
  C9_timeout_rerendering_forces_put manifestB9 worldB9 rawBackendB9 30000 7 payloadB9
    (by norm_num) rfl rfl rfl rfl rfl rfl rfl rfl rfl (by decide)

/-! ### Fresh version token per write (claim C8) -/

theorem writeVIdxs_nil : writeVIdxs [] = [] := rfl

theorem writeVIdxs_append (t1 t2 : List ApiCall) :
    writeVIdxs (t1 ++ t2) = writeVIdxs t1 ++ writeVIdxs t2 := by
  unfold writeVIdxs
  exact List.filterMap_append _ _ _

theorem writeVIdxs_getResource (p : String) (t : List ApiCall) :
    writeVIdxs (.getResource p :: t) = writeVIdxs t := rfl

theorem writeVIdxs_getList (p : String) (t : List ApiCall) :
    writeVIdxs (.getList p :: t) = writeVIdxs t := rfl

theorem writeVIdxs_getVersion (i : Nat) (t : List ApiCall) :
    writeVIdxs (.getVersion i :: t) = writeVIdxs t := rfl

theorem writeVIdxs_post (p : String) (i : Nat) (v : Int) (b : Body) (t : List ApiCall) :
    writeVIdxs (.post p i v b :: t) = i :: writeVIdxs t := rfl

theorem writeVIdxs_put (p : String) (i : Nat) (v : Int) (b : Body) (t : List ApiCall) :
    writeVIdxs (.put p i v b :: t) = i :: writeVIdxs t := rfl

theorem writeVIdxs_del (p : String) (i : Nat) (v : Int) (t : List ApiCall) :
    writeVIdxs (.del p i v :: t) = i :: writeVIdxs t := rfl

theorem vIdxInv_nil (c : Ctr) : vIdxInv c [] c :=
  ⟨le_refl _, List.Pairwise.nil, fun i hi => absurd hi (List.not_mem_nil i)⟩

theorem vIdxInv_append (c c1 c2 : Ctr) (t1 t2 : List ApiCall)
    (h1 : vIdxInv c t1 c1) (h2 : vIdxInv c1 t2 c2) : vIdxInv c (t1 ++ t2) c2 := by
  obtain ⟨m1, p1, b1⟩ := h1
  obtain ⟨m2, p2, b2⟩ := h2
  refine ⟨le_trans m1 m2, ?_, ?_⟩
  · rw [writeVIdxs_append]
    refine List.pairwise_append.2 ⟨p1, p2, ?_⟩
    intro a ha b hb
    exact lt_of_lt_of_le (b1 a ha).2 (b2 b hb).1
  · rw [writeVIdxs_append]
    intro i hi
    rcases List.mem_append.1 hi with h | h
    · exact ⟨(b1 i h).1, lt_of_lt_of_le (b1 i h).2 m2⟩
    · exact ⟨le_trans m1 (b2 i h).1, (b2 i h).2⟩

theorem vIdxInv_DeleteServer (w : ApiWorld) (c : Ctr) (bn k : String) :
    vIdxInv c (DeleteServer w c bn k).1 (DeleteServer w c bn k).2.1 := by
  unfold DeleteServer
  cases h : w.version c.vIdx with
  | error e =>
    refine ⟨by dsimp; omega, ?_, ?_⟩
    · rw [show writeVIdxs [ApiCall.getVersion c.vIdx] = [] from rfl]
      exact List.Pairwise.nil
    · rw [show writeVIdxs [ApiCall.getVersion c.vIdx] = [] from rfl]
      exact fun i hi => absurd hi (List.not_mem_nil i)
  | ok v =>
    refine ⟨by dsimp; omega, ?_, ?_⟩
    · rw [writeVIdxs_getVersion, writeVIdxs_del, writeVIdxs_nil]
      exact List.pairwise_singleton _ _
    · rw [writeVIdxs_getVersion, writeVIdxs_del, writeVIdxs_nil]
      intro i hi
      rw [List.mem_singleton.1 hi]
      dsimp
      omega

theorem vIdxInv_UpdateServer (w : ApiWorld) (c : Ctr) (s : ServerConfig) :
    vIdxInv c (UpdateServer w c s).1 (UpdateServer w c s).2.1 := by
  unfold UpdateServer
  cases h : w.version c.vIdx with
  | error e =>
    refine ⟨by dsimp; omega, ?_, ?_⟩
    · rw [show writeVIdxs [ApiCall.getVersion c.vIdx] = [] from rfl]
      exact List.Pairwise.nil
    · rw [show writeVIdxs [ApiCall.getVersion c.vIdx] = [] from rfl]
      exact fun i hi => absurd hi (List.not_mem_nil i)
  | ok v =>
    refine ⟨by dsimp; omega, ?_, ?_⟩
    · rw [writeVIdxs_getVersion, writeVIdxs_put, writeVIdxs_nil]
      exact List.pairwise_singleton _ _
    · rw [writeVIdxs_getVersion, writeVIdxs_put, writeVIdxs_nil]
      intro i hi
      rw [List.mem_singleton.1 hi]
      dsimp
      omega

theorem vIdxInv_CreateServer (w : ApiWorld) (c : Ctr) (s : ServerConfig) :
    vIdxInv c (CreateServer w c s "" false).1 (CreateServer w c s "" false).2.1 := by
  unfold CreateServer
  simp only [ne_eq, not_true_eq_false, false_or, Bool.false_eq_true, if_false]
  cases hn : NormalizeParent s with
  | error e => exact vIdxInv_nil c
  | ok s' =>
    dsimp only
    cases h : w.version c.vIdx with
    | error e =>
      refine ⟨by dsimp; omega, ?_, ?_⟩
      · rw [show writeVIdxs [ApiCall.getVersion c.vIdx] = [] from rfl]
        exact List.Pairwise.nil
      · rw [show writeVIdxs [ApiCall.getVersion c.vIdx] = [] from rfl]
        exact fun i hi => absurd hi (List.not_mem_nil i)
    | ok v =>
      refine ⟨by dsimp; omega, ?_, ?_⟩
      · rw [writeVIdxs_getVersion, writeVIdxs_post, writeVIdxs_nil]
        exact List.pairwise_singleton _ _
      · rw [writeVIdxs_getVersion, writeVIdxs_post, writeVIdxs_nil]
        intro i hi
        rw [List.mem_singleton.1 hi]
        dsimp
        omega

theorem vIdxInv_serverDeletePass (w : ApiWorld) (bn : String)
    (am : List (String × ServerConfig)) : ∀ (ks : List String) (c : Ctr),
    vIdxInv c (serverDeletePass w bn am ks c).1 (serverDeletePass w bn am ks c).2.1 := by
  intro ks
  induction ks with
  | nil => intro c; exact vIdxInv_nil c
  | cons k ks ih =>
    intro c
    simp only [serverDeletePass]
    by_cases hk : (lookupKey am k).isNone = true
    · rw [if_pos hk]
      have hop := vIdxInv_DeleteServer w c bn k
      cases h2 : (DeleteServer w c bn k).2.2 with
      | error e => exact hop
      | ok u => exact vIdxInv_append _ _ _ _ _ hop (ih _)
    · rw [if_neg hk]
      exact ih c

theorem vIdxInv_serverCreateUpdatePass (w : ApiWorld)
    (bm am : List (String × ServerConfig)) : ∀ (ks : List String) (c : Ctr),
    vIdxInv c (serverCreateUpdatePass w bm am ks c).1
      (serverCreateUpdatePass w bm am ks c).2.1 := by
  intro ks
  induction ks with
  | nil => intro c; exact vIdxInv_nil c
  | cons k ks ih =>
    intro c
    simp only [serverCreateUpdatePass]
    cases ha : lookupKey am k with
    | none => exact ih c
    | some newS =>
      dsimp only
      cases hb : lookupKey bm k with
      | none =>
        dsimp only
        have hop := vIdxInv_CreateServer w c newS
        cases h2 : (CreateServer w c newS "" false).2.2 with
        | error e => exact hop
        | ok u => exact vIdxInv_append _ _ _ _ _ hop (ih _)
      | some oldS =>
        dsimp only
        by_cases he : serverConfigEqual oldS newS = true
        · rw [if_pos he]
          exact ih c
        · rw [if_neg he]
          have hop := vIdxInv_UpdateServer w c newS
          cases h2 : (UpdateServer w c newS).2.2 with
          | error e => exact hop
          | ok u => exact vIdxInv_append _ _ _ _ _ hop (ih _)

theorem vIdxInv_applyServerDiff (w : ApiWorld) (c : Ctr) (bn : String)
    (before after : List ServerConfig) (ord1 ord2 : List String) :
    vIdxInv c (applyServerDiff w c bn before after ord1 ord2).1
      (applyServerDiff w c bn before after ord1 ord2).2.1 := by
  simp only [applyServerDiff]
  have hd := vIdxInv_serverDeletePass w bn (serverAfterMap bn after) ord1 c
  cases h1 : (serverDeletePass w bn (serverAfterMap bn after) ord1 c).2.2 with
  | error e => exact hd
  | ok u =>
    exact vIdxInv_append _ _ _ _ _ hd
      (vIdxInv_serverCreateUpdatePass w (serverBeforeMap before)
        (serverAfterMap bn after) ord2 _)

theorem vIdxInv_createServersPass (w : ApiWorld) (name : String) :
    ∀ (l : List ServerConfig) (c : Ctr),
    vIdxInv c (createServersPass w name l c).1 (createServersPass w name l c).2.1 := by
  intro l
  induction l with
  | nil => intro c; exact vIdxInv_nil c
  | cons srv rest ih =>
    intro c
    simp only [createServersPass]
    have hop := vIdxInv_CreateServer w c { srv with backend := name }
    cases h2 : (CreateServer w c { srv with backend := name } "" false).2.2 with
    | error e => exact hop
    | ok u => exact vIdxInv_append _ _ _ _ _ hop (ih _)

theorem nodup_zero_cons (l : List Nat) (hp : List.Pairwise (· < ·) l)
    (hpos : ∀ i ∈ l, 1 ≤ i) : (0 :: l).Nodup := by
  have h : List.Pairwise (· < ·) (0 :: l) :=
    List.pairwise_cons.2 ⟨fun b hb => lt_of_lt_of_le (by omega) (hpos b hb), hp⟩
  exact h.imp (fun hlt => Nat.ne_of_lt hlt)

theorem nodup_zero_cons_create (w : ApiWorld) (name : String)
    (servers : List ServerConfig) :
    (0 :: writeVIdxs (createServersPass w name servers
      { vIdx := 1, wIdx := 1 }).1).Nodup := by
  obtain ⟨_, hp2, hb2⟩ := vIdxInv_createServersPass w name servers { vIdx := 1, wIdx := 1 }
  exact nodup_zero_cons _ hp2 (fun i hi => (hb2 i hi).1)

theorem nodup_zero_cons_diff (w : ApiWorld) (bn : String)
    (before after : List ServerConfig) (o1 o2 : List String) :
    (0 :: writeVIdxs (applyServerDiff w { vIdx := 1, wIdx := 1 } bn before after
      o1 o2).1).Nodup := by
  obtain ⟨_, hp2, hb2⟩ := vIdxInv_applyServerDiff w { vIdx := 1, wIdx := 1 } bn
    before after o1 o2
  exact nodup_zero_cons _ hp2 (fun i hi => (hb2 i hi).1)

set_option maxHeartbeats 2000000 in
theorem nodup_writeVIdxs_ApplyBackend (mb : backendWithServers) (w : ApiWorld)
    (ord1 ord2 : List String) :
    (writeVIdxs (ApplyBackendFromYAML mb "" false w ord1 ord2).1).Nodup := by
  unfold ApplyBackendFromYAML
  simp only [ne_eq, not_true_eq_false, false_or, Bool.false_eq_true, if_false]
  repeat' split
  all_goals
    first
      | exact List.nodup_nil
      | exact List.nodup_singleton 0
      | exact nodup_zero_cons_create w mb.config.name mb.servers
      | exact nodup_zero_cons_diff w mb.config.name _ mb.servers ord1 ord2

theorem versionFetchCount_nil : versionFetchCount [] = 0 := rfl

theorem versionFetchCount_getVersion (i : Nat) (t : List ApiCall) :
    versionFetchCount (.getVersion i :: t) = versionFetchCount t + 1 := rfl

theorem versionFetchCount_post (p : String) (i : Nat) (v : Int) (b : Body)
    (t : List ApiCall) : versionFetchCount (.post p i v b :: t) = versionFetchCount t := rfl

theorem creationServerTrace_vfc (name : String) (vf : Nat → Int) :
    ∀ (l : List ServerConfig) (k : Nat),
    versionFetchCount (creationServerTrace name vf l k) = l.length := by
  intro l
  induction l with
  | nil => intro k; rfl
  | cons srv rest ih =>
    intro k
    simp only [creationServerTrace]
    rw [versionFetchCount_getVersion, versionFetchCount_post, ih (k + 1), List.length_cons]

theorem creationServerTrace_writeVIdxs (name : String) (vf : Nat → Int) :
    ∀ (l : List ServerConfig) (k : Nat),
    writeVIdxs (creationServerTrace name vf l k) = List.range' k l.length := by
  intro l
  induction l with
  | nil => intro k; rfl
  | cons srv rest ih =>
    intro k
    simp only [creationServerTrace]
    rw [writeVIdxs_getVersion, writeVIdxs_post, ih (k + 1), List.length_cons,
      List.range'_succ]

theorem createServersPass_spec (w : ApiWorld) (name : String) (vf : Nat → Int)
    (hname : name ≠ "")
    (hv : ∀ i, w.version i = .ok (vf i)) (hw : ∀ i, w.writeOk i = none) :
    ∀ (l : List ServerConfig) (c : Ctr),
      createServersPass w name l c =
        (creationServerTrace name vf l c.vIdx,
         { vIdx := c.vIdx + l.length, wIdx := c.wIdx + l.length }, .ok ()) := by
  intro l
  induction l with
  | nil => intro c; rfl
  | cons srv rest ih =>
    intro c
    simp only [createServersPass, creationServerTrace, CreateServer, NormalizeParent,
      ne_eq, not_true_eq_false, false_or, Bool.false_eq_true, if_false]
    by_cases hp : srv.parent = "" ∧ ¬ name = ""
    · rw [if_pos hp]
      dsimp only
      rw [if_neg hname]
      simp only [hv, hw, ih]
      simp only [List.cons_append, List.nil_append, Prod.mk.injEq, Ctr.mk.injEq,
        List.length_cons]
      exact ⟨trivial, ⟨by omega, by omega⟩, trivial⟩
    · rw [if_neg hp]
      have hp2 : ¬ srv.parent = "" := fun h => hp ⟨h, hname⟩
      rw [if_neg hp2]
      simp only [hv, hw, ih]
      simp only [List.cons_append, List.nil_append, Prod.mk.injEq, Ctr.mk.injEq,
        List.length_cons]
      exact ⟨trivial, ⟨by omega, by omega⟩, trivial⟩

theorem versionFetchCount_append (t1 t2 : List ApiCall) :
    versionFetchCount (t1 ++ t2) = versionFetchCount t1 + versionFetchCount t2 := by
  unfold versionFetchCount
  rw [List.filter_append, List.length_append]

/-- **C8.** No configuration-version token is reused across two mutating calls
of one apply invocation: the write ordinals of every backend apply trace are
pairwise distinct, and on the creation path the parent POST uses the version
fetched earlier while each child create performs its own fetch immediately
before its POST, so creating a parent with N children performs N+1 fetches and
the writes use the N+1 distinct ordinals 0..N. -/
theorem C8_fresh_version_token_per_write :
    (∀ (mb : backendWithServers) (w : ApiWorld) (ord1 ord2 : List String),
      (writeVIdxs (ApplyBackendFromYAML mb "" false w ord1 ord2).1).Nodup) ∧
    (∀ (mb : backendWithServers) (w : ApiWorld) (ord1 ord2 : List String)
        (vf : Nat → Int) (p : backendPayload) (e0 : String),
      backendValidate mb = .ok () →
      backendToPayload mb = .ok p →
      w.getResource ("/services/haproxy/configuration/backends/" ++ mb.config.name) =
        .error e0 →
      IsNotFoundError ("failed to get resource: " ++ e0) = true →
      (∀ i, w.version i = .ok (vf i)) →
      (∀ i, w.writeOk i = none) →
      ApplyBackendFromYAML mb "" false w ord1 ord2 =
        ([.getResource ("/services/haproxy/configuration/backends/" ++ mb.config.name),
          .getVersion 0,
          .post "/services/haproxy/configuration/backends" 0 (vf 0) (.backendB p)] ++
          creationServerTrace mb.config.name vf mb.servers 1,
         .ok .created) ∧
      versionFetchCount (ApplyBackendFromYAML mb "" false w ord1 ord2).1 =
        mb.servers.length + 1 ∧
      writeVIdxs (ApplyBackendFromYAML mb "" false w ord1 ord2).1 =
        List.range (mb.servers.length + 1)) := by
  refine ⟨nodup_writeVIdxs_ApplyBackend, ?_⟩
  intro mb w ord1 ord2 vf p e0 hval hpay hres hnf hv hw
  have hname : mb.config.name ≠ "" := by
    intro h
    unfold backendValidate at hval
    rw [if_pos h] at hval
    exact Except.noConfusion hval
  have happ : ApplyBackendFromYAML mb "" false w ord1 ord2 =
      ([.getResource ("/services/haproxy/configuration/backends/" ++ mb.config.name),
        .getVersion 0,
        .post "/services/haproxy/configuration/backends" 0 (vf 0) (.backendB p)] ++
        creationServerTrace mb.config.name vf mb.servers 1,
       .ok .created) := by
    unfold ApplyBackendFromYAML
    rw [hval]
    simp only [ne_eq, not_true_eq_false, false_or, Bool.false_eq_true, if_false]
    simp only [hres]
    rw [if_pos hnf]
    simp only [hv, hpay, hw]
    rw [createServersPass_spec w mb.config.name vf hname hv hw mb.servers
      { vIdx := 1, wIdx := 1 }]
    rfl
  refine ⟨happ, ?_, ?_⟩
  · rw [happ]
    show versionFetchCount ([ApiCall.getResource _, ApiCall.getVersion 0,
      ApiCall.post _ 0 (vf 0) (.backendB p)] ++
      creationServerTrace mb.config.name vf mb.servers 1) = mb.servers.length + 1
    rw [versionFetchCount_append, creationServerTrace_vfc]
    rw [show versionFetchCount [ApiCall.getResource
      ("/services/haproxy/configuration/backends/" ++ mb.config.name),
      ApiCall.getVersion 0, ApiCall.post "/services/haproxy/configuration/backends" 0
        (vf 0) (.backendB p)] = 1 from rfl]
    omega
  · rw [happ]
    show writeVIdxs ([ApiCall.getResource _, ApiCall.getVersion 0,
      ApiCall.post _ 0 (vf 0) (.backendB p)] ++
      creationServerTrace mb.config.name vf mb.servers 1) = _
    rw [writeVIdxs_append, creationServerTrace_writeVIdxs]
    rw [show writeVIdxs [ApiCall.getResource
      ("/services/haproxy/configuration/backends/" ++ mb.config.name),
      ApiCall.getVersion 0, ApiCall.post "/services/haproxy/configuration/backends" 0
        (vf 0) (.backendB p)] = [0] from rfl]
    rw [List.range_eq_range', List.range'_succ, List.singleton_append]

/-- **C8 witness:** a no-op apply of `manifestB1` has pairwise-distinct write
ordinals, and the creation path of `manifestB1` (one child) performs two
version fetches whose ordinals 0 and 1 are used by the two writes. -/
theorem C8_fresh_version_witness :
    (writeVIdxs (ApplyBackendFromYAML manifestB1 "" false worldMatchB1 [] []).1).Nodup ∧
    ApplyBackendFromYAML manifestB1 "" false worldNotFound [] [] =
      (creationTraceB1, .ok .created) ∧
    versionFetchCount creationTraceB1 = 2 ∧
    writeVIdxs creationTraceB1 = [0, 1] := by
  have h2 := C8_fresh_version_token_per_write.2 manifestB1 worldNotFound [] []
    (fun i => Int.ofNat (10 + i)) payloadB1 (apiErrorMessage 404 "not found")
    rfl rfl rfl rfl (fun i => rfl) (fun i => rfl)
  exact ⟨C8_fresh_version_token_per_write.1 manifestB1 worldMatchB1 [] [],
    h2.1, h2.2.1, h2.2.2⟩

end Haproxyctl
